import Mathlib

/-! The 32-bit CPU emulator (`32bit-CPU-emulator/cpu.c`)

A shallow embedding of the emulator core.  Conventions of the embedding:

* an `int32_t` is an `Int`; every arithmetic operation of the source on such a
  value is reduced by `wrap32` (two's-complement wrap-around);
* a `size_t` is a `Nat` reduced modulo `2 ^ 64`, a `long long` is an `Int`
  obtained through `to_long_long`;
* the memory buffer is a `List Int`; the pointers `stack_start` and `stack_end`
  are stored as word indices relative to the start of the buffer;
* an access outside the buffer is undefined behaviour of the source: the
  embedded function then yields `none`;
* the standard input is a list of bytes, the standard output the list of the
  `printf` calls performed; `scanf("%lld", _)` belongs to the C library and is a
  parameter of the instruction handlers;
* memory allocation (`calloc`, `realloc`, `malloc`) is taken to succeed.
-/

namespace Cpu32

/-! ## Machine integers -/

/-- Two's-complement reduction of an integer into the range of `int32_t`. -/
def wrap32 (x : Int) : Int := (x + 2147483648) % 4294967296 - 2147483648

/-- The integer is representable as an `int32_t`. -/
def int32 (x : Int) : Prop := -2147483648 ≤ x ∧ x ≤ 2147483647

instance (x : Int) : Decidable (int32 x) := by unfold int32; infer_instance

/-- Reduction of a natural number into the range of `size_t` (64 bits). -/
def size_t_wrap (n : Nat) : Nat := n % 18446744073709551616

/-- Conversion of an integer to `size_t` (64 bits). -/
def to_size_t (x : Int) : Nat := (x % 18446744073709551616).toNat

/-- Conversion of a `size_t` to `long long` (64 bits, two's complement). -/
def to_long_long (n : Nat) : Int :=
  ((n : Int) + 9223372036854775808) % 18446744073709551616 - 9223372036854775808

/-- The constant `INT32_MIN` of `stdint.h`. -/
@[simp] def INT32_MIN : Int := -2147483648

/-- The constant `INT32_MAX` of `stdint.h`. -/
@[simp] def INT32_MAX : Int := 2147483647

/-- The constant `EOF` of `stdio.h`. -/
@[simp] def EOF : Int := -1

/-! ## Status and register identifiers (`cpu.h`) -/

/-- Modelled from the spec: enumerator `CPU_OK` of `enum cpu_status` (declared in
`cpu.h`, which is not among the sources); the initial, only runnable status. -/
@[simp] def CPU_OK : Int := 0

/-- Modelled from the spec: enumerator `CPU_HALTED` of `enum cpu_status`. -/
@[simp] def CPU_HALTED : Int := 1

/-- Modelled from the spec: enumerator `CPU_ILLEGAL_INSTRUCTION` of `enum cpu_status`. -/
@[simp] def CPU_ILLEGAL_INSTRUCTION : Int := 2

/-- Modelled from the spec: enumerator `CPU_ILLEGAL_OPERAND` of `enum cpu_status`. -/
@[simp] def CPU_ILLEGAL_OPERAND : Int := 3

/-- Modelled from the spec: enumerator `CPU_INVALID_ADDRESS` of `enum cpu_status`. -/
@[simp] def CPU_INVALID_ADDRESS : Int := 4

/-- Modelled from the spec: enumerator `CPU_INVALID_STACK_OPERATION` of `enum cpu_status`. -/
@[simp] def CPU_INVALID_STACK_OPERATION : Int := 5

/-- Modelled from the spec: enumerator `CPU_DIV_BY_ZERO` of `enum cpu_status`. -/
@[simp] def CPU_DIV_BY_ZERO : Int := 6

/-- Modelled from the spec: enumerator `CPU_IO_ERROR` of `enum cpu_status`, the last
enumerator of the closed set. -/
@[simp] def CPU_IO_ERROR : Int := 7

/-- Modelled from the spec: enumerator `REGISTER_A` of `enum cpu_register` (ordinal 0). -/
@[simp] def REGISTER_A : Int := 0

/-- Modelled from the spec: enumerator `REGISTER_B` of `enum cpu_register` (ordinal 1). -/
@[simp] def REGISTER_B : Int := 1

/-- Modelled from the spec: enumerator `REGISTER_C` of `enum cpu_register` (ordinal 2). -/
@[simp] def REGISTER_C : Int := 2

/-- Modelled from the spec: enumerator `REGISTER_D` of `enum cpu_register` (ordinal 3). -/
@[simp] def REGISTER_D : Int := 3

/-! ## Machine state -/

/-- One call of `printf` made by the output instructions. -/
inductive out_event where
  | printf_d (value : Int)
  | printf_c (value : Int)
deriving DecidableEq, Repr

/-- The `struct cpu` of the source, with the buffer behind `memory_point` and the two
standard streams of the process that the input and output instructions touch. -/
structure cpu where
  reg_a : Int
  reg_b : Int
  reg_c : Int
  reg_d : Int
  next_instr : Int
  memory_point : List Int
  stack_start : Int
  stack_end : Int
  stack_amount : Int
  stack_last_val : Int
  stack_first_index : Int
  status : Int
  stdin : List (Fin 256)
  stdout : List out_event
deriving DecidableEq, Repr

/-- Read of `memory_point[i]`; `none` when the index is outside the buffer. -/
def mem_read (m : List Int) (i : Int) : Option Int :=
  if 0 ≤ i then m[i.toNat]? else none

/-- Write of `memory_point[i] = v`; `none` when the index is outside the buffer. -/
def mem_write (m : List Int) (i : Int) (v : Int) : Option (List Int) :=
  if 0 ≤ i ∧ i < m.length then some (m.set i.toNat v) else none

/-- The call `memset(p + i, 0, n * sizeof(int32_t))` on the buffer; `none` when the
range leaves the buffer or the count is negative. -/
def mem_zero (m : List Int) (i : Int) (n : Int) : Option (List Int) :=
  if n = 0 then some m
  else if 0 ≤ i ∧ 0 < n ∧ i + n ≤ m.length then
    some (m.take i.toNat ++ List.replicate n.toNat 0 ++ m.drop (i + n).toNat)
  else none

/-! ## Program loader -/

/-- The local variables of `cpu_create_memory`. -/
structure loader where
  cell : Int
  byte_counter : Int
  memory_length : Nat
  memory_index : Int
  p_memory : List Int
deriving DecidableEq, Repr

/-- The `while ((input = fgetc(program)) != EOF)` loop of `cpu_create_memory`, run over
the bytes that remain in the stream. -/
def cpu_create_memory_loop (stack_capacity : Nat) : List (Fin 256) → loader → Option loader
  | [], s => some s
  | b :: rest, s =>
    let input : Int := wrap32 ((b.val : Int) * 2 ^ (8 * s.byte_counter).toNat)
    let cell := wrap32 (s.cell + input)
    let byte_counter := s.byte_counter + 1
    if byte_counter = 4 then
      let grown : Nat × List Int :=
        if size_t_wrap (to_size_t s.memory_index + stack_capacity) ≥ s.memory_length then
          (s.memory_length + 1024,
            s.p_memory.take s.memory_index.toNat ++
              List.replicate (s.memory_length + 1024 - s.memory_index.toNat) 0)
        else (s.memory_length, s.p_memory)
      match mem_write grown.2 s.memory_index cell with
      | none => none
      | some p =>
        cpu_create_memory_loop stack_capacity rest
          { cell := 0, byte_counter := 0, memory_length := grown.1,
            memory_index := wrap32 (s.memory_index + 1), p_memory := p }
    else
      cpu_create_memory_loop stack_capacity rest
        { s with cell := cell, byte_counter := byte_counter }

/-- The function `cpu_create_memory`: the result is the buffer together with the index of
`*stack_bottom` in it, or `none` for the `NULL` result. -/
def cpu_create_memory (program : List (Fin 256)) (stack_capacity : Nat) :
    Option (List Int × Int) :=
  match cpu_create_memory_loop stack_capacity program
      { cell := 0, byte_counter := 0, memory_length := 1024, memory_index := 0,
        p_memory := List.replicate 1024 0 } with
  | none => none
  | some s =>
    if s.byte_counter = 0 then some (s.p_memory, (s.memory_length : Int) - 1)
    else none

/-! ## Construction, accessors, reset -/

/-- The function `cpu_create`; `stack_bottom` is the index of the pointer in `memory`. -/
def cpu_create (memory : List Int) (stack_bottom : Int) (stack_capacity : Nat)
    (input : List (Fin 256)) (output : List out_event) : cpu :=
  { reg_a := 0
    reg_b := 0
    reg_c := 0
    reg_d := 0
    stack_amount := 0
    next_instr := 0
    stack_start := stack_bottom
    stack_end := stack_bottom - stack_capacity + 1
    memory_point := memory
    stack_last_val := wrap32 stack_bottom
    stack_first_index := wrap32 stack_bottom
    status := CPU_OK
    stdin := input
    stdout := output }

/-- The function `cpu_get_register`; its assertion on `reg` holds at every call of the
instruction handlers, which validate the operand first. -/
def cpu_get_register (c : cpu) (reg : Int) : Int :=
  if reg = REGISTER_A then c.reg_a
  else if reg = REGISTER_B then c.reg_b
  else if reg = REGISTER_C then c.reg_c
  else c.reg_d

/-- The function `cpu_set_register`. -/
def cpu_set_register (c : cpu) (reg : Int) (value : Int) : cpu :=
  if reg = REGISTER_A then { c with reg_a := value }
  else if reg = REGISTER_B then { c with reg_b := value }
  else if reg = REGISTER_C then { c with reg_c := value }
  else { c with reg_d := value }

/-- The function `cpu_get_status`. -/
def cpu_get_status (c : cpu) : Int := c.status

/-- The function `cpu_get_stack_size`. -/
def cpu_get_stack_size (c : cpu) : Int := c.stack_amount

/-- The function `cpu_reset`. -/
def cpu_reset (c : cpu) : Option cpu :=
  match mem_zero c.memory_point c.stack_end (c.stack_start - c.stack_end + 1) with
  | none => none
  | some m =>
    some { c with
      memory_point := m
      reg_a := 0
      reg_b := 0
      reg_c := 0
      reg_d := 0
      stack_amount := 0
      stack_last_val := 0
      stack_first_index := 0
      next_instr := 0
      status := CPU_OK }

/-! ## Instruction handlers -/

/-- The function `validate_register`: the returned flag and the updated machine. -/
def validate_register (c : cpu) (reg : Int) : Int × cpu :=
  if reg < REGISTER_A ∨ reg > REGISTER_D then (0, { c with status := CPU_ILLEGAL_OPERAND })
  else (1, c)

/-- The handler `add_reg`. -/
def add_reg (c : cpu) : Option (Int × cpu) :=
  let c : cpu := { c with next_instr := wrap32 (c.next_instr + 1) }
  match mem_read c.memory_point c.next_instr with
  | none => none
  | some reg =>
    let v := validate_register c reg
    if v.1 = 0 then some (0, { v.2 with next_instr := wrap32 (v.2.next_instr - 1) })
    else
      let c : cpu := v.2
      let c : cpu := { c with reg_a := wrap32 (c.reg_a + cpu_get_register c reg) }
      some (1, { c with next_instr := wrap32 (c.next_instr + 1) })

/-- The handler `sub_reg`. -/
def sub_reg (c : cpu) : Option (Int × cpu) :=
  let c : cpu := { c with next_instr := wrap32 (c.next_instr + 1) }
  match mem_read c.memory_point c.next_instr with
  | none => none
  | some reg =>
    let v := validate_register c reg
    if v.1 = 0 then some (0, { v.2 with next_instr := wrap32 (v.2.next_instr - 1) })
    else
      let c : cpu := v.2
      let c : cpu := { c with reg_a := wrap32 (c.reg_a - cpu_get_register c reg) }
      some (1, { c with next_instr := wrap32 (c.next_instr + 1) })

/-- The handler `mul_reg`. -/
def mul_reg (c : cpu) : Option (Int × cpu) :=
  let c : cpu := { c with next_instr := wrap32 (c.next_instr + 1) }
  match mem_read c.memory_point c.next_instr with
  | none => none
  | some reg =>
    let v := validate_register c reg
    if v.1 = 0 then some (0, { v.2 with next_instr := wrap32 (v.2.next_instr - 1) })
    else
      let c : cpu := v.2
      let c : cpu := { c with reg_a := wrap32 (c.reg_a * cpu_get_register c reg) }
      some (1, { c with next_instr := wrap32 (c.next_instr + 1) })

/-- The handler `div_reg`; the quotient of C truncates towards zero. -/
def div_reg (c : cpu) : Option (Int × cpu) :=
  let c : cpu := { c with next_instr := wrap32 (c.next_instr + 1) }
  match mem_read c.memory_point c.next_instr with
  | none => none
  | some reg =>
    let v := validate_register c reg
    if v.1 = 0 then some (0, { v.2 with next_instr := wrap32 (v.2.next_instr - 1) })
    else
      let c : cpu := v.2
      if cpu_get_register c reg = 0 then some (0, { c with status := CPU_DIV_BY_ZERO })
      else
        let c : cpu := { c with reg_a := wrap32 (Int.tdiv c.reg_a (cpu_get_register c reg)) }
        some (1, { c with next_instr := wrap32 (c.next_instr + 1) })

/-- The handler `inc_reg`. -/
def inc_reg (c : cpu) : Option (Int × cpu) :=
  let c : cpu := { c with next_instr := wrap32 (c.next_instr + 1) }
  match mem_read c.memory_point c.next_instr with
  | none => none
  | some reg =>
    let v := validate_register c reg
    if v.1 = 0 then some (0, { v.2 with next_instr := wrap32 (v.2.next_instr - 1) })
    else
      let c : cpu := v.2
      let c : cpu := cpu_set_register c reg (wrap32 (cpu_get_register c reg + 1))
      some (1, { c with next_instr := wrap32 (c.next_instr + 1) })

/-- The handler `dec_reg`. -/
def dec_reg (c : cpu) : Option (Int × cpu) :=
  let c : cpu := { c with next_instr := wrap32 (c.next_instr + 1) }
  match mem_read c.memory_point c.next_instr with
  | none => none
  | some reg =>
    let v := validate_register c reg
    if v.1 = 0 then some (0, { v.2 with next_instr := wrap32 (v.2.next_instr - 1) })
    else
      let c : cpu := v.2
      let c : cpu := cpu_set_register c reg (wrap32 (cpu_get_register c reg - 1))
      some (1, { c with next_instr := wrap32 (c.next_instr + 1) })

/-- The handler `loop_ind`. -/
def loop_ind (c : cpu) : Option (Int × cpu) :=
  let c : cpu := { c with next_instr := wrap32 (c.next_instr + 1) }
  match mem_read c.memory_point c.next_instr with
  | none => none
  | some index =>
    if cpu_get_register c 2 = 0 then
      some (1, { c with next_instr := wrap32 (c.next_instr + 1) })
    else some (1, { c with next_instr := index })

/-- The handler `movr`. -/
def movr (c : cpu) : Option (Int × cpu) :=
  let c : cpu := { c with next_instr := wrap32 (c.next_instr + 1) }
  match mem_read c.memory_point c.next_instr with
  | none => none
  | some reg =>
    let v := validate_register c reg
    if v.1 = 0 then some (0, { v.2 with next_instr := wrap32 (v.2.next_instr - 1) })
    else
      let c : cpu := v.2
      let c : cpu := { c with next_instr := wrap32 (c.next_instr + 1) }
      match mem_read c.memory_point c.next_instr with
      | none => none
      | some number =>
        let c : cpu := cpu_set_register c reg number
        some (1, { c with next_instr := wrap32 (c.next_instr + 1) })

/-- The handler `load_reg`. -/
def load_reg (c : cpu) : Option (Int × cpu) :=
  let c : cpu := { c with next_instr := wrap32 (c.next_instr + 1) }
  match mem_read c.memory_point c.next_instr with
  | none => none
  | some reg =>
    let v := validate_register c reg
    if v.1 = 0 then some (0, { v.2 with next_instr := wrap32 (v.2.next_instr - 1) })
    else
      let c : cpu := v.2
      let c : cpu := { c with next_instr := wrap32 (c.next_instr + 1) }
      match mem_read c.memory_point c.next_instr with
      | none => none
      | some number =>
        let reg_d := cpu_get_register c REGISTER_D
        if wrap32 (wrap32 (c.stack_last_val + reg_d) + number) > c.stack_first_index then
          some (0, { c with next_instr := wrap32 (c.next_instr - 2),
                            status := CPU_INVALID_STACK_OPERATION })
        else if wrap32 (wrap32 (c.stack_last_val + reg_d) + number) < c.stack_last_val then
          some (0, { c with next_instr := wrap32 (c.next_instr - 2),
                            status := CPU_INVALID_STACK_OPERATION })
        else if c.stack_amount = 0 then
          some (0, { c with status := CPU_INVALID_STACK_OPERATION })
        else
          match mem_read c.memory_point
              (wrap32 (wrap32 (c.stack_last_val + reg_d) + number)) with
          | none => none
          | some word =>
            let c : cpu := cpu_set_register c reg word
            some (1, { c with next_instr := wrap32 (c.next_instr + 1) })

/-- The handler `store_reg`. -/
def store_reg (c : cpu) : Option (Int × cpu) :=
  let c : cpu := { c with next_instr := wrap32 (c.next_instr + 1) }
  match mem_read c.memory_point c.next_instr with
  | none => none
  | some reg =>
    let v := validate_register c reg
    if v.1 = 0 then some (0, { v.2 with next_instr := wrap32 (v.2.next_instr - 1) })
    else
      let c : cpu := v.2
      let c : cpu := { c with next_instr := wrap32 (c.next_instr + 1) }
      match mem_read c.memory_point c.next_instr with
      | none => none
      | some number =>
        let reg_d := cpu_get_register c REGISTER_D
        if wrap32 (wrap32 (c.stack_last_val + reg_d) + number) > c.stack_first_index then
          some (0, { c with next_instr := wrap32 (c.next_instr - 2),
                            status := CPU_INVALID_STACK_OPERATION })
        else if wrap32 (wrap32 (c.stack_last_val + reg_d) + number) < c.stack_last_val then
          some (0, { c with next_instr := wrap32 (c.next_instr - 2),
                            status := CPU_INVALID_STACK_OPERATION })
        else if c.stack_amount = 0 then
          some (0, { c with status := CPU_INVALID_STACK_OPERATION })
        else
          match mem_write c.memory_point
              (wrap32 (wrap32 (c.stack_last_val + reg_d) + number))
              (cpu_get_register c reg) with
          | none => none
          | some m =>
            let c : cpu := { c with memory_point := m }
            some (1, { c with next_instr := wrap32 (c.next_instr + 1) })

section handlers_with_input

/- The call `scanf("%lld", &input)` of the C library on the remaining standard input:
the returned count (`EOF`, 0 or 1), the value stored in `input` and the input left. -/
variable (scanf_lld : List (Fin 256) → Int × Int × List (Fin 256))

/-- The handler `in_reg`. -/
def in_reg (c : cpu) : Option (Int × cpu) :=
  let c : cpu := { c with next_instr := wrap32 (c.next_instr + 1) }
  match mem_read c.memory_point c.next_instr with
  | none => none
  | some reg =>
    let v := validate_register c reg
    if v.1 = 0 then some (0, { v.2 with next_instr := wrap32 (v.2.next_instr - 1) })
    else
      let c : cpu := v.2
      let scanned := scanf_lld c.stdin
      let result := scanned.1
      let input := scanned.2.1
      let c : cpu := { c with stdin := scanned.2.2 }
      if result = EOF then
        let c : cpu := cpu_set_register c 2 0
        let c : cpu := cpu_set_register c reg (-1)
        some (1, { c with next_instr := wrap32 (c.next_instr + 1) })
      else if result ≠ 1 ∨ input < INT32_MIN ∨ input > INT32_MAX then
        some (0, { c with status := CPU_IO_ERROR })
      else
        let c : cpu := cpu_set_register c reg input
        some (1, { c with next_instr := wrap32 (c.next_instr + 1) })

/-- The handler `get_reg`; `getchar` takes the next byte of the standard input. -/
def get_reg (c : cpu) : Option (Int × cpu) :=
  let c : cpu := { c with next_instr := wrap32 (c.next_instr + 1) }
  match mem_read c.memory_point c.next_instr with
  | none => none
  | some reg =>
    let v := validate_register c reg
    if v.1 = 0 then some (0, { v.2 with next_instr := wrap32 (v.2.next_instr - 1) })
    else
      let c : cpu := v.2
      match c.stdin with
      | [] =>
        let c : cpu := cpu_set_register c 2 0
        let c : cpu := cpu_set_register c reg (-1)
        some (1, { c with next_instr := wrap32 (c.next_instr + 1) })
      | byte :: rest =>
        let c : cpu := { c with stdin := rest }
        let c : cpu := cpu_set_register c reg (byte.val : Int)
        some (1, { c with next_instr := wrap32 (c.next_instr + 1) })

/-- The handler `out_reg`. -/
def out_reg (c : cpu) : Option (Int × cpu) :=
  let c : cpu := { c with next_instr := wrap32 (c.next_instr + 1) }
  match mem_read c.memory_point c.next_instr with
  | none => none
  | some reg =>
    let v := validate_register c reg
    if v.1 = 0 then some (0, { v.2 with next_instr := wrap32 (v.2.next_instr - 1) })
    else
      let c : cpu := v.2
      let c : cpu := { c with stdout := c.stdout ++ [out_event.printf_d (cpu_get_register c reg)] }
      some (1, { c with next_instr := wrap32 (c.next_instr + 1) })

/-- The handler `put_reg`. -/
def put_reg (c : cpu) : Option (Int × cpu) :=
  let c : cpu := { c with next_instr := wrap32 (c.next_instr + 1) }
  match mem_read c.memory_point c.next_instr with
  | none => none
  | some reg =>
    let v := validate_register c reg
    if v.1 = 0 then some (0, { v.2 with next_instr := wrap32 (v.2.next_instr - 1) })
    else
      let c : cpu := v.2
      let reg_value := cpu_get_register c reg
      if reg_value < 0 ∨ reg_value > 255 then some (0, { c with status := CPU_ILLEGAL_OPERAND })
      else
        let c : cpu := { c with stdout := c.stdout ++ [out_event.printf_c reg_value] }
        some (1, { c with next_instr := wrap32 (c.next_instr + 1) })

/-- The handler `swap_reg`. -/
def swap_reg (c : cpu) : Option (Int × cpu) :=
  let c : cpu := { c with next_instr := wrap32 (c.next_instr + 1) }
  match mem_read c.memory_point c.next_instr with
  | none => none
  | some reg_one =>
    let v := validate_register c reg_one
    if v.1 = 0 then some (0, { v.2 with next_instr := wrap32 (v.2.next_instr - 1) })
    else
      let c : cpu := v.2
      let c : cpu := { c with next_instr := wrap32 (c.next_instr + 1) }
      match mem_read c.memory_point c.next_instr with
      | none => none
      | some reg_two =>
        let w := validate_register c reg_two
        if w.1 = 0 then some (0, { w.2 with next_instr := wrap32 (w.2.next_instr - 2) })
        else
          let c : cpu := w.2
          let swap_helper := cpu_get_register c reg_one
          let c : cpu := cpu_set_register c reg_one (cpu_get_register c reg_two)
          let c : cpu := cpu_set_register c reg_two swap_helper
          some (1, { c with next_instr := wrap32 (c.next_instr + 1) })

/-- The handler `push_reg`; the difference `stack_start - stack_end + 1` is stored in an
`int32_t`. -/
def push_reg (c : cpu) : Option (Int × cpu) :=
  let c : cpu := { c with next_instr := wrap32 (c.next_instr + 1) }
  match mem_read c.memory_point c.next_instr with
  | none => none
  | some reg =>
    let v := validate_register c reg
    if v.1 = 0 then some (0, { v.2 with next_instr := wrap32 (v.2.next_instr - 1) })
    else
      let c : cpu := v.2
      let stack_size := wrap32 (c.stack_start - c.stack_end + 1)
      if c.stack_amount = stack_size then
        some (0, { c with status := CPU_INVALID_STACK_OPERATION })
      else
        let c : cpu := if c.stack_amount ≠ 0 then
            { c with stack_last_val := wrap32 (c.stack_last_val - 1) } else c
        match mem_write c.memory_point c.stack_last_val (cpu_get_register c reg) with
        | none => none
        | some m =>
          let c : cpu := { c with memory_point := m }
          let c : cpu := { c with stack_amount := wrap32 (c.stack_amount + 1) }
          some (1, { c with next_instr := wrap32 (c.next_instr + 1) })

/-- The handler `pop_reg`. -/
def pop_reg (c : cpu) : Option (Int × cpu) :=
  let c : cpu := { c with next_instr := wrap32 (c.next_instr + 1) }
  match mem_read c.memory_point c.next_instr with
  | none => none
  | some reg =>
    let v := validate_register c reg
    if v.1 = 0 then some (0, { v.2 with next_instr := wrap32 (v.2.next_instr - 1) })
    else
      let c : cpu := v.2
      if c.stack_amount = 0 then some (0, { c with status := CPU_INVALID_STACK_OPERATION })
      else
        match mem_read c.memory_point c.stack_last_val with
        | none => none
        | some word =>
          let c : cpu := cpu_set_register c reg word
          match mem_write c.memory_point c.stack_last_val 0 with
          | none => none
          | some m =>
            let c : cpu := { c with memory_point := m }
            let c : cpu := { c with stack_amount := wrap32 (c.stack_amount - 1) }
            let c : cpu := if c.stack_amount ≠ 0 then
                { c with stack_last_val := wrap32 (c.stack_last_val + 1) } else c
            some (1, { c with next_instr := wrap32 (c.next_instr + 1) })

/-! ## Dispatcher and execution driver -/

/-- The function `cpu_step`: the returned flag and the machine after the call. -/
def cpu_step (c : cpu) : Option (Int × cpu) :=
  if c.status ≠ CPU_OK then
    if c.status < CPU_OK ∨ c.status > CPU_IO_ERROR then
      some (0, { c with status := CPU_ILLEGAL_INSTRUCTION })
    else some (0, c)
  else if c.next_instr < 0 ∨ c.next_instr ≥ c.stack_end then
    some (0, { c with status := CPU_INVALID_ADDRESS })
  else
    match mem_read c.memory_point c.next_instr with
    | none => none
    | some opcode =>
      if opcode < 0 ∨ opcode > 18 then some (0, { c with status := CPU_ILLEGAL_INSTRUCTION })
      else if opcode = 0 then some (1, { c with next_instr := wrap32 (c.next_instr + 1) })
      else if opcode = 1 then some (0, { c with status := CPU_HALTED })
      else if opcode = 2 then add_reg c
      else if opcode = 3 then sub_reg c
      else if opcode = 4 then mul_reg c
      else if opcode = 5 then div_reg c
      else if opcode = 6 then inc_reg c
      else if opcode = 7 then dec_reg c
      else if opcode = 8 then loop_ind c
      else if opcode = 9 then movr c
      else if opcode = 10 then load_reg c
      else if opcode = 11 then store_reg c
      else if opcode = 12 then in_reg scanf_lld c
      else if opcode = 13 then get_reg c
      else if opcode = 14 then out_reg c
      else if opcode = 15 then put_reg c
      else if opcode = 16 then swap_reg c
      else if opcode = 17 then push_reg c
      else pop_reg c

/-- The `for (size_t i = 1; i < steps + 1; i++)` loop of `cpu_run`, entered with the
current `i` and the number of iterations left before `i` reaches the bound. -/
def cpu_run_loop (steps : Nat) : Nat → Nat → cpu → Option (Int × cpu)
  | 0, _, c => some (to_long_long steps, c)
  | left + 1, i, c =>
    match cpu_step scanf_lld c with
    | none => none
    | some (executed, c) =>
      if executed = 0 then
        if c.status = CPU_HALTED then some (to_long_long i, c)
        else some (to_long_long (size_t_wrap (i * 18446744073709551615)), c)
      else cpu_run_loop steps left (i + 1) c

/-- The function `cpu_run`; `steps` is a `size_t`, so that the bound `steps + 1` of the
loop is reduced modulo `2 ^ 64`. -/
def cpu_run (c : cpu) (steps : Nat) : Option (Int × cpu) :=
  if c.status ≠ CPU_OK then
    if c.status < CPU_OK ∨ c.status > CPU_IO_ERROR then
      some (0, { c with status := CPU_ILLEGAL_INSTRUCTION })
    else some (0, c)
  else cpu_run_loop scanf_lld steps (size_t_wrap (steps + 1) - 1) 1 c

/-- The machine after `k` successive calls of `cpu_step`. -/
def cpu_steps : Nat → cpu → Option cpu
  | 0, c => some c
  | k + 1, c =>
    match cpu_step scanf_lld c with
    | none => none
    | some (_, c) => cpu_steps k c

/-- The machine after `k` successive calls of `cpu_step` that all report executed. -/
def cpu_steps_executed : Nat → cpu → Option cpu
  | 0, c => some c
  | k + 1, c =>
    match cpu_step scanf_lld c with
    | none => none
    | some (executed, c) => if executed = 0 then none else cpu_steps_executed k c

end handlers_with_input

/-! ## Vocabulary of the statements -/

/-- Word `k` of the instruction at the program counter, when it lies in the buffer. -/
def fetch (c : cpu) (k : Int) : Option Int := mem_read c.memory_point (c.next_instr + k)

/-- The operand word names one of the registers A, B, C, D. -/
def valid_register (reg : Int) : Prop := REGISTER_A ≤ reg ∧ reg ≤ REGISTER_D

instance (reg : Int) : Decidable (valid_register reg) := by
  unfold valid_register; infer_instance

/-- The four registers hold values of the range of `int32_t`. -/
def registers_int32 (c : cpu) : Prop :=
  int32 c.reg_a ∧ int32 c.reg_b ∧ int32 c.reg_c ∧ int32 c.reg_d

/-- Every `int32_t` field and every memory word is in the range of the type, and every
index of the buffer fits in an `int32_t`. -/
def well_formed (c : cpu) : Prop :=
  registers_int32 c ∧ int32 c.next_instr ∧
  int32 c.stack_amount ∧ int32 c.stack_last_val ∧ int32 c.stack_first_index ∧
  (∀ w ∈ c.memory_point, int32 w) ∧ c.memory_point.length ≤ 2147483647

/-- A reference behaviour of `scanf("%lld", _)` for the closed examples: white space is
skipped, then an optional sign and a run of decimal digits are converted; the value is
clamped to the range of `long long`. -/
def scanf_lld_ref (s : List (Fin 256)) : Int × Int × List (Fin 256) :=
  match s.dropWhile (fun b => decide (b.val = 32 ∨ (9 ≤ b.val ∧ b.val ≤ 13))) with
  | [] => (EOF, 0, [])
  | b :: rest =>
    let body := if b.val = 45 ∨ b.val = 43 then rest else b :: rest
    let digits := body.takeWhile (fun d => decide (48 ≤ d.val ∧ d.val ≤ 57))
    let value : Int := digits.foldl (fun acc d => 10 * acc + ((d.val : Int) - 48)) 0
    let signed : Int := if b.val = 45 then -value else value
    if digits = [] then (0, 0, body)
    else (1, max (-9223372036854775808) (min signed 9223372036854775807),
      body.dropWhile (fun d => decide (48 ≤ d.val ∧ d.val ≤ 57)))

section reachability

variable (scanf_lld : List (Fin 256) → Int × Int × List (Fin 256))

/-- The machines obtained from `cpu_create` by successive calls of `cpu_step`.  The
arguments of `cpu_create` are those for which its pointer arithmetic is defined: the
buffer holds `int32_t` words at `int32_t` indices, `stack_bottom` points into it and
`stack_bottom - stack_capacity + 1` does not leave it. -/
inductive Reachable : cpu → Prop where
  | create (memory : List Int) (stack_bottom : Int) (stack_capacity : Nat)
      (input : List (Fin 256)) (output : List out_event) :
      (∀ w ∈ memory, int32 w) → memory.length ≤ 2147483647 →
      0 ≤ stack_bottom → stack_bottom < memory.length →
      0 ≤ stack_bottom - stack_capacity + 1 →
      Reachable (cpu_create memory stack_bottom stack_capacity input output)
  | step (c c' : cpu) (executed : Int) :
      Reachable c → cpu_step scanf_lld c = some (executed, c') → Reachable c'

end reachability

/-- The bookkeeping that `cpu_create` establishes and every instruction keeps. -/
def stack_invariant (c : cpu) : Prop :=
  well_formed c ∧ 0 ≤ c.stack_end ∧ c.stack_start < c.memory_point.length ∧
  c.stack_first_index = c.stack_start ∧
  0 ≤ c.stack_amount ∧ c.stack_amount ≤ c.stack_start - c.stack_end + 1 ∧
  c.stack_last_val = c.stack_first_index - max (c.stack_amount - 1) 0

/-! ## Machines of the closed examples -/

/-- A fresh machine on the program `NOP; HALT` with a stack of two words. -/
def nop_halt : cpu := cpu_create [0, 1, 0, 0] 3 2 [] []

/-- The machine `nop_halt` after it has halted. -/
def halted_machine : cpu := { nop_halt with next_instr := 1, status := CPU_HALTED }

/-- The machine `nop_halt` with a status outside the closed set. -/
def foreign_status_machine : cpu := { nop_halt with status := 9 }

/-- A fresh machine on the program `ADD 4` with a stack of two words. -/
def bad_operand_machine : cpu := cpu_create [2, 4, 1, 0, 0] 4 2 [] []

/-- A fresh machine on the program `SWAP A 7` with a stack of two words. -/
def bad_swap_machine : cpu := cpu_create [16, 0, 7, 1, 0, 0] 5 2 [] []

/-- A fresh machine whose first word is no opcode. -/
def bad_opcode_machine : cpu := cpu_create [19, 1, 0, 0] 3 2 [] []

/-- A fresh machine whose stack window starts at word 0, so that no word is code. -/
def no_code_machine : cpu := cpu_create [0, 0] 1 2 [] []

/-- A fresh machine on the program `DIV A`, register A holding 0. -/
def div_zero_machine : cpu := cpu_create [5, 0, 1, 0, 0] 4 2 [] []

/-- A fresh machine on the program `LOAD A 0`: the stack is empty and D holds 0. -/
def empty_load_machine : cpu := cpu_create [10, 0, 0, 1, 0, 0] 5 2 [] []

/-- A fresh machine on the program `STORE A 0`: the stack is empty and D holds 0. -/
def empty_store_machine : cpu := cpu_create [11, 0, 0, 1, 0, 0] 5 2 [] []

/-- A machine with one word on its stack, on the program `LOAD A 5`. -/
def far_load_machine : cpu :=
  { cpu_create [10, 0, 5, 1, 0, 9] 5 2 [] [] with stack_amount := 1 }

/-- A machine with two words on its stack (40 on top of 30), registers A = 11, B = 22 and
D = 1, on the program `STORE B 0; LOAD A 0; HALT`. -/
def store_load_machine : cpu :=
  { cpu_create [11, 1, 0, 10, 0, 0, 1, 40, 30] 8 2 [] [] with
    reg_a := 11, reg_b := 22, reg_d := 1, stack_amount := 2, stack_last_val := 7 }

/-- The machine `store_load_machine` on the program `LOAD D 0; HALT`. -/
def load_d_machine : cpu :=
  { store_load_machine with memory_point := [10, 3, 0, 1, 0, 0, 0, 40, 30] }

/-- A fresh machine on the program `MOV A 7; PUSH A; HALT` with a stack of two words at
the indices 6 and 7. -/
def push_machine : cpu := cpu_create [9, 0, 7, 17, 0, 1, 0, 0] 7 2 [] []

/-- The machine on the program `MOV A 7; PUSH A; POP B; HALT` with a stack of two words,
after its first step. -/
def push_pop_machine : cpu :=
  { cpu_create [9, 0, 7, 17, 0, 18, 1, 1, 0, 0] 9 2 [] [] with reg_a := 7, next_instr := 3 }

/-! ## Vocabulary of the loader statements -/

/-- Byte `i` of the stream as an integer, or 0 past the end of the stream. -/
def byte_at (program : List (Fin 256)) (i : Nat) : Int := ((program.getD i 0).val : Int)

/-- The sum of the first `t` bytes of the `n`-th group of four, byte `u` of the group
contributing `byte << (8 * u)`. -/
def group_sum (program : List (Fin 256)) (n : Nat) : Nat → Int
  | 0 => 0
  | t + 1 => group_sum program n t + byte_at program (4 * n + t) * 2 ^ (8 * t)

/-- The state of the loader loop after `i` bytes of the stream: `i / 4` words are stored,
the cell holds the bytes of the group that is being read, and the buffer is zero above
the stored words. -/
def loader_inv (program : List (Fin 256)) (i : Nat) (st : loader) : Prop :=
  st.byte_counter = ((i % 4 : Nat) : Int) ∧ st.memory_index = ((i / 4 : Nat) : Int) ∧
  st.cell = wrap32 (group_sum program (i / 4) (i % 4)) ∧
  st.p_memory.length = st.memory_length ∧ i / 4 ≤ st.memory_length ∧
  (∀ j : Nat, j < i / 4 →
    st.p_memory[j]? = some (wrap32 (group_sum program j 4))) ∧
  (∀ j : Nat, i / 4 ≤ j → j < st.memory_length → st.p_memory[j]? = some 0)

/-- A machine whose stack of two words is full, on the program `PUSH A`. -/
def full_stack_machine : cpu :=
  { cpu_create [17, 0, 1, 5, 6] 4 2 [] [] with stack_amount := 2, stack_last_val := 3 }

/-- A fresh machine with a stack capacity of 0, on the program `PUSH A`. -/
def zero_capacity_machine : cpu := cpu_create [17, 0, 1] 2 0 [] []

/-- The machine `empty_load_machine` with register D holding 5. -/
def empty_load_d_machine : cpu := { empty_load_machine with reg_d := 5 }

/-- A fresh machine on the program `LOOP 7`; register C holds 0. -/
def loop_zero_machine : cpu := cpu_create [8, 7, 1, 0, 0] 4 2 [] []

/-- The machine `loop_zero_machine` with register C holding 3. -/
def loop_taken_machine : cpu := { loop_zero_machine with reg_c := 3 }

/-- A fresh machine on the program `MOV A 2147483647; INC A; HALT`. -/
def mov_inc_machine : cpu := cpu_create [9, 0, 2147483647, 6, 0, 1, 0, 0] 7 2 [] []

/-- A machine on the program `MUL B` with A = 65536 and B = 65536. -/
def mul_machine : cpu :=
  { cpu_create [4, 1, 1, 0, 0] 4 2 [] [] with reg_a := 65536, reg_b := 65536 }

/-- A machine on the program `DEC D` with D holding the least `int32_t`. -/
def dec_machine : cpu :=
  { cpu_create [7, 3, 1, 0, 0] 4 2 [] [] with reg_d := -2147483648 }

/-- A fresh machine on the program `IN A` whose standard input is empty; C holds 5. -/
def in_eof_machine : cpu := { cpu_create [12, 0, 1, 0, 0] 4 2 [] [] with reg_c := 5 }

/-- A fresh machine on the program `GETC B` whose standard input is empty; C holds 5. -/
def getc_eof_machine : cpu := { cpu_create [13, 1, 1, 0, 0] 4 2 [] [] with reg_c := 5 }

/-- A fresh machine on the program `IN C` whose standard input is empty. -/
def in_c_eof_machine : cpu := cpu_create [12, 2, 1, 0, 0] 4 2 [] []

/-- A fresh machine on the program `GETC C` whose standard input is empty. -/
def getc_c_eof_machine : cpu := cpu_create [13, 2, 1, 0, 0] 4 2 [] []

/-- The buffer and the stack bookkeeping of `c'` are those of `c`. -/
def same_stack (c c' : cpu) : Prop :=
  c'.memory_point = c.memory_point ∧ c'.stack_start = c.stack_start ∧
  c'.stack_end = c.stack_end ∧ c'.stack_amount = c.stack_amount ∧
  c'.stack_last_val = c.stack_last_val ∧ c'.stack_first_index = c.stack_first_index

/-- The buffer of `c'` is the buffer of `c` with one word written, at an index of the
stack window `[stack_end, stack_first_index]` of `c`. -/
def writes_one_stack_word (c c' : cpu) : Prop :=
  ∃ i v : Int, c.stack_end ≤ i ∧ i ≤ c.stack_first_index ∧
    mem_write c.memory_point i v = some c'.memory_point

/-- What a step may do to the stack window: its bounds stay, and the buffer is unchanged
or has one word of the window written. -/
def step_effect (c c' : cpu) : Prop :=
  c'.stack_start = c.stack_start ∧ c'.stack_end = c.stack_end ∧
  c'.stack_first_index = c.stack_first_index ∧
  (c'.memory_point = c.memory_point ∨ writes_one_stack_word c c')

/-- The machine `push_machine` after its program has run: A = 7 and one word on the
stack. -/
def pushed_machine : cpu :=
  { push_machine with
    reg_a := 7, next_instr := 5, memory_point := [9, 0, 7, 17, 0, 1, 0, 7],
    stack_amount := 1, status := CPU_HALTED }

/-- The flag returned by a step agrees with the status it leaves: executed with status
`OK`, or not executed with `HALTED` or one of the fault kinds. -/
def status_agrees (executed : Int) (c' : cpu) : Prop :=
  (executed = 1 ∧ c'.status = CPU_OK) ∨
  (executed = 0 ∧ CPU_HALTED ≤ c'.status ∧ c'.status ≤ CPU_IO_ERROR)

/-- The status is one of the six fault kinds. -/
def fault_status (c : cpu) : Prop :=
  CPU_ILLEGAL_INSTRUCTION ≤ c.status ∧ c.status ≤ CPU_IO_ERROR

instance (c : cpu) : Decidable (fault_status c) := by
  unfold fault_status; infer_instance

/-- A fresh machine on `MOV B 7; PUSH B; MOV` with a stack of two words: the last opcode
word sits at index 5, the last word of the code region, and the stack window is
`[6, 7]`. -/
def mov_at_code_end : cpu := cpu_create [9, 1, 7, 17, 1, 9, 0, 0] 7 2 [] []

/-- The machine `mov_at_code_end` after `MOV B 7; PUSH B`: word 7 holds the pushed 7 and
the program counter is on the `MOV` at index 5. -/
def mov_at_code_end_pushed : cpu :=
  { mov_at_code_end with
    reg_b := 7, next_instr := 5, memory_point := [9, 1, 7, 17, 1, 9, 0, 7],
    stack_amount := 1 }

/-- A fresh machine whose code region is the single word `MOV` and whose stack window is
the last word of the buffer. -/
def mov_at_buffer_end : cpu := cpu_create [9, 0] 1 1 [] []

end Cpu32

/-! ## The ASCII85 filter (`ascii85/ascii85.c`)

Conventions of the embedding: a `long` has 64 bits, an `int` 32 and a `short int` 16, each
an `Int` reduced by the matching wrap-around after every arithmetic operation of the
source; `x << k` on a `long` is a multiplication by `2 ^ k`, `x >> k` the division by
`2 ^ k` rounding down and `x & 255` the remainder modulo 256; the standard input and the
standard output are lists of bytes, `getchar` takes the head of the input and
`printf("%c", v)` appends the byte `(unsigned char) v` to the output. -/

namespace Ascii85

/-- Reduction to the range of `long`. -/
def wrap_long (x : Int) : Int :=
  (x + 9223372036854775808) % 18446744073709551616 - 9223372036854775808

/-- Reduction to the range of `int`. -/
def wrap_int (x : Int) : Int := (x + 2147483648) % 4294967296 - 2147483648

/-- Reduction to the range of `short int`. -/
def wrap_short (x : Int) : Int := (x + 32768) % 65536 - 32768

/-- The byte that `printf("%c", v)` writes: `v` converted to `unsigned char`. -/
def to_byte (v : Int) : Fin 256 := ⟨(v % 256).toNat, by omega⟩

/-- The library function `isspace` in the "C" locale, which the program never leaves:
space, `\t`, `\n`, `\v`, `\f`, `\r`. -/
def isspace (ch : Int) : Bool := decide (ch = 32 ∨ (9 ≤ ch ∧ ch ≤ 13))

/-- The `for (int i = 0; i < 5; i++)` loop of `encode_output`, with the number of
iterations left. -/
def encode_output_loop : Nat → Int → List (Fin 256) → List (Fin 256)
  | 0, _, out => out
  | left + 1, res_bytes, out =>
    let remainder := wrap_int (Int.tmod res_bytes 85)
    let res_bytes := Int.tdiv res_bytes 85
    encode_output_loop left res_bytes (out ++ [to_byte (wrap_int (remainder + 33))])

/-- The function `encode_output`: the standard output after the call. -/
def encode_output (res_bytes : Int) (out : List (Fin 256)) : List (Fin 256) :=
  encode_output_loop 5 res_bytes out

/-- The `while ((input = getchar()) != EOF)` loop of `encode`, on the rest of the standard
input: the values of `result_bytes` and `char_counter` and the standard output when the
input is exhausted. -/
def encode_loop : List (Fin 256) → Int → Int → List (Fin 256) → Int × Int × List (Fin 256)
  | [], result_bytes, char_counter, out => (result_bytes, char_counter, out)
  | b :: rest, result_bytes, char_counter, out =>
    let input : Int := (b.val : Int)
    let input := wrap_long (input * 2 ^ (8 * (3 - char_counter)).toNat)
    let result_bytes := wrap_long (result_bytes + input)
    let char_counter := wrap_short (char_counter + 1)
    if char_counter = 4 then encode_loop rest 0 0 (encode_output result_bytes out)
    else encode_loop rest result_bytes char_counter out

/-- The function `encode`: its return value and what it wrote to the standard output. -/
def encode (input : List (Fin 256)) : Int × List (Fin 256) :=
  let st := encode_loop input 0 0 []
  let out := if st.2.1 ≠ 0 then encode_output st.1 st.2.2 else st.2.2
  (0, out ++ [10])

/-- The `for (int i = 0; i < 4; i++)` loop of `decode_output`, with the number of
iterations left and the current `i`. -/
def decode_output_loop (res : Int) : Nat → Int → List (Fin 256) → List (Fin 256)
  | 0, _, out => out
  | left + 1, i, out =>
    let res_copy := res
    let res_copy := res_copy / 2 ^ (8 * (3 - i)).toNat
    let res_copy := res_copy % 256
    let output := wrap_int res_copy
    decode_output_loop res left (wrap_int (i + 1)) (out ++ [to_byte output])

/-- The function `decode_output`: the standard output after the call. -/
def decode_output (res : Int) (out : List (Fin 256)) : List (Fin 256) :=
  decode_output_loop res 4 0 out

/-- The `while ((input = getchar()) != EOF)` loop of `decode` with the check that follows
it, on the rest of the standard input: the return value of `decode` and the standard
output. -/
def decode_loop : List (Fin 256) → Int → Int → Int → List (Fin 256) → Int × List (Fin 256)
  | [], _, _, char_counter, out => if char_counter ≠ 0 then (1, out) else (0, out)
  | b :: rest, result, powers, char_counter, out =>
    let input : Int := (b.val : Int)
    if isspace input then decode_loop rest result powers char_counter out
    else if input < 33 ∨ input > 125 then (1, out)
    else
      let input := wrap_long (input - 33)
      let input := wrap_long (input * powers)
      let result := wrap_long (result + input)
      let powers := wrap_int (powers * 85)
      let char_counter := wrap_short (char_counter + 1)
      if char_counter = 5 then
        if result > 4294967295 then (1, out)
        else decode_loop rest 0 1 0 (decode_output result out)
      else decode_loop rest result powers char_counter out

/-- The function `decode`: its return value and what it wrote to the standard output. -/
def decode (input : List (Fin 256)) : Int × List (Fin 256) := decode_loop input 0 1 0 []

/-! ## Vocabulary of the round-trip statement -/

/-- The value of the four bytes `a b c d` read as a big-endian number. -/
def group_value (a b c d : Fin 256) : Int :=
  (a.val : Int) * 16777216 + (b.val : Int) * 65536 + (c.val : Int) * 256 + (d.val : Int)

/-- The five characters `33 + (v / 85 ^ i) mod 85`, for `i = 0..4` in this order. -/
def base85_chars (v : Int) : List (Fin 256) :=
  [to_byte (33 + v % 85), to_byte (33 + v / 85 % 85), to_byte (33 + v / 7225 % 85),
    to_byte (33 + v / 614125 % 85), to_byte (33 + v / 52200625 % 85)]

/-- The characters of the groups of four bytes of `x`, the last group completed with zero
bytes. -/
def encoded_groups : List (Fin 256) → List (Fin 256)
  | a :: b :: c :: d :: rest => base85_chars (group_value a b c d) ++ encoded_groups rest
  | [a, b, c] => base85_chars (group_value a b c 0)
  | [a, b] => base85_chars (group_value a b 0 0)
  | [a] => base85_chars (group_value a 0 0 0)
  | [] => []

/-- The zero bytes that complete `x` to the next multiple of four in length. -/
def zero_padding (x : List (Fin 256)) : List (Fin 256) :=
  List.replicate ((4 - x.length % 4) % 4) 0

end Ascii85

namespace Cpu32

/-! ## Basic facts -/

theorem wrap32_of_int32 {x : Int} (h : int32 x) : wrap32 x = x := by
  unfold wrap32; unfold int32 at h; omega

theorem int32_wrap32 (x : Int) : int32 (wrap32 x) := by
  unfold wrap32 int32; omega

theorem mem_read_bounds {m : List Int} {i w : Int} (h : mem_read m i = some w) :
    0 ≤ i ∧ i < m.length := by
  unfold mem_read at h
  split at h
  · rename_i h0
    obtain ⟨hlt, _⟩ := List.getElem?_eq_some.1 h
    exact ⟨h0, by omega⟩
  · cases h

theorem mem_read_mem {m : List Int} {i w : Int} (h : mem_read m i = some w) : w ∈ m := by
  unfold mem_read at h
  split at h
  · obtain ⟨hlt, hw⟩ := List.getElem?_eq_some.1 h
    exact hw ▸ List.getElem_mem hlt
  · cases h

theorem mem_write_length {m m' : List Int} {i v : Int} (h : mem_write m i v = some m') :
    m'.length = m.length := by
  unfold mem_write at h
  split at h
  · cases h; simp
  · cases h

theorem mem_write_mem {m m' : List Int} {i v : Int} (h : mem_write m i v = some m')
    {w : Int} (hw : w ∈ m') : w ∈ m ∨ w = v := by
  unfold mem_write at h
  split at h
  · cases h; exact List.mem_or_eq_of_mem_set hw
  · cases h

section theorems

variable (scanf_lld : List (Fin 256) → Int × Int × List (Fin 256))

/-! ## Sticky terminal statuses -/

theorem cpu_steps_fixed (c : cpu) (h : cpu_step scanf_lld c = some (0, c)) (k : Nat) :
    cpu_steps scanf_lld k c = some c := by
  induction k with
  | zero => rfl
  | succ k ih => simp [cpu_steps, h, ih]

/-- C2: a machine whose status is `HALTED` or a fault kind is a fixed point of `cpu_step`,
which reports not-executed, so that any number of further steps leaves every field as it
is; a status outside the closed set is replaced by `ILLEGAL_INSTRUCTION` and nothing else
changes. -/
theorem terminal_status_sticky (c : cpu) (h : c.status ≠ CPU_OK) :
    (CPU_OK < c.status ∧ c.status ≤ CPU_IO_ERROR →
      cpu_step scanf_lld c = some (0, c) ∧ ∀ k, cpu_steps scanf_lld k c = some c) ∧
    (c.status < CPU_OK ∨ CPU_IO_ERROR < c.status →
      cpu_step scanf_lld c = some (0, { c with status := CPU_ILLEGAL_INSTRUCTION })) := by
  have hfix : CPU_OK < c.status ∧ c.status ≤ CPU_IO_ERROR →
      cpu_step scanf_lld c = some (0, c) := by
    intro hr
    have hn : ¬ (c.status < CPU_OK ∨ c.status > CPU_IO_ERROR) := by
      simp only [CPU_OK, CPU_IO_ERROR] at hr ⊢; omega
    simp only [cpu_step, if_pos h, if_neg hn]
  refine ⟨fun hr => ⟨hfix hr, cpu_steps_fixed scanf_lld c (hfix hr)⟩, fun ho => ?_⟩
  have ho' : c.status < CPU_OK ∨ c.status > CPU_IO_ERROR := ho
  simp only [cpu_step, if_pos h, if_pos ho']

/-- Witness of C2 on a halted machine and on a machine with a foreign status. -/
theorem terminal_status_sticky_witness :
    (cpu_step scanf_lld_ref halted_machine = some (0, halted_machine) ∧
      ∀ k, cpu_steps scanf_lld_ref k halted_machine = some halted_machine) ∧
    cpu_step scanf_lld_ref foreign_status_machine =
      some (0, { foreign_status_machine with status := CPU_ILLEGAL_INSTRUCTION }) :=
  ⟨(terminal_status_sticky scanf_lld_ref halted_machine (by decide)).1 (by decide),
   (terminal_status_sticky scanf_lld_ref foreign_status_machine (by decide)).2 (by decide)⟩

/-! ## Dispatcher validation -/

/-- C3: with status `OK`, a program counter that is negative or not below the index of
`stack_end` makes `cpu_step` report not-executed with status `INVALID_ADDRESS`; otherwise
a word at the program counter outside `[0, 18]` makes it report not-executed with status
`ILLEGAL_INSTRUCTION`.  In both cases the status is the only field that changes. -/
theorem dispatcher_validation (c : cpu) (h : c.status = CPU_OK) :
    (c.next_instr < 0 ∨ c.stack_end ≤ c.next_instr →
      cpu_step scanf_lld c = some (0, { c with status := CPU_INVALID_ADDRESS })) ∧
    (∀ w, 0 ≤ c.next_instr ∧ c.next_instr < c.stack_end → fetch c 0 = some w →
      w < 0 ∨ 18 < w →
      cpu_step scanf_lld c = some (0, { c with status := CPU_ILLEGAL_INSTRUCTION })) := by
  have hs : ¬ c.status ≠ CPU_OK := by simp [h]
  constructor
  · intro hpc
    have hpc' : c.next_instr < 0 ∨ c.next_instr ≥ c.stack_end := hpc
    simp only [cpu_step, if_neg hs, if_pos hpc']
  · intro w hpc hw hbad
    have hpc' : ¬ (c.next_instr < 0 ∨ c.next_instr ≥ c.stack_end) := by omega
    have hbad' : w < 0 ∨ w > 18 := hbad
    simp only [fetch, add_zero] at hw
    simp only [cpu_step, if_neg hs, if_neg hpc', hw, if_pos hbad']

/-- Witness of C3: a machine without code region and a machine whose first word is 19. -/
theorem dispatcher_validation_witness :
    cpu_step scanf_lld_ref no_code_machine =
      some (0, { no_code_machine with status := CPU_INVALID_ADDRESS }) ∧
    cpu_step scanf_lld_ref bad_opcode_machine =
      some (0, { bad_opcode_machine with status := CPU_ILLEGAL_INSTRUCTION }) :=
  ⟨(dispatcher_validation scanf_lld_ref no_code_machine (by decide)).1 (by decide),
   (dispatcher_validation scanf_lld_ref bad_opcode_machine (by decide)).2 19
     (by decide) (by decide) (by decide)⟩

/-! ## Register-operand fault -/

/-- C4: when the register operand of an instruction is not one of 0, 1, 2, 3 (for `SWAP`:
the first operand, or the second one after a valid first), `cpu_step` reports
not-executed and the only field that changes is the status, set to `ILLEGAL_OPERAND`: the
program counter is the index of the opcode word again, and registers, stack bookkeeping,
memory, standard input and standard output are as before. -/
theorem register_operand_fault (c : cpu) (op w : Int)
    (hlen : c.memory_point.length ≤ 2147483647) (hst : c.status = CPU_OK)
    (hpc : 0 ≤ c.next_instr ∧ c.next_instr < c.stack_end) (hop : fetch c 0 = some op) :
    (op ∈ [2, 3, 4, 5, 6, 7, 9, 10, 11, 12, 13, 14, 15, 16, 17, 18] →
      fetch c 1 = some w → ¬ valid_register w →
      cpu_step scanf_lld c = some (0, { c with status := CPU_ILLEGAL_OPERAND })) ∧
    (op = 16 → ∀ r, fetch c 1 = some r → valid_register r →
      fetch c 2 = some w → ¬ valid_register w →
      cpu_step scanf_lld c = some (0, { c with status := CPU_ILLEGAL_OPERAND })) := by
  have hnot : ¬ (c.next_instr < 0 ∨ c.next_instr ≥ c.stack_end) := by omega
  have e0 : wrap32 c.next_instr = c.next_instr := by
    have := mem_read_bounds hop
    unfold wrap32; omega
  simp only [fetch, add_zero] at hop
  constructor
  · intro hmem h1 hw
    unfold fetch at h1
    have hb := mem_read_bounds h1
    have e1 : wrap32 (c.next_instr + 1) = c.next_instr + 1 := by unfold wrap32; omega
    have hw' : w < 0 ∨ 3 < w := by
      simp only [valid_register, REGISTER_A, REGISTER_D] at hw; omega
    simp only [List.mem_cons, List.mem_singleton, List.not_mem_nil, or_false] at hmem
    rcases hmem with rfl | rfl | rfl | rfl | rfl | rfl | rfl | rfl | rfl | rfl | rfl | rfl |
      rfl | rfl | rfl | rfl <;>
    simp [cpu_step, add_reg, sub_reg, mul_reg, div_reg, inc_reg, dec_reg, movr, load_reg,
      store_reg, in_reg, get_reg, out_reg, put_reg, swap_reg, push_reg, pop_reg,
      validate_register, hst, hnot, hop, e0, e1, h1, hw']
  · rintro rfl r h1 hr h2 hw
    unfold fetch at h1 h2
    have hb := mem_read_bounds h2
    have e1 : wrap32 (c.next_instr + 1) = c.next_instr + 1 := by unfold wrap32; omega
    have e2 : wrap32 (c.next_instr + 1 + 1) = c.next_instr + 2 := by unfold wrap32; omega
    have e3 : wrap32 (c.next_instr + 2 - 2) = c.next_instr := by unfold wrap32; omega
    have hw' : w < 0 ∨ 3 < w := by
      simp only [valid_register, REGISTER_A, REGISTER_D] at hw; omega
    have hr' : ¬ (r < 0 ∨ 3 < r) := by
      simp only [valid_register, REGISTER_A, REGISTER_D] at hr; omega
    simp [cpu_step, swap_reg, validate_register, hst, hnot, hop, e0, e1, e2, e3, h1, h2,
      hw', hr']

/-- Witness of C4: `ADD 4` and `SWAP A 7` on fresh machines. -/
theorem register_operand_fault_witness :
    cpu_step scanf_lld_ref bad_operand_machine =
      some (0, { bad_operand_machine with status := CPU_ILLEGAL_OPERAND }) ∧
    cpu_step scanf_lld_ref bad_swap_machine =
      some (0, { bad_swap_machine with status := CPU_ILLEGAL_OPERAND }) :=
  ⟨(register_operand_fault scanf_lld_ref bad_operand_machine 2 4 (by decide) (by decide)
      (by decide) (by decide)).1 (by decide) (by decide) (by decide),
   (register_operand_fault scanf_lld_ref bad_swap_machine 16 7 (by decide) (by decide)
      (by decide) (by decide)).2 rfl 0 (by decide) (by decide) (by decide) (by decide)⟩

/-! ## Division by zero -/

/-- C7 (as amended): `DIV r` with a valid register `r` holding 0 makes `cpu_step` report
not-executed and set the status to `DIV_BY_ZERO`; no register changes, and the program
counter is left on the operand word, one past the opcode word, so that it does not move
beyond the instruction. -/
theorem div_by_zero_fault (c : cpu) (r : Int)
    (hlen : c.memory_point.length ≤ 2147483647) (hst : c.status = CPU_OK)
    (hpc : 0 ≤ c.next_instr ∧ c.next_instr < c.stack_end)
    (hop : fetch c 0 = some 5) (h1 : fetch c 1 = some r) (hr : valid_register r)
    (hz : cpu_get_register c r = 0) :
    cpu_step scanf_lld c =
      some (0, { c with status := CPU_DIV_BY_ZERO, next_instr := c.next_instr + 1 }) := by
  have hnot : ¬ (c.next_instr < 0 ∨ c.next_instr ≥ c.stack_end) := by omega
  unfold fetch at hop h1
  simp only [add_zero] at hop
  have hb := mem_read_bounds h1
  have e1 : wrap32 (c.next_instr + 1) = c.next_instr + 1 := by unfold wrap32; omega
  have hr' : ¬ (r < 0 ∨ 3 < r) := by
    simp only [valid_register, REGISTER_A, REGISTER_D] at hr; omega
  simp only [cpu_get_register, REGISTER_A, REGISTER_B, REGISTER_C] at hz
  simp [cpu_step, div_reg, validate_register, cpu_get_register, hst, hnot, hop, e1, h1, hr',
    hz]

/-- Witness of the amended C7: `DIV A` on a fresh machine. -/
theorem div_by_zero_fault_witness :
    cpu_step scanf_lld_ref div_zero_machine =
      some (0, { div_zero_machine with status := CPU_DIV_BY_ZERO, next_instr := 1 }) :=
  div_by_zero_fault scanf_lld_ref div_zero_machine 0 (by decide) (by decide) (by decide)
    (by decide) (by decide) (by decide) (by decide)

/-- Counterexample to C7: on a fresh machine whose program is `DIV A`, register A holding
0, the step reports not-executed with status `DIV_BY_ZERO`, but the program counter is 1
afterwards and not 0, the index of the opcode word. -/
theorem div_by_zero_pc_counterexample :
    div_zero_machine.status = CPU_OK ∧ div_zero_machine.next_instr = 0 ∧
    fetch div_zero_machine 0 = some 5 ∧ fetch div_zero_machine 1 = some REGISTER_A ∧
    cpu_get_register div_zero_machine REGISTER_A = 0 ∧
    cpu_step scanf_lld_ref div_zero_machine =
      some (0, { div_zero_machine with status := CPU_DIV_BY_ZERO, next_instr := 1 }) ∧
    ¬ ∃ c', cpu_step scanf_lld_ref div_zero_machine = some (0, c') ∧
      c'.next_instr = div_zero_machine.next_instr := by
  refine ⟨by decide, by decide, by decide, by decide, by decide, by decide, ?_⟩
  rintro ⟨c', h, hpc⟩
  have e : cpu_step scanf_lld_ref div_zero_machine =
      some (0, { div_zero_machine with status := CPU_DIV_BY_ZERO, next_instr := 1 }) := by
    decide
  rw [e] at h
  cases h
  revert hpc
  decide

/-! ## Faults of `LOAD` and `STORE` -/

/-- The part of C8 that the code satisfies: `LOAD r off` or `STORE r off` with a valid
register whose effective address, computed in 32 bits, lies outside
`[stack_last_val, stack_first_index]` reports not-executed, sets the status to
`INVALID_STACK_OPERATION`, and changes nothing else: the program counter is back on the
opcode word. -/
theorem load_store_out_of_window (c : cpu) (op r off : Int)
    (hlen : c.memory_point.length ≤ 2147483647) (hst : c.status = CPU_OK)
    (hpc : 0 ≤ c.next_instr ∧ c.next_instr < c.stack_end)
    (hop : fetch c 0 = some op) (hop' : op = 10 ∨ op = 11)
    (h1 : fetch c 1 = some r) (hr : valid_register r) (h2 : fetch c 2 = some off)
    (hout : wrap32 (wrap32 (c.stack_last_val + c.reg_d) + off) < c.stack_last_val ∨
      c.stack_first_index < wrap32 (wrap32 (c.stack_last_val + c.reg_d) + off)) :
    cpu_step scanf_lld c = some (0, { c with status := CPU_INVALID_STACK_OPERATION }) := by
  have hnot : ¬ (c.next_instr < 0 ∨ c.next_instr ≥ c.stack_end) := by omega
  unfold fetch at hop h1 h2
  simp only [add_zero] at hop
  have hb := mem_read_bounds h2
  have e0 : wrap32 c.next_instr = c.next_instr := by unfold wrap32; omega
  have e1 : wrap32 (c.next_instr + 1) = c.next_instr + 1 := by unfold wrap32; omega
  have e2 : wrap32 (c.next_instr + 1 + 1) = c.next_instr + 2 := by unfold wrap32; omega
  have e3 : wrap32 (c.next_instr + 2 - 2) = c.next_instr := by unfold wrap32; omega
  have hr' : ¬ (r < 0 ∨ 3 < r) := by
    simp only [valid_register, REGISTER_A, REGISTER_D] at hr; omega
  rcases hop' with rfl | rfl
  · by_cases hgt : c.stack_first_index < wrap32 (wrap32 (c.stack_last_val + c.reg_d) + off)
    · simp [cpu_step, load_reg, validate_register, cpu_get_register, hst, hnot, hop, e0, e1,
        e2, e3, h1, h2, hr', hgt]
    · have hlt : wrap32 (wrap32 (c.stack_last_val + c.reg_d) + off) < c.stack_last_val := by
        omega
      simp [cpu_step, load_reg, validate_register, cpu_get_register, hst, hnot, hop, e0, e1,
        e2, e3, h1, h2, hr', hgt, hlt]
  · by_cases hgt : c.stack_first_index < wrap32 (wrap32 (c.stack_last_val + c.reg_d) + off)
    · simp [cpu_step, store_reg, validate_register, cpu_get_register, hst, hnot, hop, e0, e1,
        e2, e3, h1, h2, hr', hgt]
    · have hlt : wrap32 (wrap32 (c.stack_last_val + c.reg_d) + off) < c.stack_last_val := by
        omega
      simp [cpu_step, store_reg, validate_register, cpu_get_register, hst, hnot, hop, e0, e1,
        e2, e3, h1, h2, hr', hgt, hlt]

/-- Witness of `load_store_out_of_window`: `LOAD A 5` with one word on the stack. -/
theorem load_store_out_of_window_witness :
    cpu_step scanf_lld_ref far_load_machine =
      some (0, { far_load_machine with status := CPU_INVALID_STACK_OPERATION }) :=
  load_store_out_of_window scanf_lld_ref far_load_machine 10 0 5 (by decide) (by decide)
    (by decide) (by decide) (by decide) (by decide) (by decide) (by decide) (by decide)

/-- C8 at its failing input: `LOAD A 0` and `STORE A 0` on an empty stack with D = 0 have
their effective address inside `[stack_last_val, stack_first_index]`; the step reports
not-executed with status `INVALID_STACK_OPERATION`, but the program counter stays on the
offset word, two past the opcode word, instead of being rolled back. -/
theorem load_store_empty_stack_no_rollback :
    cpu_step scanf_lld_ref empty_load_machine =
      some (0, { empty_load_machine with
        status := CPU_INVALID_STACK_OPERATION, next_instr := 2 }) ∧
    cpu_step scanf_lld_ref empty_store_machine =
      some (0, { empty_store_machine with
        status := CPU_INVALID_STACK_OPERATION, next_instr := 2 }) ∧
    empty_load_machine.next_instr = 0 ∧ empty_store_machine.next_instr = 0 ∧
    empty_load_machine.stack_amount = 0 ∧ empty_store_machine.stack_amount = 0 := by
  decide

/-! ## Successful `LOAD` and `STORE` -/

theorem mem_read_of_bounds {m : List Int} {i : Int} (h0 : 0 ≤ i) (h1 : i < m.length) :
    mem_read m i = some (m.getD i.toNat 0) := by
  have hlt : i.toNat < m.length := by omega
  simp [mem_read, h0, List.getD, List.getElem?_eq_getElem hlt]

theorem mem_read_set_same {m : List Int} {i v : Int} (h0 : 0 ≤ i) (h1 : i < m.length) :
    mem_read (m.set i.toNat v) i = some v := by
  have hlt : i.toNat < m.length := by omega
  simp [mem_read, h0, hlt]

/-- Effect of a successful `LOAD r off`. -/
theorem load_reg_success (c : cpu) (r off : Int)
    (hlen : c.memory_point.length ≤ 2147483647) (hst : c.status = CPU_OK)
    (hpc : 0 ≤ c.next_instr ∧ c.next_instr < c.stack_end)
    (hop : fetch c 0 = some 10) (h1 : fetch c 1 = some r) (hr : valid_register r)
    (h2 : fetch c 2 = some off) (hne : c.stack_amount ≠ 0)
    (hlo : 0 ≤ c.stack_last_val) (hhi : c.stack_first_index < c.memory_point.length)
    (hea : 0 ≤ c.reg_d + off ∧ c.reg_d + off ≤ c.stack_first_index - c.stack_last_val) :
    ∃ word, mem_read c.memory_point (c.stack_last_val + c.reg_d + off) = some word ∧
      cpu_step scanf_lld c =
        some (1, { cpu_set_register c r word with next_instr := c.next_instr + 3 }) := by
  have hnot : ¬ (c.next_instr < 0 ∨ c.next_instr ≥ c.stack_end) := by omega
  unfold fetch at hop h1 h2
  simp only [add_zero] at hop
  have hb := mem_read_bounds h2
  have e1 : wrap32 (c.next_instr + 1) = c.next_instr + 1 := by unfold wrap32; omega
  have e2 : wrap32 (c.next_instr + 1 + 1) = c.next_instr + 2 := by unfold wrap32; omega
  have e3 : wrap32 (c.next_instr + 2 + 1) = c.next_instr + 3 := by unfold wrap32; omega
  have e2' : wrap32 (c.next_instr + 2) = c.next_instr + 2 := by unfold wrap32; omega
  have e3' : wrap32 (c.next_instr + 3) = c.next_instr + 3 := by unfold wrap32; omega
  have ea : wrap32 (wrap32 (c.stack_last_val + c.reg_d) + off) =
      c.stack_last_val + c.reg_d + off := by unfold wrap32; omega
  have hr' : ¬ (r < 0 ∨ 3 < r) := by
    simp only [valid_register, REGISTER_A, REGISTER_D] at hr; omega
  have hgt : ¬ c.stack_first_index < c.stack_last_val + c.reg_d + off := by omega
  have hlt : ¬ c.stack_last_val + c.reg_d + off < c.stack_last_val := by omega
  have hw := mem_read_of_bounds (m := c.memory_point)
    (i := c.stack_last_val + c.reg_d + off) (by omega) (by omega)
  refine ⟨_, hw, ?_⟩
  simp [cpu_step, load_reg, validate_register, cpu_get_register, hst, hnot, hop, e1, e2, e3,
    ea, h1, h2, hr', hgt, hne, hw, hlt, e2', e3']
  simp only [cpu_set_register]
  split_ifs <;> simp [e3, hst]

/-- Effect of a successful `STORE r off`. -/
theorem store_reg_success (c : cpu) (r off : Int)
    (hlen : c.memory_point.length ≤ 2147483647) (hst : c.status = CPU_OK)
    (hpc : 0 ≤ c.next_instr ∧ c.next_instr < c.stack_end)
    (hop : fetch c 0 = some 11) (h1 : fetch c 1 = some r) (hr : valid_register r)
    (h2 : fetch c 2 = some off) (hne : c.stack_amount ≠ 0)
    (hlo : 0 ≤ c.stack_last_val) (hhi : c.stack_first_index < c.memory_point.length)
    (hea : 0 ≤ c.reg_d + off ∧ c.reg_d + off ≤ c.stack_first_index - c.stack_last_val) :
    cpu_step scanf_lld c =
      some (1, { c with
        memory_point :=
          c.memory_point.set (c.stack_last_val + c.reg_d + off).toNat (cpu_get_register c r)
        next_instr := c.next_instr + 3 }) := by
  have hnot : ¬ (c.next_instr < 0 ∨ c.next_instr ≥ c.stack_end) := by omega
  unfold fetch at hop h1 h2
  simp only [add_zero] at hop
  have hb := mem_read_bounds h2
  have e1 : wrap32 (c.next_instr + 1) = c.next_instr + 1 := by unfold wrap32; omega
  have e2 : wrap32 (c.next_instr + 1 + 1) = c.next_instr + 2 := by unfold wrap32; omega
  have e3 : wrap32 (c.next_instr + 2 + 1) = c.next_instr + 3 := by unfold wrap32; omega
  have e2' : wrap32 (c.next_instr + 2) = c.next_instr + 2 := by unfold wrap32; omega
  have e3' : wrap32 (c.next_instr + 3) = c.next_instr + 3 := by unfold wrap32; omega
  have ea : wrap32 (wrap32 (c.stack_last_val + c.reg_d) + off) =
      c.stack_last_val + c.reg_d + off := by unfold wrap32; omega
  have hr' : ¬ (r < 0 ∨ 3 < r) := by
    simp only [valid_register, REGISTER_A, REGISTER_D] at hr; omega
  have hgt : ¬ c.stack_first_index < c.stack_last_val + c.reg_d + off := by omega
  have hlt : ¬ c.stack_last_val + c.reg_d + off < c.stack_last_val := by omega
  have hin : 0 ≤ c.stack_last_val + c.reg_d + off ∧
      c.stack_last_val + c.reg_d + off < c.memory_point.length := by omega
  simp [cpu_step, store_reg, validate_register, cpu_get_register, mem_write, hst, hnot, hop,
    e1, e2, e3, ea, h1, h2, hr', hgt, hne, hlt, e2', e3', hin]

theorem valid_register_cases {r : Int} (h : valid_register r) :
    r = 0 ∨ r = 1 ∨ r = 2 ∨ r = 3 := by
  simp only [valid_register, REGISTER_A, REGISTER_D] at h; omega

theorem cpu_get_register_set_same (c : cpu) {r : Int} (v : Int) (h : valid_register r) :
    cpu_get_register (cpu_set_register c r v) r = v := by
  rcases valid_register_cases h with rfl | rfl | rfl | rfl <;>
    simp [cpu_get_register, cpu_set_register]

theorem cpu_get_register_set_other (c : cpu) {r r' : Int} (v : Int) (h : valid_register r)
    (h' : valid_register r') (hne : r' ≠ r) :
    cpu_get_register (cpu_set_register c r v) r' = cpu_get_register c r' := by
  rcases valid_register_cases h with rfl | rfl | rfl | rfl <;>
    rcases valid_register_cases h' with rfl | rfl | rfl | rfl <;>
    simp [cpu_get_register, cpu_set_register] at hne ⊢

/-- C10: with status `OK`, a non-empty stack, a valid register `r` and
`0 ≤ D + off ≤ stack_first_index - stack_last_val`, `LOAD r off` sets `r` to the word at
`stack_last_val + D + off` (D as it was before the instruction) and `STORE r off` sets
exactly that word to the value of `r`; either reports executed and advances the program
counter by 3, and nothing else changes.  A `LOAD r' off` executed right after the
`STORE r off` leaves `r'` holding the value of `r`, which `r` still holds. -/
theorem load_store_success (c : cpu) (r off : Int)
    (hlen : c.memory_point.length ≤ 2147483647) (hst : c.status = CPU_OK)
    (hpc : 0 ≤ c.next_instr ∧ c.next_instr < c.stack_end)
    (h1 : fetch c 1 = some r) (hr : valid_register r) (h2 : fetch c 2 = some off)
    (hne : c.stack_amount ≠ 0)
    (hlo : 0 ≤ c.stack_last_val) (hhi : c.stack_first_index < c.memory_point.length)
    (hea : 0 ≤ c.reg_d + off ∧ c.reg_d + off ≤ c.stack_first_index - c.stack_last_val) :
    (fetch c 0 = some 10 →
      ∃ word, mem_read c.memory_point (c.stack_last_val + c.reg_d + off) = some word ∧
        cpu_step scanf_lld c =
          some (1, { cpu_set_register c r word with next_instr := c.next_instr + 3 })) ∧
    (fetch c 0 = some 11 →
      ∃ c1, cpu_step scanf_lld c = some (1, c1) ∧
        c1 = { c with
          memory_point :=
            c.memory_point.set (c.stack_last_val + c.reg_d + off).toNat
              (cpu_get_register c r)
          next_instr := c.next_instr + 3 } ∧
        ∀ r', valid_register r' → c1.next_instr < c1.stack_end →
          fetch c1 0 = some 10 → fetch c1 1 = some r' → fetch c1 2 = some off →
          ∃ c2, cpu_step scanf_lld c1 = some (1, c2) ∧
            c2 = { cpu_set_register c1 r' (cpu_get_register c r) with
              next_instr := c.next_instr + 6 } ∧
            cpu_get_register c2 r' = cpu_get_register c r ∧
            cpu_get_register c2 r = cpu_get_register c r) := by
  refine ⟨fun hop => load_reg_success scanf_lld c r off hlen hst hpc hop h1 hr h2 hne hlo
    hhi hea, fun hop => ?_⟩
  have hin : 0 ≤ c.stack_last_val + c.reg_d + off ∧
      c.stack_last_val + c.reg_d + off < c.memory_point.length := by omega
  obtain ⟨c1, hc1⟩ : ∃ c1 : cpu, c1 = { c with
      memory_point :=
        c.memory_point.set (c.stack_last_val + c.reg_d + off).toNat (cpu_get_register c r)
      next_instr := c.next_instr + 3 } := ⟨_, rfl⟩
  refine ⟨c1, hc1 ▸ store_reg_success scanf_lld c r off hlen hst hpc hop h1 hr h2 hne
    hlo hhi hea, hc1, ?_⟩
  intro r' hr' hpc' hop' h1' h2'
  have f1 : c1.memory_point.length = c.memory_point.length := by rw [hc1]; simp
  have f2 : c1.status = CPU_OK := by rw [hc1]; exact hst
  have f3 : c1.next_instr = c.next_instr + 3 := by rw [hc1]
  have f4 : c1.stack_amount = c.stack_amount := by rw [hc1]
  have f5 : c1.stack_last_val = c.stack_last_val := by rw [hc1]
  have f6 : c1.stack_first_index = c.stack_first_index := by rw [hc1]
  have f7 : c1.reg_d = c.reg_d := by rw [hc1]
  have f8 : c1.memory_point =
      c.memory_point.set (c.stack_last_val + c.reg_d + off).toNat (cpu_get_register c r) := by
    rw [hc1]
  obtain ⟨word, hword, hstep⟩ := load_reg_success scanf_lld c1 r' off
    (by omega) f2 ⟨by omega, hpc'⟩ hop' h1' hr' h2' (by omega) (by omega) (by omega)
    (by omega)
  have hw : word = cpu_get_register c r := by
    rw [f5, f7, f8, mem_read_set_same hin.1 hin.2] at hword
    exact (Option.some.inj hword).symm
  subst hw
  refine ⟨_, hstep, ?_, ?_, ?_⟩
  · rw [f3, add_assoc]; rfl
  · exact cpu_get_register_set_same _ _ hr'
  · by_cases e : r = r'
    · subst e; exact cpu_get_register_set_same _ _ hr
    · refine (cpu_get_register_set_other c1 _ hr' hr e).trans ?_
      rw [hc1]; rfl

/-- Witness of C10: `LOAD D 0` with D = 1, and `STORE B 0; LOAD A 0`, on a stack of two
words. -/
theorem load_store_success_witness :
    (∃ word, mem_read load_d_machine.memory_point
        (load_d_machine.stack_last_val + load_d_machine.reg_d + 0) = some word ∧
      cpu_step scanf_lld_ref load_d_machine =
        some (1, { cpu_set_register load_d_machine 3 word with
          next_instr := load_d_machine.next_instr + 3 })) ∧
    (∃ c1, cpu_step scanf_lld_ref store_load_machine = some (1, c1) ∧
      c1 = { store_load_machine with
        memory_point := [11, 1, 0, 10, 0, 0, 1, 40, 22], next_instr := 3 } ∧
      ∃ c2, cpu_step scanf_lld_ref c1 = some (1, c2) ∧
        cpu_get_register c2 0 = 22 ∧ cpu_get_register c2 1 = 22) := by
  refine ⟨(load_store_success scanf_lld_ref load_d_machine 3 0 (by decide) (by decide)
    (by decide) (by decide) (by decide) (by decide) (by decide) (by decide) (by decide)
    (by decide)).1 (by decide), ?_⟩
  obtain ⟨c1, hstep, hc1, hload⟩ := (load_store_success scanf_lld_ref store_load_machine 1 0
    (by decide) (by decide) (by decide) (by decide) (by decide) (by decide) (by decide)
    (by decide) (by decide) (by decide)).2 (by decide)
  have hc1' : c1 = { store_load_machine with
      memory_point := [11, 1, 0, 10, 0, 0, 1, 40, 22], next_instr := 3 } := by
    rw [hc1]; decide
  subst hc1'
  obtain ⟨c2, hstep2, _, ha, hb⟩ := hload 0 (by decide) (by decide) (by decide) (by decide)
    (by decide)
  exact ⟨_, hstep, rfl, c2, hstep2, ha, hb⟩

/-! ## The return value of `cpu_run` -/

theorem cpu_steps_of_executed (k : Nat) (c c' : cpu)
    (h : cpu_steps_executed scanf_lld k c = some c') : cpu_steps scanf_lld k c = some c' := by
  induction k generalizing c with
  | zero => simpa [cpu_steps_executed, cpu_steps] using h
  | succ k ih =>
    simp only [cpu_steps_executed] at h
    simp only [cpu_steps]
    split at h
    · cases h
    · rename_i e c1 heq
      split at h
      · cases h
      · exact ih c1 h

theorem cpu_run_loop_all (steps left i : Nat) (c c' : cpu)
    (h : cpu_steps_executed scanf_lld left c = some c') :
    cpu_run_loop scanf_lld steps left i c = some (to_long_long steps, c') := by
  induction left generalizing c i with
  | zero => simpa [cpu_steps_executed, cpu_run_loop] using h
  | succ k ih =>
    simp only [cpu_steps_executed] at h
    simp only [cpu_run_loop]
    split at h
    · cases h
    · rename_i e c1 heq
      split at h
      · cases h
      · rename_i he
        simp only [if_neg he]
        exact ih (i + 1) c1 h

theorem cpu_run_loop_stop (steps left i k : Nat) (c c' c'' : cpu) (hk : k < left)
    (h : cpu_steps_executed scanf_lld k c = some c')
    (hstop : cpu_step scanf_lld c' = some (0, c'')) :
    cpu_run_loop scanf_lld steps left i c =
      some (if c''.status = CPU_HALTED then to_long_long (i + k)
        else to_long_long (size_t_wrap ((i + k) * 18446744073709551615)), c'') := by
  induction k generalizing c i left with
  | zero =>
    obtain ⟨l, rfl⟩ : ∃ l, left = l + 1 := ⟨left - 1, by omega⟩
    simp only [cpu_steps_executed, Option.some.injEq] at h
    subst h
    simp only [cpu_run_loop, hstop, if_true, Nat.add_zero]
    split <;> rfl
  | succ k ih =>
    obtain ⟨l, rfl⟩ : ∃ l, left = l + 1 := ⟨left - 1, by omega⟩
    simp only [cpu_steps_executed] at h
    simp only [cpu_run_loop]
    split at h
    · cases h
    · rename_i e c1 heq
      split at h
      · cases h
      · rename_i he
        simp only [if_neg he]
        have := ih l (i + 1) c1 (by omega) h
        rw [this]
        have e1 : i + 1 + k = i + (k + 1) := by omega
        rw [e1]

/-- The return contract of `cpu_run` for every budget that a `long long` can hold: a
machine that is not `OK` at entry runs no step and 0 is returned; otherwise `n` executed
steps return `n` in the state of `n` successive steps, and a first not-executed step, the
`(k+1)`-th, returns `k + 1` when the status is `HALTED` and `-(k + 1)` when it is not. -/
theorem cpu_run_contract (c : cpu) (n : Nat) (hn : n < 9223372036854775808) :
    (c.status ≠ CPU_OK →
      ∃ c', cpu_run scanf_lld c n = some (0, c') ∧
        (c' = c ∨ c' = { c with status := CPU_ILLEGAL_INSTRUCTION })) ∧
    (c.status = CPU_OK →
      (∀ c', cpu_steps_executed scanf_lld n c = some c' →
        cpu_run scanf_lld c n = some ((n : Int), c') ∧ cpu_steps scanf_lld n c = some c') ∧
      (∀ k c' c'', k < n → cpu_steps_executed scanf_lld k c = some c' →
        cpu_step scanf_lld c' = some (0, c'') →
        cpu_run scanf_lld c n =
          some (if c''.status = CPU_HALTED then ((k : Int) + 1) else -((k : Int) + 1), c''))) := by
  have hleft : size_t_wrap (n + 1) - 1 = n := by unfold size_t_wrap; omega
  refine ⟨fun h => ?_, fun h => ⟨fun c' hc' => ⟨?_, cpu_steps_of_executed scanf_lld n c c' hc'⟩,
    fun k c' c'' hk hc' hstop => ?_⟩⟩
  · simp only [cpu_run, if_pos h]
    split
    · exact ⟨_, rfl, Or.inr rfl⟩
    · exact ⟨_, rfl, Or.inl rfl⟩
  · have hs : ¬ c.status ≠ CPU_OK := by simp [h]
    simp only [cpu_run, if_neg hs, hleft]
    rw [cpu_run_loop_all scanf_lld n n 1 c c' hc']
    have : to_long_long n = (n : Int) := by unfold to_long_long; omega
    rw [this]
  · have hs : ¬ c.status ≠ CPU_OK := by simp [h]
    simp only [cpu_run, if_neg hs, hleft]
    rw [cpu_run_loop_stop scanf_lld n n 1 k c c' c'' hk hc' hstop]
    have e1 : to_long_long (1 + k) = (k : Int) + 1 := by unfold to_long_long; omega
    have e2 : to_long_long (size_t_wrap ((1 + k) * 18446744073709551615)) = -((k : Int) + 1) := by
      unfold to_long_long size_t_wrap; omega
    rw [e1, e2]

/-- The program `NOP; HALT`: on a freshly created machine whose words 0 and 1 are `NOP` and
`HALT` and lie below `stack_end`, every budget from 2 up to the largest `long long` makes
`cpu_run` return 2 with status `HALTED`. -/
theorem cpu_run_nop_halt (memory : List Int) (stack_bottom : Int) (stack_capacity : Nat)
    (input : List (Fin 256)) (output : List out_event) (n : Nat)
    (h0 : mem_read memory 0 = some 0) (h1 : mem_read memory 1 = some 1)
    (hcode : 2 ≤ stack_bottom - stack_capacity + 1)
    (hn : 2 ≤ n) (hn' : n < 9223372036854775808) :
    cpu_run scanf_lld (cpu_create memory stack_bottom stack_capacity input output) n =
      some (2, { cpu_create memory stack_bottom stack_capacity input output with
        next_instr := 1, status := CPU_HALTED }) := by
  have hA : cpu_steps_executed scanf_lld 1
      (cpu_create memory stack_bottom stack_capacity input output) =
      some { cpu_create memory stack_bottom stack_capacity input output with
        next_instr := 1 } := by
    have hpc : ¬ (stack_bottom - stack_capacity + 1 ≤ 0) := by omega
    have w1 : wrap32 1 = 1 := by decide
    simp [cpu_steps_executed, cpu_step, cpu_create, h0, hpc, w1]
  have hB : cpu_step scanf_lld { cpu_create memory stack_bottom stack_capacity input output with
        next_instr := 1 } =
      some (0, { cpu_create memory stack_bottom stack_capacity input output with
        next_instr := 1, status := CPU_HALTED }) := by
    have hpc : ¬ ((1 : Int) < 0 ∨ (1 : Int) ≥ stack_bottom - stack_capacity + 1) := by omega
    simp [cpu_step, cpu_create, h1]
    omega
  have := ((cpu_run_contract scanf_lld _ n hn').2 rfl).2 1 _ _ (by omega) hA hB
  rw [this]
  simp

/-- Witness of `cpu_run_nop_halt` and `cpu_run_contract`: budget 5 on `NOP; HALT`. -/
theorem cpu_run_nop_halt_witness :
    cpu_run scanf_lld_ref nop_halt 5 = some (2, halted_machine) :=
  cpu_run_nop_halt scanf_lld_ref [0, 1, 0, 0] 3 2 [] [] 5 (by decide) (by decide) (by decide)
    (by decide) (by decide)

/-- C1 at its failing input: with the budget `SIZE_MAX` the bound `steps + 1` of the loop
wraps to 0, so that `cpu_run` executes no step of the program `NOP; HALT` and returns
`(long long) SIZE_MAX`, that is -1, with status `OK`, where the contract promises 2 and
`HALTED`. -/
theorem cpu_run_size_max :
    nop_halt.status = CPU_OK ∧ fetch nop_halt 0 = some 0 ∧ fetch nop_halt 1 = some 1 ∧
    cpu_run scanf_lld_ref nop_halt 18446744073709551615 = some (-1, nop_halt) ∧
    cpu_run scanf_lld_ref nop_halt 18446744073709551614 = some (2, halted_machine) := by
  refine ⟨by decide, by decide, by decide, by decide, by decide⟩

/-! ## `cpu_reset` -/

/-- C5 at its failing input: on a fresh machine created with `stack_bottom` at index 7,
`cpu_reset` sets `stack_last_val` and `stack_first_index` to 0 instead of 7, so that the
state differs from the one `cpu_create` produced; the program `MOV A 7; PUSH A; HALT`
pushes to word 7 on the fresh machine and, after the reset, to word 0, over its own first
opcode. -/
theorem cpu_reset_moves_stack_bottom :
    push_machine.stack_last_val = 7 ∧ push_machine.stack_first_index = 7 ∧
    cpu_reset push_machine =
      some { push_machine with stack_last_val := 0, stack_first_index := 0 } ∧
    cpu_reset push_machine ≠ some push_machine ∧
    (cpu_run scanf_lld_ref push_machine 3).map (fun r => (r.1, r.2.memory_point)) =
      some (3, [9, 0, 7, 17, 0, 1, 0, 7]) ∧
    ((cpu_reset push_machine).bind (fun c => cpu_run scanf_lld_ref c 3)).map
        (fun r => (r.1, r.2.memory_point, r.2.status)) =
      some (3, [7, 0, 7, 17, 0, 1, 0, 0], CPU_HALTED) := by
  decide

/-! ## Size of the loaded buffer -/

/-- C6 at its failing input: a stream of 4 bytes (one program word) loaded with a stack
capacity of 2048 words yields a buffer of 2048 words, fewer than the 1 + 2048 the claim
requires; the stack window `[L - 2048, L - 1]` is then the whole buffer and contains the
program word at index 0. -/
theorem cpu_create_memory_short_buffer :
    ∃ m, cpu_create_memory [1, 0, 0, 0] 2048 = some (m, 2047) ∧ m.length = 2048 ∧
      m.length < 1 + 2048 ∧ mem_read m 0 = some 1 := by
  refine ⟨(List.replicate 2048 0).set 0 1, ?_, ?_, ?_, ?_⟩
  · simp [-List.reduceReplicate, cpu_create_memory, cpu_create_memory_loop, mem_write,
      size_t_wrap, to_size_t, wrap32]
  · simp only [List.length_set, List.length_replicate]
  · simp only [List.length_set, List.length_replicate]; decide
  · simp [-List.reduceReplicate, mem_read]

/-! ## The stack bookkeeping is an invariant of `cpu_step` -/

theorem registers_int32_set (c : cpu) (r v : Int) (h : registers_int32 c) (hv : int32 v) :
    registers_int32 (cpu_set_register c r v) := by
  obtain ⟨ha, hb, hc, hd⟩ := h
  unfold cpu_set_register
  split_ifs <;> exact ⟨by assumption, by assumption, by assumption, by assumption⟩

theorem int32_get_register (c : cpu) (r : Int) (h : registers_int32 c) :
    int32 (cpu_get_register c r) := by
  obtain ⟨ha, hb, hc, hd⟩ := h
  unfold cpu_get_register
  split_ifs <;> assumption

theorem cpu_set_register_frame (c : cpu) (r v : Int) :
    (cpu_set_register c r v).next_instr = c.next_instr ∧
    (cpu_set_register c r v).memory_point = c.memory_point ∧
    (cpu_set_register c r v).stack_start = c.stack_start ∧
    (cpu_set_register c r v).stack_end = c.stack_end ∧
    (cpu_set_register c r v).stack_amount = c.stack_amount ∧
    (cpu_set_register c r v).stack_last_val = c.stack_last_val ∧
    (cpu_set_register c r v).stack_first_index = c.stack_first_index ∧
    (cpu_set_register c r v).status = c.status ∧
    (cpu_set_register c r v).stdin = c.stdin ∧
    (cpu_set_register c r v).stdout = c.stdout := by
  unfold cpu_set_register
  split_ifs <;> exact ⟨rfl, rfl, rfl, rfl, rfl, rfl, rfl, rfl, rfl, rfl⟩

/-- A step that leaves the stack bookkeeping alone and writes at most one `int32_t` word
keeps the invariant. -/
theorem stack_invariant_frame {c c' : cpu} (h : stack_invariant c)
    (hmem : c'.memory_point = c.memory_point ∨
      ∃ i v, int32 v ∧ mem_write c.memory_point i v = some c'.memory_point)
    (hss : c'.stack_start = c.stack_start) (hse : c'.stack_end = c.stack_end)
    (hsa : c'.stack_amount = c.stack_amount) (hsl : c'.stack_last_val = c.stack_last_val)
    (hsf : c'.stack_first_index = c.stack_first_index)
    (hregs : registers_int32 c') (hpc : int32 c'.next_instr) : stack_invariant c' := by
  obtain ⟨⟨_, _, h3, h4, h5, h6, h7⟩, h8, h9, h10, h11, h12, h13⟩ := h
  have hm : (∀ w ∈ c'.memory_point, int32 w) ∧ c'.memory_point.length = c.memory_point.length := by
    rcases hmem with e | ⟨i, v, hv, hw⟩
    · rw [e]; exact ⟨h6, rfl⟩
    · refine ⟨fun w hwm => ?_, mem_write_length hw⟩
      rcases mem_write_mem hw hwm with hin | rfl
      · exact h6 w hin
      · exact hv
  refine ⟨⟨hregs, hpc, ?_, ?_, ?_, hm.1, ?_⟩, ?_, ?_, ?_, ?_, ?_, ?_⟩
  · rw [hsa]; exact h3
  · rw [hsl]; exact h4
  · rw [hsf]; exact h5
  · rw [hm.2]; exact h7
  · rw [hse]; exact h8
  · rw [hss, hm.2]; exact h9
  · rw [hsf, hss]; exact h10
  · rw [hsa]; exact h11
  · rw [hsa, hss, hse]; exact h12
  · rw [hsl, hsf, hsa]; exact h13

theorem stack_invariant_set_register {c : cpu} (r v : Int) (h : stack_invariant c)
    (hv : int32 v) : stack_invariant (cpu_set_register c r v) := by
  obtain ⟨f1, f2, f3, f4, f5, f6, f7, _, _, _⟩ := cpu_set_register_frame c r v
  exact stack_invariant_frame h (Or.inl f2) f3 f4 f5 f6 f7
    (registers_int32_set c r v h.1.1 hv) (f1 ▸ h.1.2.1)

theorem stack_invariant_next_instr {c : cpu} (n : Int) (h : stack_invariant c) :
    stack_invariant { c with next_instr := wrap32 n } :=
  stack_invariant_frame h (Or.inl rfl) rfl rfl rfl rfl rfl h.1.1 (int32_wrap32 _)

theorem add_reg_invariant {c c' : cpu} {e : Int} (h : stack_invariant c)
    (hs : add_reg c = some (e, c')) : stack_invariant c' := by
  have hr := h.1.1
  simp only [add_reg] at hs
  split at hs
  · cases hs
  · rename_i reg hreg
    by_cases hv : reg < 0 ∨ reg > 3
    · simp [validate_register, hv] at hs
      obtain ⟨rfl, rfl⟩ := hs
      exact stack_invariant_frame h (Or.inl rfl) rfl rfl rfl rfl rfl hr (int32_wrap32 _)
    · simp [validate_register, hv] at hs
      obtain ⟨rfl, rfl⟩ := hs
      exact stack_invariant_frame h (Or.inl rfl) rfl rfl rfl rfl rfl
        ⟨int32_wrap32 _, hr.2⟩ (int32_wrap32 _)

theorem sub_reg_invariant {c c' : cpu} {e : Int} (h : stack_invariant c)
    (hs : sub_reg c = some (e, c')) : stack_invariant c' := by
  have hr := h.1.1
  simp only [sub_reg] at hs
  split at hs
  · cases hs
  · rename_i reg hreg
    by_cases hv : reg < 0 ∨ reg > 3
    · simp [validate_register, hv] at hs
      obtain ⟨rfl, rfl⟩ := hs
      exact stack_invariant_frame h (Or.inl rfl) rfl rfl rfl rfl rfl hr (int32_wrap32 _)
    · simp [validate_register, hv] at hs
      obtain ⟨rfl, rfl⟩ := hs
      exact stack_invariant_frame h (Or.inl rfl) rfl rfl rfl rfl rfl
        ⟨int32_wrap32 _, hr.2⟩ (int32_wrap32 _)

theorem mul_reg_invariant {c c' : cpu} {e : Int} (h : stack_invariant c)
    (hs : mul_reg c = some (e, c')) : stack_invariant c' := by
  have hr := h.1.1
  simp only [mul_reg] at hs
  split at hs
  · cases hs
  · rename_i reg hreg
    by_cases hv : reg < 0 ∨ reg > 3
    · simp [validate_register, hv] at hs
      obtain ⟨rfl, rfl⟩ := hs
      exact stack_invariant_frame h (Or.inl rfl) rfl rfl rfl rfl rfl hr (int32_wrap32 _)
    · simp [validate_register, hv] at hs
      obtain ⟨rfl, rfl⟩ := hs
      exact stack_invariant_frame h (Or.inl rfl) rfl rfl rfl rfl rfl
        ⟨int32_wrap32 _, hr.2⟩ (int32_wrap32 _)

theorem inc_reg_invariant {c c' : cpu} {e : Int} (h : stack_invariant c)
    (hs : inc_reg c = some (e, c')) : stack_invariant c' := by
  have hr := h.1.1
  simp only [inc_reg] at hs
  split at hs
  · cases hs
  · rename_i reg hreg
    by_cases hv : reg < 0 ∨ reg > 3
    · simp [validate_register, hv] at hs
      obtain ⟨rfl, rfl⟩ := hs
      exact stack_invariant_frame h (Or.inl rfl) rfl rfl rfl rfl rfl hr (int32_wrap32 _)
    · simp [validate_register, hv] at hs
      obtain ⟨rfl, rfl⟩ := hs
      exact stack_invariant_next_instr _ (stack_invariant_set_register _ _
        (stack_invariant_next_instr _ h) (int32_wrap32 _))

theorem dec_reg_invariant {c c' : cpu} {e : Int} (h : stack_invariant c)
    (hs : dec_reg c = some (e, c')) : stack_invariant c' := by
  have hr := h.1.1
  simp only [dec_reg] at hs
  split at hs
  · cases hs
  · rename_i reg hreg
    by_cases hv : reg < 0 ∨ reg > 3
    · simp [validate_register, hv] at hs
      obtain ⟨rfl, rfl⟩ := hs
      exact stack_invariant_frame h (Or.inl rfl) rfl rfl rfl rfl rfl hr (int32_wrap32 _)
    · simp [validate_register, hv] at hs
      obtain ⟨rfl, rfl⟩ := hs
      exact stack_invariant_next_instr _ (stack_invariant_set_register _ _
        (stack_invariant_next_instr _ h) (int32_wrap32 _))

theorem out_reg_invariant {c c' : cpu} {e : Int} (h : stack_invariant c)
    (hs : out_reg c = some (e, c')) : stack_invariant c' := by
  have hr := h.1.1
  simp only [out_reg] at hs
  split at hs
  · cases hs
  · rename_i reg hreg
    by_cases hv : reg < 0 ∨ reg > 3
    · simp [validate_register, hv] at hs
      obtain ⟨rfl, rfl⟩ := hs
      exact stack_invariant_frame h (Or.inl rfl) rfl rfl rfl rfl rfl hr (int32_wrap32 _)
    · simp [validate_register, hv] at hs
      obtain ⟨rfl, rfl⟩ := hs
      exact stack_invariant_frame h (Or.inl rfl) rfl rfl rfl rfl rfl
        hr (int32_wrap32 _)

theorem div_reg_invariant {c c' : cpu} {e : Int} (h : stack_invariant c)
    (hs : div_reg c = some (e, c')) : stack_invariant c' := by
  have hr := h.1.1
  simp only [div_reg] at hs
  split at hs
  · cases hs
  · rename_i reg hreg
    by_cases hv : reg < 0 ∨ reg > 3
    · simp [validate_register, hv] at hs
      obtain ⟨rfl, rfl⟩ := hs
      exact stack_invariant_frame h (Or.inl rfl) rfl rfl rfl rfl rfl hr (int32_wrap32 _)
    · simp [validate_register, hv] at hs
      split_ifs at hs <;> simp only [Option.some.injEq, Prod.mk.injEq] at hs <;>
        obtain ⟨rfl, rfl⟩ := hs
      · exact stack_invariant_frame h (Or.inl rfl) rfl rfl rfl rfl rfl hr (int32_wrap32 _)
      · exact stack_invariant_frame h (Or.inl rfl) rfl rfl rfl rfl rfl
          ⟨int32_wrap32 _, hr.2⟩ (int32_wrap32 _)

theorem put_reg_invariant {c c' : cpu} {e : Int} (h : stack_invariant c)
    (hs : put_reg c = some (e, c')) : stack_invariant c' := by
  have hr := h.1.1
  simp only [put_reg] at hs
  split at hs
  · cases hs
  · rename_i reg hreg
    by_cases hv : reg < 0 ∨ reg > 3
    · simp [validate_register, hv] at hs
      obtain ⟨rfl, rfl⟩ := hs
      exact stack_invariant_frame h (Or.inl rfl) rfl rfl rfl rfl rfl hr (int32_wrap32 _)
    · simp [validate_register, hv] at hs
      split_ifs at hs <;> simp only [Option.some.injEq, Prod.mk.injEq] at hs <;>
        obtain ⟨rfl, rfl⟩ := hs
      · exact stack_invariant_frame h (Or.inl rfl) rfl rfl rfl rfl rfl hr (int32_wrap32 _)
      · exact stack_invariant_frame h (Or.inl rfl) rfl rfl rfl rfl rfl hr (int32_wrap32 _)

theorem loop_ind_invariant {c c' : cpu} {e : Int} (h : stack_invariant c)
    (hs : loop_ind c = some (e, c')) : stack_invariant c' := by
  have hr := h.1.1
  simp only [loop_ind] at hs
  split at hs
  · cases hs
  · rename_i index hindex
    have hi : int32 index := h.1.2.2.2.2.2.1 index (mem_read_mem hindex)
    split_ifs at hs <;> simp only [Option.some.injEq, Prod.mk.injEq] at hs <;>
      obtain ⟨rfl, rfl⟩ := hs
    · exact stack_invariant_frame h (Or.inl rfl) rfl rfl rfl rfl rfl hr (int32_wrap32 _)
    · exact stack_invariant_frame h (Or.inl rfl) rfl rfl rfl rfl rfl hr hi

theorem movr_invariant {c c' : cpu} {e : Int} (h : stack_invariant c)
    (hs : movr c = some (e, c')) : stack_invariant c' := by
  have hr := h.1.1
  simp only [movr] at hs
  split at hs
  · cases hs
  · rename_i reg hreg
    by_cases hv : reg < 0 ∨ reg > 3
    · simp [validate_register, hv] at hs
      obtain ⟨rfl, rfl⟩ := hs
      exact stack_invariant_frame h (Or.inl rfl) rfl rfl rfl rfl rfl hr (int32_wrap32 _)
    · simp [validate_register, hv] at hs
      split at hs
      · cases hs
      · rename_i number hnumber
        have hn : int32 number := h.1.2.2.2.2.2.1 number (mem_read_mem hnumber)
        simp only [Option.some.injEq, Prod.mk.injEq] at hs
        obtain ⟨rfl, rfl⟩ := hs
        exact stack_invariant_next_instr _ (stack_invariant_set_register _ _
          (stack_invariant_next_instr _ h) hn)

theorem load_reg_invariant {c c' : cpu} {e : Int} (h : stack_invariant c)
    (hs : load_reg c = some (e, c')) : stack_invariant c' := by
  have hr := h.1.1
  simp only [load_reg] at hs
  split at hs
  · cases hs
  · rename_i reg hreg
    by_cases hv : reg < 0 ∨ reg > 3
    · simp [validate_register, hv] at hs
      obtain ⟨rfl, rfl⟩ := hs
      exact stack_invariant_frame h (Or.inl rfl) rfl rfl rfl rfl rfl hr (int32_wrap32 _)
    · simp [validate_register, hv] at hs
      split at hs
      · cases hs
      · split_ifs at hs
        · simp only [Option.some.injEq, Prod.mk.injEq] at hs
          obtain ⟨rfl, rfl⟩ := hs
          exact stack_invariant_frame h (Or.inl rfl) rfl rfl rfl rfl rfl hr (int32_wrap32 _)
        · simp only [Option.some.injEq, Prod.mk.injEq] at hs
          obtain ⟨rfl, rfl⟩ := hs
          exact stack_invariant_frame h (Or.inl rfl) rfl rfl rfl rfl rfl hr (int32_wrap32 _)
        · simp only [Option.some.injEq, Prod.mk.injEq] at hs
          obtain ⟨rfl, rfl⟩ := hs
          exact stack_invariant_frame h (Or.inl rfl) rfl rfl rfl rfl rfl hr (int32_wrap32 _)
        · split at hs
          · cases hs
          · rename_i word hword
            have hw : int32 word := h.1.2.2.2.2.2.1 word (mem_read_mem hword)
            simp only [Option.some.injEq, Prod.mk.injEq] at hs
            obtain ⟨rfl, rfl⟩ := hs
            exact stack_invariant_next_instr _ (stack_invariant_set_register _ _
              (stack_invariant_next_instr _ h) hw)

theorem store_reg_invariant {c c' : cpu} {e : Int} (h : stack_invariant c)
    (hs : store_reg c = some (e, c')) : stack_invariant c' := by
  have hr := h.1.1
  simp only [store_reg] at hs
  split at hs
  · cases hs
  · rename_i reg hreg
    by_cases hv : reg < 0 ∨ reg > 3
    · simp [validate_register, hv] at hs
      obtain ⟨rfl, rfl⟩ := hs
      exact stack_invariant_frame h (Or.inl rfl) rfl rfl rfl rfl rfl hr (int32_wrap32 _)
    · simp [validate_register, hv] at hs
      split at hs
      · cases hs
      · split_ifs at hs
        · simp only [Option.some.injEq, Prod.mk.injEq] at hs
          obtain ⟨rfl, rfl⟩ := hs
          exact stack_invariant_frame h (Or.inl rfl) rfl rfl rfl rfl rfl hr (int32_wrap32 _)
        · simp only [Option.some.injEq, Prod.mk.injEq] at hs
          obtain ⟨rfl, rfl⟩ := hs
          exact stack_invariant_frame h (Or.inl rfl) rfl rfl rfl rfl rfl hr (int32_wrap32 _)
        · simp only [Option.some.injEq, Prod.mk.injEq] at hs
          obtain ⟨rfl, rfl⟩ := hs
          exact stack_invariant_frame h (Or.inl rfl) rfl rfl rfl rfl rfl hr (int32_wrap32 _)
        · split at hs
          · cases hs
          · rename_i m hm
            simp only [Option.some.injEq, Prod.mk.injEq] at hs
            obtain ⟨rfl, rfl⟩ := hs
            exact stack_invariant_frame h
              (Or.inr ⟨_, _, int32_get_register { c with next_instr := _ } reg hr, hm⟩)
              rfl rfl rfl rfl rfl hr (int32_wrap32 _)

theorem in_reg_invariant {c c' : cpu} {e : Int} (h : stack_invariant c)
    (hs : in_reg scanf_lld c = some (e, c')) : stack_invariant c' := by
  have hr := h.1.1
  simp only [in_reg] at hs
  split at hs
  · cases hs
  · rename_i reg hreg
    by_cases hv : reg < 0 ∨ reg > 3
    · simp [validate_register, hv] at hs
      obtain ⟨rfl, rfl⟩ := hs
      exact stack_invariant_frame h (Or.inl rfl) rfl rfl rfl rfl rfl hr (int32_wrap32 _)
    · simp only [validate_register, REGISTER_A, REGISTER_D, if_neg hv, one_ne_zero,
        if_false] at hs
      have hbase : stack_invariant
          { c with
            next_instr := wrap32 (c.next_instr + 1)
            stdin := (scanf_lld c.stdin).2.2 } :=
        stack_invariant_frame h (Or.inl rfl) rfl rfl rfl rfl rfl hr (int32_wrap32 _)
      split_ifs at hs with h1 h2
      · simp only [Option.some.injEq, Prod.mk.injEq] at hs
        obtain ⟨rfl, rfl⟩ := hs
        exact stack_invariant_next_instr _ (stack_invariant_set_register _ _
          (stack_invariant_set_register _ _ hbase (by decide)) (by decide))
      · simp only [Option.some.injEq, Prod.mk.injEq] at hs
        obtain ⟨rfl, rfl⟩ := hs
        exact stack_invariant_frame h (Or.inl rfl) rfl rfl rfl rfl rfl hr (int32_wrap32 _)
      · simp only [Option.some.injEq, Prod.mk.injEq] at hs
        obtain ⟨rfl, rfl⟩ := hs
        have hin : int32 (scanf_lld c.stdin).2.1 := by
          simp only [INT32_MIN, INT32_MAX] at h2
          unfold int32; omega
        exact stack_invariant_next_instr _ (stack_invariant_set_register _ _ hbase hin)

theorem get_reg_invariant {c c' : cpu} {e : Int} (h : stack_invariant c)
    (hs : get_reg c = some (e, c')) : stack_invariant c' := by
  have hr := h.1.1
  simp only [get_reg] at hs
  split at hs
  · cases hs
  · rename_i reg hreg
    by_cases hv : reg < 0 ∨ reg > 3
    · simp [validate_register, hv] at hs
      obtain ⟨rfl, rfl⟩ := hs
      exact stack_invariant_frame h (Or.inl rfl) rfl rfl rfl rfl rfl hr (int32_wrap32 _)
    · simp only [validate_register, REGISTER_A, REGISTER_D, if_neg hv, one_ne_zero,
        if_false] at hs
      split at hs
      · simp only [Option.some.injEq, Prod.mk.injEq] at hs
        obtain ⟨rfl, rfl⟩ := hs
        exact stack_invariant_next_instr _ (stack_invariant_set_register _ _
          (stack_invariant_set_register _ _ (stack_invariant_next_instr _ h) (by decide))
          (by decide))
      · rename_i byte rest hstdin
        simp only [Option.some.injEq, Prod.mk.injEq] at hs
        obtain ⟨rfl, rfl⟩ := hs
        have hb : int32 (byte.val : Int) := by
          have := byte.isLt
          unfold int32; omega
        have hbase : stack_invariant
            { c with
              next_instr := wrap32 (c.next_instr + 1)
              stdin := rest } :=
          stack_invariant_frame h (Or.inl rfl) rfl rfl rfl rfl rfl hr (int32_wrap32 _)
        exact stack_invariant_next_instr _ (stack_invariant_set_register _ _ hbase hb)

theorem swap_reg_invariant {c c' : cpu} {e : Int} (h : stack_invariant c)
    (hs : swap_reg c = some (e, c')) : stack_invariant c' := by
  have hr := h.1.1
  simp only [swap_reg] at hs
  split at hs
  · cases hs
  · rename_i reg hreg
    by_cases hv : reg < 0 ∨ reg > 3
    · simp [validate_register, hv] at hs
      obtain ⟨rfl, rfl⟩ := hs
      exact stack_invariant_frame h (Or.inl rfl) rfl rfl rfl rfl rfl hr (int32_wrap32 _)
    · simp only [validate_register, REGISTER_A, REGISTER_D, if_neg hv, one_ne_zero,
        if_false] at hs
      split at hs
      · cases hs
      · rename_i reg_two hreg_two
        by_cases hv2 : reg_two < 0 ∨ reg_two > 3
        · simp only [if_pos hv2, if_true] at hs
          simp only [Option.some.injEq, Prod.mk.injEq] at hs
          obtain ⟨rfl, rfl⟩ := hs
          exact stack_invariant_frame h (Or.inl rfl) rfl rfl rfl rfl rfl hr (int32_wrap32 _)
        · simp only [if_neg hv2, one_ne_zero, if_false] at hs
          simp only [Option.some.injEq, Prod.mk.injEq] at hs
          obtain ⟨rfl, rfl⟩ := hs
          have hb := stack_invariant_next_instr (c.next_instr + 1) h
          have hb2 := stack_invariant_next_instr (wrap32 (c.next_instr + 1) + 1) hb
          have h1 := stack_invariant_set_register reg
            (cpu_get_register { c with next_instr := wrap32 (wrap32 (c.next_instr + 1) + 1) }
              reg_two) hb2 (int32_get_register _ _ hr)
          exact stack_invariant_next_instr _ (stack_invariant_set_register _ _ h1
            (int32_get_register { c with next_instr := _ } reg hr))

theorem push_reg_invariant {c c' : cpu} {e : Int} (h : stack_invariant c)
    (hs : push_reg c = some (e, c')) : stack_invariant c' := by
  have hr := h.1.1
  simp only [push_reg] at hs
  split at hs
  · cases hs
  · rename_i reg hreg
    by_cases hv : reg < 0 ∨ reg > 3
    · simp [validate_register, hv] at hs
      obtain ⟨rfl, rfl⟩ := hs
      exact stack_invariant_frame h (Or.inl rfl) rfl rfl rfl rfl rfl hr (int32_wrap32 _)
    · simp only [validate_register, REGISTER_A, REGISTER_D, if_neg hv, one_ne_zero,
        if_false] at hs
      split_ifs at hs with hfull hamt
      · simp only [Option.some.injEq, Prod.mk.injEq] at hs
        obtain ⟨rfl, rfl⟩ := hs
        exact stack_invariant_frame h (Or.inl rfl) rfl rfl rfl rfl rfl hr (int32_wrap32 _)
      · split at hs
        · cases hs
        · rename_i m hm
          simp only [Option.some.injEq, Prod.mk.injEq] at hs
          obtain ⟨rfl, rfl⟩ := hs
          have hlen := mem_write_length hm
          have hmem : ∀ w ∈ m, int32 w := by
            intro w hw
            rcases mem_write_mem hm hw with hin | rfl
            · exact h.1.2.2.2.2.2.1 w hin
            · exact int32_get_register _ _ hr
          obtain ⟨⟨_, hpc, h3, h4, h5, h6, h7⟩, h8, h9, h10, h11, h12, h13⟩ := h
          simp only [ne_eq] at hfull hamt
          unfold int32 at h3 h4 h5
          refine ⟨⟨hr, int32_wrap32 _, int32_wrap32 _, int32_wrap32 _, h5, hmem, ?_⟩, h8, ?_, h10,
            ?_, ?_, ?_⟩
          · simp only [hlen]; exact h7
          · simp only [hlen]; exact h9
          · simp only []; unfold wrap32 at hfull ⊢; omega
          · simp only []; unfold wrap32 at hfull ⊢; omega
          · simp only []; unfold wrap32 at hfull ⊢; omega
      · split at hs
        · cases hs
        · rename_i m hm
          simp only [Option.some.injEq, Prod.mk.injEq] at hs
          obtain ⟨rfl, rfl⟩ := hs
          have hlen := mem_write_length hm
          have hmem : ∀ w ∈ m, int32 w := by
            intro w hw
            rcases mem_write_mem hm hw with hin | rfl
            · exact h.1.2.2.2.2.2.1 w hin
            · exact int32_get_register _ _ hr
          obtain ⟨⟨_, hpc, h3, h4, h5, h6, h7⟩, h8, h9, h10, h11, h12, h13⟩ := h
          simp only [ne_eq, not_not] at hfull hamt
          unfold int32 at h3 h4 h5
          refine ⟨⟨hr, int32_wrap32 _, int32_wrap32 _, h4, h5, hmem, ?_⟩, h8, ?_, h10,
            ?_, ?_, ?_⟩
          · simp only [hlen]; exact h7
          · simp only [hlen]; exact h9
          · simp only []; unfold wrap32 at hfull ⊢; omega
          · simp only []; unfold wrap32 at hfull ⊢; omega
          · simp only []; unfold wrap32 at hfull ⊢; omega

theorem pop_reg_invariant {c c' : cpu} {e : Int} (h : stack_invariant c)
    (hs : pop_reg c = some (e, c')) : stack_invariant c' := by
  have hr := h.1.1
  simp only [pop_reg] at hs
  split at hs
  · cases hs
  · rename_i reg hreg
    by_cases hv : reg < 0 ∨ reg > 3
    · simp [validate_register, hv] at hs
      obtain ⟨rfl, rfl⟩ := hs
      exact stack_invariant_frame h (Or.inl rfl) rfl rfl rfl rfl rfl hr (int32_wrap32 _)
    · simp only [validate_register, REGISTER_A, REGISTER_D, if_neg hv, one_ne_zero,
        if_false] at hs
      split_ifs at hs with hempty
      · simp only [Option.some.injEq, Prod.mk.injEq] at hs
        obtain ⟨rfl, rfl⟩ := hs
        exact stack_invariant_frame h (Or.inl rfl) rfl rfl rfl rfl rfl hr (int32_wrap32 _)
      · split at hs
        · cases hs
        · rename_i word hword
          have hw : int32 word := h.1.2.2.2.2.2.1 word (mem_read_mem hword)
          have hbase := stack_invariant_next_instr (c.next_instr + 1) h
          have hset := stack_invariant_set_register reg word hbase hw
          obtain ⟨f1, f2, f3, f4, f5, f6, f7, f8, f9, f10⟩ :=
            cpu_set_register_frame { c with next_instr := wrap32 (c.next_instr + 1) } reg word
          simp only [f1, f2, f3, f4, f5, f6, f7, f8, f9, f10] at hs
          split at hs
          · cases hs
          · rename_i m hm
            have hlen := mem_write_length hm
            have hmem : ∀ w ∈ m, int32 w := by
              intro w hw
              rcases mem_write_mem hm hw with hin | rfl
              · exact h.1.2.2.2.2.2.1 w hin
              · decide
            obtain ⟨⟨_, hpc, h3, h4, h5, h6, h7⟩, h8, h9, h10, h11, h12, h13⟩ := h
            unfold int32 at h3 h4 h5
            split_ifs at hs with hamt <;> simp only [Option.some.injEq, Prod.mk.injEq] at hs <;>
              obtain ⟨rfl, rfl⟩ := hs
            · refine ⟨⟨hset.1.1, int32_wrap32 _, int32_wrap32 _, int32_wrap32 _, h5, hmem, ?_⟩,
                h8, ?_, h10, ?_, ?_, ?_⟩
              · simp only [hlen]; exact h7
              · simp only [hlen]; exact h9
              · simp only []; unfold wrap32 at hamt ⊢; omega
              · simp only []; unfold wrap32 at hamt ⊢; omega
              · simp only []; unfold wrap32 at hamt ⊢; omega
            · refine ⟨⟨hset.1.1, int32_wrap32 _, int32_wrap32 _, h4, h5, hmem, ?_⟩,
                h8, ?_, h10, ?_, ?_, ?_⟩
              · simp only [hlen]; exact h7
              · simp only [hlen]; exact h9
              · simp only []; unfold wrap32 at hamt ⊢; omega
              · simp only []; unfold wrap32 at hamt ⊢; omega
              · simp only []; unfold wrap32 at hamt ⊢; omega

theorem cpu_step_invariant {c c' : cpu} {e : Int} (h : stack_invariant c)
    (hs : cpu_step scanf_lld c = some (e, c')) : stack_invariant c' := by
  have hr := h.1.1
  have hpc := h.1.2.1
  unfold cpu_step at hs
  by_cases h1 : c.status ≠ CPU_OK
  · rw [if_pos h1] at hs
    by_cases h2 : c.status < CPU_OK ∨ c.status > CPU_IO_ERROR
    · rw [if_pos h2] at hs
      simp only [Option.some.injEq, Prod.mk.injEq] at hs
      obtain ⟨rfl, rfl⟩ := hs
      exact stack_invariant_frame h (Or.inl rfl) rfl rfl rfl rfl rfl hr hpc
    · rw [if_neg h2] at hs
      simp only [Option.some.injEq, Prod.mk.injEq] at hs
      obtain ⟨rfl, rfl⟩ := hs
      exact h
  rw [if_neg h1] at hs
  by_cases h2 : c.next_instr < 0 ∨ c.next_instr ≥ c.stack_end
  · rw [if_pos h2] at hs
    simp only [Option.some.injEq, Prod.mk.injEq] at hs
    obtain ⟨rfl, rfl⟩ := hs
    exact stack_invariant_frame h (Or.inl rfl) rfl rfl rfl rfl rfl hr hpc
  rw [if_neg h2] at hs
  cases hop : mem_read c.memory_point c.next_instr with
  | none => rw [hop] at hs; cases hs
  | some opcode =>
  rw [hop] at hs
  dsimp only at hs
  by_cases h3 : opcode < 0 ∨ opcode > 18
  · rw [if_pos h3] at hs
    simp only [Option.some.injEq, Prod.mk.injEq] at hs
    obtain ⟨rfl, rfl⟩ := hs
    exact stack_invariant_frame h (Or.inl rfl) rfl rfl rfl rfl rfl hr hpc
  rw [if_neg h3] at hs
  by_cases h4 : opcode = 0
  · rw [if_pos h4] at hs
    simp only [Option.some.injEq, Prod.mk.injEq] at hs
    obtain ⟨rfl, rfl⟩ := hs
    exact stack_invariant_next_instr _ h
  rw [if_neg h4] at hs
  by_cases h5 : opcode = 1
  · rw [if_pos h5] at hs
    simp only [Option.some.injEq, Prod.mk.injEq] at hs
    obtain ⟨rfl, rfl⟩ := hs
    exact stack_invariant_frame h (Or.inl rfl) rfl rfl rfl rfl rfl hr hpc
  rw [if_neg h5] at hs
  by_cases k2 : opcode = 2
  · rw [if_pos k2] at hs
    exact add_reg_invariant h hs
  rw [if_neg k2] at hs
  by_cases k3 : opcode = 3
  · rw [if_pos k3] at hs
    exact sub_reg_invariant h hs
  rw [if_neg k3] at hs
  by_cases k4 : opcode = 4
  · rw [if_pos k4] at hs
    exact mul_reg_invariant h hs
  rw [if_neg k4] at hs
  by_cases k5 : opcode = 5
  · rw [if_pos k5] at hs
    exact div_reg_invariant h hs
  rw [if_neg k5] at hs
  by_cases k6 : opcode = 6
  · rw [if_pos k6] at hs
    exact inc_reg_invariant h hs
  rw [if_neg k6] at hs
  by_cases k7 : opcode = 7
  · rw [if_pos k7] at hs
    exact dec_reg_invariant h hs
  rw [if_neg k7] at hs
  by_cases k8 : opcode = 8
  · rw [if_pos k8] at hs
    exact loop_ind_invariant h hs
  rw [if_neg k8] at hs
  by_cases k9 : opcode = 9
  · rw [if_pos k9] at hs
    exact movr_invariant h hs
  rw [if_neg k9] at hs
  by_cases k10 : opcode = 10
  · rw [if_pos k10] at hs
    exact load_reg_invariant h hs
  rw [if_neg k10] at hs
  by_cases k11 : opcode = 11
  · rw [if_pos k11] at hs
    exact store_reg_invariant h hs
  rw [if_neg k11] at hs
  by_cases k12 : opcode = 12
  · rw [if_pos k12] at hs
    exact in_reg_invariant scanf_lld h hs
  rw [if_neg k12] at hs
  by_cases k13 : opcode = 13
  · rw [if_pos k13] at hs
    exact get_reg_invariant h hs
  rw [if_neg k13] at hs
  by_cases k14 : opcode = 14
  · rw [if_pos k14] at hs
    exact out_reg_invariant h hs
  rw [if_neg k14] at hs
  by_cases k15 : opcode = 15
  · rw [if_pos k15] at hs
    exact put_reg_invariant h hs
  rw [if_neg k15] at hs
  by_cases k16 : opcode = 16
  · rw [if_pos k16] at hs
    exact swap_reg_invariant h hs
  rw [if_neg k16] at hs
  by_cases k17 : opcode = 17
  · rw [if_pos k17] at hs
    exact push_reg_invariant h hs
  rw [if_neg k17] at hs
  exact pop_reg_invariant h hs

theorem cpu_create_invariant (memory : List Int) (stack_bottom : Int) (stack_capacity : Nat)
    (input : List (Fin 256)) (output : List out_event)
    (hmem : ∀ w ∈ memory, int32 w) (hlen : memory.length ≤ 2147483647)
    (h0 : 0 ≤ stack_bottom) (h1 : stack_bottom < memory.length)
    (h2 : 0 ≤ stack_bottom - stack_capacity + 1) :
    stack_invariant (cpu_create memory stack_bottom stack_capacity input output) := by
  have hw : wrap32 stack_bottom = stack_bottom := by unfold wrap32; omega
  have hz : int32 0 := by decide
  unfold stack_invariant well_formed registers_int32
  simp only [cpu_create, hw]
  refine ⟨⟨⟨hz, hz, hz, hz⟩, hz, hz, ?_, ?_, hmem, hlen⟩, h2, h1, trivial, ?_, ?_, ?_⟩
  · unfold int32; omega
  · unfold int32; omega
  · omega
  · omega
  · omega

/-- Every machine reachable from `cpu_create` satisfies the stack bookkeeping invariant. -/
theorem reachable_invariant {c : cpu} (h : Reachable scanf_lld c) : stack_invariant c := by
  induction h with
  | create memory stack_bottom stack_capacity input output hmem hlen h0 h1 h2 =>
    exact cpu_create_invariant memory stack_bottom stack_capacity input output hmem hlen h0 h1 h2
  | step c c' executed _ hstep ih => exact cpu_step_invariant scanf_lld ih hstep

/-! ## `PUSH` followed by `POP` -/

/-- Effect of a successful `PUSH r` on a machine that satisfies the invariant. -/
theorem push_step_success (c : cpu) (r : Int) (hinv : stack_invariant c)
    (hst : c.status = CPU_OK) (hpc : 0 ≤ c.next_instr ∧ c.next_instr < c.stack_end)
    (hop : fetch c 0 = some 17) (h1 : fetch c 1 = some r) (hr : valid_register r)
    (hfull : c.stack_amount ≠ c.stack_start - c.stack_end + 1) :
    cpu_step scanf_lld c = some (1, { c with
      memory_point :=
        c.memory_point.set (c.stack_first_index - c.stack_amount).toNat (cpu_get_register c r)
      stack_amount := c.stack_amount + 1
      stack_last_val := c.stack_first_index - c.stack_amount
      next_instr := c.next_instr + 2 }) := by
  obtain ⟨⟨_, hpc32, h3, h4, h5, h6, h7⟩, h8, h9, h10, h11, h12, h13⟩ := hinv
  unfold int32 at hpc32 h3 h4 h5
  have hnot : ¬ (c.next_instr < 0 ∨ c.next_instr ≥ c.stack_end) := by omega
  unfold fetch at hop h1
  simp only [add_zero] at hop
  have hb := mem_read_bounds h1
  have e1 : wrap32 (c.next_instr + 1) = c.next_instr + 1 := by unfold wrap32; omega
  have e2 : wrap32 (c.next_instr + 1 + 1) = c.next_instr + 2 := by unfold wrap32; omega
  have ecap : wrap32 (c.stack_start - c.stack_end + 1) = c.stack_start - c.stack_end + 1 := by
    unfold wrap32; omega
  have eamt : wrap32 (c.stack_amount + 1) = c.stack_amount + 1 := by unfold wrap32; omega
  have hr' : ¬ (r < 0 ∨ 3 < r) := by
    simp only [valid_register, REGISTER_A, REGISTER_D] at hr; omega
  by_cases hamt : c.stack_amount = 0
  · have hslv : c.stack_last_val = c.stack_first_index := by omega
    have hin : 0 ≤ c.stack_first_index ∧ c.stack_first_index < c.memory_point.length := by
      omega
    have hfull' : ¬ (0 = c.stack_start - c.stack_end + 1) := by omega
    have w1 : wrap32 1 = 1 := by decide
    simp [cpu_step, push_reg, validate_register, cpu_get_register, mem_write, hst, hnot, hop,
      e1, e2, ecap, h1, hr', hfull', hamt, hin, hslv, w1]
  · have hslv : wrap32 (c.stack_last_val - 1) = c.stack_first_index - c.stack_amount := by
      unfold wrap32; omega
    have hin : 0 ≤ c.stack_first_index - c.stack_amount ∧
        c.stack_first_index - c.stack_amount < c.memory_point.length := by omega
    simp [cpu_step, push_reg, validate_register, cpu_get_register, mem_write, hst, hnot, hop,
      e1, e2, ecap, eamt, h1, hr', hfull, hamt, hin, hslv]

/-- Effect of a successful `POP r` on a machine that satisfies the invariant. -/
theorem pop_step_success (c : cpu) (r word : Int) (hinv : stack_invariant c)
    (hst : c.status = CPU_OK) (hpc : 0 ≤ c.next_instr ∧ c.next_instr < c.stack_end)
    (hop : fetch c 0 = some 18) (h1 : fetch c 1 = some r) (hr : valid_register r)
    (hne : c.stack_amount ≠ 0)
    (hword : mem_read c.memory_point c.stack_last_val = some word) :
    cpu_step scanf_lld c = some (1, { cpu_set_register c r word with
      memory_point := c.memory_point.set c.stack_last_val.toNat 0
      stack_amount := c.stack_amount - 1
      stack_last_val := c.stack_first_index - max (c.stack_amount - 2) 0
      next_instr := c.next_instr + 2 }) := by
  obtain ⟨⟨_, hpc32, h3, h4, h5, h6, h7⟩, h8, h9, h10, h11, h12, h13⟩ := hinv
  unfold int32 at hpc32 h3 h4 h5
  have hnot : ¬ (c.next_instr < 0 ∨ c.next_instr ≥ c.stack_end) := by omega
  unfold fetch at hop h1
  simp only [add_zero] at hop
  have hb := mem_read_bounds h1
  have hin := mem_read_bounds hword
  have e1 : wrap32 (c.next_instr + 1) = c.next_instr + 1 := by unfold wrap32; omega
  have e2 : wrap32 (c.next_instr + 1 + 1) = c.next_instr + 2 := by unfold wrap32; omega
  have eamt : wrap32 (c.stack_amount - 1) = c.stack_amount - 1 := by unfold wrap32; omega
  have hr' : ¬ (r < 0 ∨ 3 < r) := by
    simp only [valid_register, REGISTER_A, REGISTER_D] at hr; omega
  by_cases hamt : c.stack_amount - 1 = 0
  · have hslv : c.stack_last_val = c.stack_first_index - max (c.stack_amount - 2) 0 := by
      omega
    have hmax : max (c.stack_amount - 2) 0 = 0 := by omega
    have w0 : wrap32 0 = 0 := by decide
    rcases valid_register_cases hr with rfl | rfl | rfl | rfl <;>
      simp [cpu_step, pop_reg, validate_register, cpu_set_register, mem_write, hst, hnot, hop,
        e1, e2, eamt, h1, hne, hamt, hin, hword, hmax, w0] <;> omega
  · have hslv : wrap32 (c.stack_last_val + 1) =
        c.stack_first_index - max (c.stack_amount - 2) 0 := by
      unfold wrap32; omega
    rcases valid_register_cases hr with rfl | rfl | rfl | rfl <;>
      simp [cpu_step, pop_reg, validate_register, cpu_set_register, mem_write, hst, hnot, hop,
        e1, e2, eamt, h1, hne, hamt, hin, hword, hslv]

/-- C9: in a state reachable from `cpu_create` with status `OK` and a stack that is not
full, `PUSH r` followed by `POP r'` (valid registers, equal or not) executes both steps;
afterwards `r'` holds the value `r` had before the `PUSH`, `stack_amount` and
`stack_last_val` (hence the stack size) are what they were before the `PUSH`, and the cell
the `PUSH` wrote holds 0. -/
theorem push_pop_round_trip (c : cpu) (r r' : Int) (hreach : Reachable scanf_lld c)
    (hst : c.status = CPU_OK)
    (hfull : c.stack_amount ≠ c.stack_start - c.stack_end + 1)
    (hr : valid_register r) (hr' : valid_register r')
    (hpc : 0 ≤ c.next_instr ∧ c.next_instr + 2 < c.stack_end)
    (hop : fetch c 0 = some 17) (h1 : fetch c 1 = some r)
    (hpop : ∀ c1, cpu_step scanf_lld c = some (1, c1) →
      fetch c1 0 = some 18 ∧ fetch c1 1 = some r') :
    ∃ c1 c2, cpu_step scanf_lld c = some (1, c1) ∧ cpu_step scanf_lld c1 = some (1, c2) ∧
      mem_read c1.memory_point c1.stack_last_val = some (cpu_get_register c r) ∧
      c1.stack_amount = c.stack_amount + 1 ∧
      cpu_get_register c2 r' = cpu_get_register c r ∧
      c2.stack_amount = c.stack_amount ∧ c2.stack_last_val = c.stack_last_val ∧
      cpu_get_stack_size c2 = cpu_get_stack_size c ∧
      mem_read c2.memory_point c1.stack_last_val = some 0 := by
  have inv := reachable_invariant scanf_lld hreach
  have hpush := push_step_success scanf_lld c r inv hst ⟨hpc.1, by omega⟩ hop h1 hr hfull
  obtain ⟨c1, hc1⟩ : ∃ c1 : cpu, c1 = { c with
      memory_point :=
        c.memory_point.set (c.stack_first_index - c.stack_amount).toNat (cpu_get_register c r)
      stack_amount := c.stack_amount + 1
      stack_last_val := c.stack_first_index - c.stack_amount
      next_instr := c.next_instr + 2 } := ⟨_, rfl⟩
  rw [← hc1] at hpush
  have inv1 := cpu_step_invariant scanf_lld inv hpush
  obtain ⟨hf0, hf1⟩ := hpop c1 hpush
  obtain ⟨⟨_, hpc32, h3, h4, h5, h6, h7⟩, h8, h9, h10, h11, h12, h13⟩ := inv
  unfold int32 at hpc32 h3 h4 h5
  have g1 : c1.memory_point = c.memory_point.set
      (c.stack_first_index - c.stack_amount).toNat (cpu_get_register c r) := by rw [hc1]
  have g2 : c1.stack_last_val = c.stack_first_index - c.stack_amount := by rw [hc1]
  have g3 : c1.stack_amount = c.stack_amount + 1 := by rw [hc1]
  have g4 : c1.next_instr = c.next_instr + 2 := by rw [hc1]
  have g5 : c1.stack_end = c.stack_end := by rw [hc1]
  have g6 : c1.status = CPU_OK := by rw [hc1]; exact hst
  have g7 : c1.stack_first_index = c.stack_first_index := by rw [hc1]
  have hin : 0 ≤ c.stack_first_index - c.stack_amount ∧
      c.stack_first_index - c.stack_amount < c.memory_point.length := by omega
  have hword : mem_read c1.memory_point c1.stack_last_val = some (cpu_get_register c r) := by
    rw [g1, g2]; exact mem_read_set_same hin.1 hin.2
  have hpopstep := pop_step_success scanf_lld c1 r' (cpu_get_register c r) inv1 g6
    ⟨by omega, by omega⟩ hf0 hf1 hr' (by omega) hword
  refine ⟨c1, _, hpush, hpopstep, hword, g3, ?_, ?_, ?_, ?_, ?_⟩
  · exact cpu_get_register_set_same c1 _ hr'
  · show c1.stack_amount - 1 = c.stack_amount
    omega
  · show c1.stack_first_index - max (c1.stack_amount - 2) 0 = c.stack_last_val
    omega
  · show c1.stack_amount - 1 = c.stack_amount
    omega
  · show mem_read (c1.memory_point.set c1.stack_last_val.toNat 0) c1.stack_last_val = some 0
    have hlen : c1.memory_point.length = c.memory_point.length := by rw [g1]; simp
    exact mem_read_set_same (by omega) (by omega)

/-- Witness of C9: `PUSH A; POP B` after `MOV A 7` on a fresh machine. -/
theorem push_pop_round_trip_witness :
    ∃ c1 c2, cpu_step scanf_lld_ref push_pop_machine = some (1, c1) ∧
      cpu_step scanf_lld_ref c1 = some (1, c2) ∧
      mem_read c1.memory_point c1.stack_last_val = some 7 ∧
      c1.stack_amount = 1 ∧ cpu_get_register c2 1 = 7 ∧
      c2.stack_amount = 0 ∧ c2.stack_last_val = 9 ∧ cpu_get_stack_size c2 = 0 ∧
      mem_read c2.memory_point c1.stack_last_val = some 0 := by
  have hreach : Reachable scanf_lld_ref push_pop_machine :=
    Reachable.step (cpu_create [9, 0, 7, 17, 0, 18, 1, 1, 0, 0] 9 2 [] []) push_pop_machine 1
      (Reachable.create [9, 0, 7, 17, 0, 18, 1, 1, 0, 0] 9 2 [] [] (by decide) (by decide)
        (by decide) (by decide) (by decide)) (by decide)
  have hstep : cpu_step scanf_lld_ref push_pop_machine =
      some (1, { push_pop_machine with
        memory_point := [9, 0, 7, 17, 0, 18, 1, 1, 0, 7], stack_amount := 1,
        next_instr := 5 }) := by decide
  exact push_pop_round_trip scanf_lld_ref push_pop_machine 0 1 hreach (by decide) (by decide)
    (by decide) (by decide) (by decide) (by decide) (by decide)
    (fun c1 h => by
      rw [hstep] at h
      cases h
      decide)

/-! ## The loader reserves the stack for capacities up to 1024 words -/

theorem mem_write_bounds {m m' : List Int} {i v : Int} (h : mem_write m i v = some m') :
    0 ≤ i ∧ i < m.length := by
  unfold mem_write at h
  split at h
  · assumption
  · cases h

/-- Invariant of the loader loop after `n` stored words, for a stack capacity `s`: the
buffer has the recorded length, which leaves room for the stack above the stored words. -/
theorem cpu_create_memory_loop_sized (s : Nat) (hs : s ≤ 1024) (bytes : List (Fin 256)) :
    ∀ (st st' : loader) (n : Nat),
      0 ≤ st.byte_counter → st.byte_counter < 4 → st.p_memory.length = st.memory_length →
      n + s ≤ st.memory_length → n ≤ 2147483648 → st.memory_index = wrap32 n →
      cpu_create_memory_loop s bytes st = some st' →
      ∃ n' : Nat, st'.p_memory.length = st'.memory_length ∧ n' + s ≤ st'.memory_length ∧
        0 ≤ st'.byte_counter ∧
        4 * (n' : Int) + st'.byte_counter = 4 * (n : Int) + st.byte_counter + bytes.length := by
  induction bytes with
  | nil =>
    intro st st' n h0 h1 h2 h3 h4 h5 h
    simp only [cpu_create_memory_loop, Option.some.injEq] at h
    subst h
    exact ⟨n, h2, h3, h0, by simp⟩
  | cons b rest ih =>
    intro st st' n h0 h1 h2 h3 h4 h5 h
    simp only [cpu_create_memory_loop] at h
    by_cases hbc : st.byte_counter + 1 = 4
    · rw [if_pos hbc] at h
      by_cases hg : size_t_wrap (to_size_t st.memory_index + s) ≥ st.memory_length
      · simp only [if_pos hg] at h
        split at h
        · cases h
        · rename_i p hp
          have hlen := mem_write_length hp
          have hwb := mem_write_bounds hp
          simp only [List.length_append, List.length_take, List.length_replicate] at hlen
          have hidxn : st.memory_index = (n : Int) := by
            have := hwb.1
            rw [h5] at this ⊢
            unfold wrap32 at this ⊢
            omega
          obtain ⟨n', e1, e2, e3, e4⟩ := ih
            { cell := 0, byte_counter := 0, memory_length := st.memory_length + 1024,
              memory_index := wrap32 (st.memory_index + 1), p_memory := p }
            st' (n + 1) (le_refl _) (by norm_num)
            (by
              show p.length = st.memory_length + 1024
              rw [hlen, hidxn]
              simp only [Int.toNat_ofNat]
              omega)
            (by show n + 1 + s ≤ st.memory_length + 1024; omega)
            (by
              have := hwb.1
              rw [h5] at this
              unfold wrap32 at this
              omega)
            (by
              show wrap32 (st.memory_index + 1) = wrap32 ((n + 1 : Nat) : Int)
              rw [hidxn]; push_cast; rfl)
            h
          refine ⟨n', e1, e2, e3, ?_⟩
          rw [e4]
          simp only [List.length_cons]
          push_cast
          omega
      · simp only [if_neg hg] at h
        split at h
        · cases h
        · rename_i p hp
          have hlen := mem_write_length hp
          have hwb := mem_write_bounds hp
          have hidxn : st.memory_index = (n : Int) := by
            have := hwb.1
            rw [h5] at this ⊢
            unfold wrap32 at this ⊢
            omega
          obtain ⟨n', e1, e2, e3, e4⟩ := ih
            { cell := 0, byte_counter := 0, memory_length := st.memory_length,
              memory_index := wrap32 (st.memory_index + 1), p_memory := p }
            st' (n + 1) (le_refl _) (by norm_num)
            (by show p.length = st.memory_length; rw [hlen]; exact h2)
            (by
              show n + 1 + s ≤ st.memory_length
              unfold size_t_wrap to_size_t at hg
              rw [hidxn] at hg
              have hn : (n : Int) < st.memory_length := by
                have := hwb.2
                rw [hidxn, h2] at this
                exact this
              omega)
            (by
              have := hwb.1
              rw [h5] at this
              unfold wrap32 at this
              omega)
            (by
              show wrap32 (st.memory_index + 1) = wrap32 ((n + 1 : Nat) : Int)
              rw [hidxn]; push_cast; rfl)
            h
          refine ⟨n', e1, e2, e3, ?_⟩
          rw [e4]
          simp only [List.length_cons]
          push_cast
          omega
    · rw [if_neg hbc] at h
      obtain ⟨n', e1, e2, e3, e4⟩ := ih
        { st with
          cell := wrap32 (st.cell + wrap32 ((b.val : Int) * 2 ^ (8 * st.byte_counter).toNat))
          byte_counter := st.byte_counter + 1 }
        st' n (by show 0 ≤ st.byte_counter + 1; omega)
        (by show st.byte_counter + 1 < 4; omega) h2 h3 h4 h5 h
      refine ⟨n', e1, e2, e3, ?_⟩
      rw [e4]
      simp only [List.length_cons]
      push_cast
      omega

/-- The part of C6 that the code satisfies: for a stack capacity of at most 1024 words, a
successful load of a byte stream returns a buffer of `L` words with the stack bottom at
index `L - 1`; the stream has `4 * k` bytes and `k + s ≤ L`. -/
theorem cpu_create_memory_sized (program : List (Fin 256)) (s : Nat) (hs : s ≤ 1024)
    (m : List Int) (bottom : Int) (h : cpu_create_memory program s = some (m, bottom)) :
    program.length % 4 = 0 ∧ bottom = (m.length : Int) - 1 ∧
      program.length / 4 + s ≤ m.length := by
  unfold cpu_create_memory at h
  split at h
  · cases h
  · rename_i st hst
    split_ifs at h with hbc
    simp only [Option.some.injEq, Prod.mk.injEq] at h
    obtain ⟨rfl, rfl⟩ := h
    obtain ⟨n', e1, e2, _, e4⟩ := cpu_create_memory_loop_sized s hs program _ st 0 (le_refl _)
      (by norm_num) (by simp only [List.length_replicate]) (by simpa using hs) (by norm_num)
      (by decide) hst
    rw [hbc] at e4
    simp only [add_zero, Nat.cast_zero, mul_zero, zero_add] at e4
    refine ⟨by omega, by rw [e1], ?_⟩
    rw [e1]
    omega

/-- Witness of `cpu_create_memory_sized`: the program `NOP; HALT` with a stack of 16 words. -/
theorem cpu_create_memory_sized_witness :
    ∃ m, cpu_create_memory [0, 0, 0, 0, 1, 0, 0, 0] 16 = some (m, 1023) ∧
      (8 % 4 = 0 ∧ (1023 : Int) = (m.length : Int) - 1 ∧ 8 / 4 + 16 ≤ m.length) := by
  have h : cpu_create_memory [0, 0, 0, 0, 1, 0, 0, 0] 16 =
      some ((List.replicate 1024 0).set 1 1, 1023) := by
    simp [-List.reduceReplicate, cpu_create_memory, cpu_create_memory_loop, mem_write,
      size_t_wrap, to_size_t, wrap32]
  exact ⟨_, h, cpu_create_memory_sized [0, 0, 0, 0, 1, 0, 0, 0] 16 (by decide) _ _ h⟩

/-! ## Word packing and rejection by the loader -/

theorem mem_read_natCast (m : List Int) (j : Nat) : mem_read m (j : Int) = m[j]? := by
  simp [mem_read]

theorem wrap32_add_wrap32 (x y : Int) : wrap32 (wrap32 x + wrap32 y) = wrap32 (x + y) := by
  unfold wrap32; omega

theorem drop_cons_getD {program rest : List (Fin 256)} {b : Fin 256} {i : Nat}
    (h : program.drop i = b :: rest) :
    i < program.length ∧ byte_at program i = (b.val : Int) ∧ program.drop (i + 1) = rest := by
  have hlt : i < program.length := by
    by_contra hge
    rw [List.drop_eq_nil_of_le (by omega)] at h
    cases h
  refine ⟨hlt, ?_, ?_⟩
  · have h0 : (program.drop i)[0]? = some b := by rw [h]; simp
    rw [List.getElem?_drop] at h0
    simp only [Nat.add_zero] at h0
    simp [byte_at, List.getD, h0]
  · have := congrArg (List.drop 1) h
    simpa [List.drop_drop, Nat.add_comm] using this

/-- The loader loop, started in its state after `i` bytes of the stream on the bytes that
remain, ends in its state after the whole stream. -/
theorem loader_loop_packs (program : List (Fin 256)) (s : Nat)
    (hs : s < 9223372036854775808) (hlen : program.length < 8589934592) :
    ∀ (rest : List (Fin 256)) (i : Nat) (st : loader), program.drop i = rest →
      i ≤ program.length → loader_inv program i st →
      ∃ st', cpu_create_memory_loop s rest st = some st' ∧
        loader_inv program program.length st' := by
  intro rest
  induction rest with
  | nil =>
    intro i st hdrop hle hinv
    have hi : program.length ≤ i := List.drop_eq_nil_iff.1 hdrop
    have : i = program.length := by omega
    subst this
    exact ⟨st, rfl, hinv⟩
  | cons b rest ih =>
    intro i st hdrop hle hinv
    obtain ⟨hlt, hb, hrest⟩ := drop_cons_getD hdrop
    obtain ⟨h1, h2, h3, h4, h5, h6, h7⟩ := hinv
    have hshift : (8 * st.byte_counter).toNat = 8 * (i % 4) := by rw [h1]; omega
    have hcell : wrap32 (st.cell + wrap32 ((b.val : Int) * 2 ^ (8 * st.byte_counter).toNat)) =
        wrap32 (group_sum program (i / 4) (i % 4 + 1)) := by
      have hi4 : 4 * (i / 4) + i % 4 = i := by omega
      rw [h3, hshift, wrap32_add_wrap32, group_sum, hi4, hb]
    simp only [cpu_create_memory_loop]
    by_cases hbc : st.byte_counter + 1 = 4
    · rw [if_pos hbc]
      have ht : i % 4 = 3 := by rw [h1] at hbc; omega
      have hdiv : (i + 1) / 4 = i / 4 + 1 := by omega
      have hmod : (i + 1) % 4 = 0 := by omega
      have hidx : wrap32 (st.memory_index + 1) = ((i / 4 + 1 : Nat) : Int) := by
        rw [h2]; unfold wrap32; push_cast; omega
      have hnat : st.memory_index.toNat = i / 4 := by rw [h2]; omega
      have hword : wrap32 (st.cell + wrap32 ((b.val : Int) * 2 ^ (8 * st.byte_counter).toNat)) =
          wrap32 (group_sum program (i / 4) 4) := by rw [hcell, ht]
      rw [hword]
      have h0 : wrap32 (group_sum program (i / 4 + 1) 0) = 0 := by
        simp only [group_sum]; decide
      by_cases hg : size_t_wrap (to_size_t st.memory_index + s) ≥ st.memory_length
      · simp only [if_pos hg, hnat]
        have hP : (List.take (i / 4) st.p_memory ++
            List.replicate (st.memory_length + 1024 - i / 4) (0 : Int)).length =
            st.memory_length + 1024 := by
          simp only [List.length_append, List.length_take, List.length_replicate]
          omega
        have htake : (List.take (i / 4) st.p_memory).length = i / 4 := by
          simp only [List.length_take]; omega
        have hw : mem_write (List.take (i / 4) st.p_memory ++
            List.replicate (st.memory_length + 1024 - i / 4) (0 : Int)) st.memory_index
            (wrap32 (group_sum program (i / 4) 4)) =
            some ((List.take (i / 4) st.p_memory ++
              List.replicate (st.memory_length + 1024 - i / 4) (0 : Int)).set (i / 4)
              (wrap32 (group_sum program (i / 4) 4))) := by
          have hin : 0 ≤ st.memory_index ∧ st.memory_index <
              ((List.take (i / 4) st.p_memory ++
                List.replicate (st.memory_length + 1024 - i / 4) (0 : Int)).length : Int) := by
            rw [hP, h2]; omega
          simp only [mem_write, if_pos hin, hnat]
        rw [hw]
        refine ih (i + 1) _ hrest (by omega) ⟨?_, ?_, ?_, ?_, ?_, ?_, ?_⟩
        · rw [hmod]; rfl
        · rw [hdiv]; exact hidx
        · rw [hdiv, hmod, h0]
        · show (List.set _ _ _).length = st.memory_length + 1024
          rw [List.length_set, hP]
        · show (i + 1) / 4 ≤ st.memory_length + 1024
          omega
        · intro j hj
          show (List.set _ _ _)[j]? = _
          rw [List.getElem?_set]
          by_cases hjn : i / 4 = j
          · subst hjn
            rw [if_pos rfl, if_pos (by rw [hP]; omega)]
          · rw [if_neg hjn, List.getElem?_append_left (by rw [htake]; omega),
              List.getElem?_take_of_lt (by omega)]
            exact h6 j (by omega)
        · intro j hj hjl
          show (List.set _ _ _)[j]? = _
          have hjl' : j < st.memory_length + 1024 := hjl
          rw [List.getElem?_set, if_neg (by omega),
            List.getElem?_append_right (by rw [htake]; omega), htake,
            List.getElem?_replicate, if_pos (by omega)]
      · simp only [if_neg hg]
        have hn : i / 4 < st.memory_length := by
          unfold size_t_wrap to_size_t at hg
          rw [h2] at hg
          omega
        have hw : mem_write st.p_memory st.memory_index (wrap32 (group_sum program (i / 4) 4)) =
            some (st.p_memory.set (i / 4) (wrap32 (group_sum program (i / 4) 4))) := by
          have hin : 0 ≤ st.memory_index ∧ st.memory_index < (st.p_memory.length : Int) := by
            rw [h4, h2]; omega
          simp only [mem_write, if_pos hin, hnat]
        rw [hw]
        refine ih (i + 1) _ hrest (by omega) ⟨?_, ?_, ?_, ?_, ?_, ?_, ?_⟩
        · rw [hmod]; rfl
        · rw [hdiv]; exact hidx
        · rw [hdiv, hmod, h0]
        · show (List.set _ _ _).length = st.memory_length
          rw [List.length_set, h4]
        · show (i + 1) / 4 ≤ st.memory_length
          omega
        · intro j hj
          show (List.set _ _ _)[j]? = _
          rw [List.getElem?_set]
          by_cases hjn : i / 4 = j
          · subst hjn
            rw [if_pos rfl, if_pos (by rw [h4]; omega)]
          · rw [if_neg hjn]
            exact h6 j (by omega)
        · intro j hj hjl
          show (List.set _ _ _)[j]? = _
          have hjl' : j < st.memory_length := hjl
          rw [List.getElem?_set, if_neg (by omega)]
          exact h7 j (by omega) hjl'
    · rw [if_neg hbc]
      have ht : i % 4 < 3 := by rw [h1] at hbc; omega
      have hdiv : (i + 1) / 4 = i / 4 := by omega
      have hmod : (i + 1) % 4 = i % 4 + 1 := by omega
      refine ih (i + 1) _ hrest (by omega) ⟨?_, ?_, ?_, h4, ?_, ?_, ?_⟩
      · show st.byte_counter + 1 = _
        rw [hmod, h1]; push_cast; rfl
      · rw [hdiv]; exact h2
      · rw [hdiv, hmod]; exact hcell
      · rw [hdiv]; exact h5
      · rw [hdiv]; exact h6
      · rw [hdiv]; exact h7

theorem loader_inv_initial (program : List (Fin 256)) :
    loader_inv program 0
      { cell := 0, byte_counter := 0, memory_length := 1024, memory_index := 0,
        p_memory := List.replicate 1024 0 } := by
  unfold loader_inv
  simp only [Nat.zero_div, Nat.zero_mod, group_sum, List.length_replicate]
  refine ⟨rfl, rfl, by decide, trivial, by decide, ?_, ?_⟩
  · intro j hj
    exact absurd hj (Nat.not_lt_zero j)
  · intro j _ hj
    rw [List.getElem?_replicate, if_pos hj]

theorem group_sum_four (program : List (Fin 256)) (j : Nat) :
    group_sum program j 4 =
      byte_at program (4 * j) + byte_at program (4 * j + 1) * 2 ^ 8 +
        byte_at program (4 * j + 2) * 2 ^ 16 + byte_at program (4 * j + 3) * 2 ^ 24 := by
  simp [group_sum]

/-- C11: for a stack capacity below `2 ^ 63` and a stream of fewer than `2 ^ 33` bytes (so
that the `int32_t` word index and the `size_t` capacity test do not overflow), the loader
returns no buffer if and only if the number of bytes is not a multiple of 4; on success
word `j` of the buffer, for `j` below the number `k` of groups, is
`byte[4j] + byte[4j+1] * 2^8 + byte[4j+2] * 2^16 + byte[4j+3] * 2^24` read as a 32-bit
two's-complement value, and every word of the buffer from index `k` on is 0. -/
theorem loader_packing_and_rejection (program : List (Fin 256)) (s : Nat)
    (hs : s < 9223372036854775808) (hlen : program.length < 8589934592) :
    (cpu_create_memory program s = none ↔ program.length % 4 ≠ 0) ∧
    (∀ m bottom, cpu_create_memory program s = some (m, bottom) →
      (∀ j : Nat, j < program.length / 4 →
        mem_read m j = some (wrap32 (byte_at program (4 * j) +
          byte_at program (4 * j + 1) * 2 ^ 8 + byte_at program (4 * j + 2) * 2 ^ 16 +
          byte_at program (4 * j + 3) * 2 ^ 24))) ∧
      (∀ j : Nat, program.length / 4 ≤ j → j < m.length → mem_read m j = some 0)) := by
  obtain ⟨st, hst, h1, _, _, h4, _, h6, h7⟩ := loader_loop_packs program s hs hlen program 0 _
    (List.drop_zero _) (Nat.zero_le _) (loader_inv_initial program)
  have hbc : st.byte_counter = 0 ↔ program.length % 4 = 0 := by rw [h1]; omega
  constructor
  · simp only [cpu_create_memory, hst]
    by_cases h0 : st.byte_counter = 0
    · rw [if_pos h0]
      have := hbc.1 h0
      simp [this]
    · rw [if_neg h0]
      have : ¬ program.length % 4 = 0 := fun h => h0 (hbc.2 h)
      simp [this]
  · intro m bottom hm
    simp only [cpu_create_memory, hst] at hm
    split_ifs at hm
    simp only [Option.some.injEq, Prod.mk.injEq] at hm
    obtain ⟨rfl, rfl⟩ := hm
    constructor
    · intro j hj
      rw [mem_read_natCast, h6 j hj, group_sum_four]
    · intro j hj hjl
      rw [mem_read_natCast]
      exact h7 j hj (h4 ▸ hjl)

/-- Witness of C11: a stream of 6 bytes is rejected, and the 8 bytes
`09 00 00 00 ff ff ff ff` are loaded as the words 9 and -1 followed by zeros. -/
theorem loader_packing_and_rejection_witness :
    cpu_create_memory [1, 0, 0, 0, 2, 0] 2 = none ∧
    ∃ m bottom, cpu_create_memory [9, 0, 0, 0, 255, 255, 255, 255] 2 = some (m, bottom) ∧
      mem_read m 0 = some 9 ∧ mem_read m 1 = some (-1) ∧
      (2 < m.length → mem_read m 2 = some 0) := by
  refine ⟨(loader_packing_and_rejection [1, 0, 0, 0, 2, 0] 2 (by decide) (by decide)).1.2
    (by decide), ?_⟩
  have hne : cpu_create_memory [9, 0, 0, 0, 255, 255, 255, 255] 2 ≠ none := fun h =>
    (loader_packing_and_rejection [9, 0, 0, 0, 255, 255, 255, 255] 2 (by decide)
      (by decide)).1.1 h (by decide)
  obtain ⟨⟨m, bottom⟩, h⟩ := Option.ne_none_iff_exists.1 hne
  obtain ⟨hw, hz⟩ := (loader_packing_and_rejection [9, 0, 0, 0, 255, 255, 255, 255] 2
    (by decide) (by decide)).2 m bottom h.symm
  exact ⟨m, bottom, h.symm, (hw 0 (by decide)).trans (by decide),
    (hw 1 (by decide)).trans (by decide), fun hl => hz 2 (by decide) hl⟩

/-! ## `PUSH` on a full stack -/

/-- C12: with status `OK` and `stack_amount` equal to the capacity
`stack_start - stack_end + 1` of the stack (0 included), `PUSH r` with a valid register
reports not-executed and sets the status to `INVALID_STACK_OPERATION`; the stack size,
`stack_last_val`, the registers and the memory are unchanged (the program counter is left
on the operand word). -/
theorem push_full_stack (c : cpu) (r : Int)
    (hlen : c.memory_point.length ≤ 2147483647) (hst : c.status = CPU_OK)
    (hpc : 0 ≤ c.next_instr ∧ c.next_instr < c.stack_end)
    (hop : fetch c 0 = some 17) (h1 : fetch c 1 = some r) (hr : valid_register r)
    (hamt : int32 c.stack_amount)
    (hfull : c.stack_amount = c.stack_start - c.stack_end + 1) :
    ∃ c', cpu_step scanf_lld c = some (0, c') ∧
      c' = { c with status := CPU_INVALID_STACK_OPERATION, next_instr := c.next_instr + 1 } ∧
      cpu_get_stack_size c' = cpu_get_stack_size c ∧
      c'.stack_last_val = c.stack_last_val ∧ c'.memory_point = c.memory_point ∧
      (∀ reg, cpu_get_register c' reg = cpu_get_register c reg) := by
  have hnot : ¬ (c.next_instr < 0 ∨ c.next_instr ≥ c.stack_end) := by omega
  unfold fetch at hop h1
  simp only [add_zero] at hop
  have hb := mem_read_bounds h1
  have e1 : wrap32 (c.next_instr + 1) = c.next_instr + 1 := by unfold wrap32; omega
  have ecap : wrap32 (c.stack_start - c.stack_end + 1) = c.stack_amount := by
    rw [← hfull]; exact wrap32_of_int32 hamt
  have hr' : ¬ (r < 0 ∨ 3 < r) := by
    simp only [valid_register, REGISTER_A, REGISTER_D] at hr; omega
  refine ⟨_, ?_, rfl, rfl, rfl, rfl, fun reg => rfl⟩
  simp [cpu_step, push_reg, validate_register, hst, hnot, hop, e1, ecap, h1, hr']

/-- Witness of C12: a full stack of two words and a stack of capacity 0. -/
theorem push_full_stack_witness :
    cpu_step scanf_lld_ref full_stack_machine =
      some (0, { full_stack_machine with
        status := CPU_INVALID_STACK_OPERATION, next_instr := 1 }) ∧
    cpu_step scanf_lld_ref zero_capacity_machine =
      some (0, { zero_capacity_machine with
        status := CPU_INVALID_STACK_OPERATION, next_instr := 1 }) := by
  obtain ⟨c1, h1, e1, _⟩ := push_full_stack scanf_lld_ref full_stack_machine 0 (by decide)
    (by decide) (by decide) (by decide) (by decide) (by decide) (by decide) (by decide)
  obtain ⟨c2, h2, e2, _⟩ := push_full_stack scanf_lld_ref zero_capacity_machine 0 (by decide)
    (by decide) (by decide) (by decide) (by decide) (by decide) (by decide) (by decide)
  subst e1 e2
  exact ⟨h1, h2⟩

/-! ## `LOAD` and `STORE` on an empty stack -/

/-- C13: with status `OK` and an empty stack, `LOAD r off` and `STORE r off` with a valid
register report not-executed and set the status to `INVALID_STACK_OPERATION`, whatever
the offset word and register D hold; registers, memory and stack bookkeeping are
unchanged, and the program counter is either back on the opcode word or left on the
offset word. -/
theorem load_store_empty_stack (c : cpu) (op r off : Int)
    (hlen : c.memory_point.length ≤ 2147483647) (hst : c.status = CPU_OK)
    (hpc : 0 ≤ c.next_instr ∧ c.next_instr < c.stack_end)
    (hop : fetch c 0 = some op) (hop' : op = 10 ∨ op = 11)
    (h1 : fetch c 1 = some r) (hr : valid_register r) (h2 : fetch c 2 = some off)
    (hempty : c.stack_amount = 0) :
    ∃ pc, (pc = c.next_instr ∨ pc = c.next_instr + 2) ∧
      cpu_step scanf_lld c =
        some (0, { c with status := CPU_INVALID_STACK_OPERATION, next_instr := pc }) := by
  have hnot : ¬ (c.next_instr < 0 ∨ c.next_instr ≥ c.stack_end) := by omega
  unfold fetch at hop h1 h2
  simp only [add_zero] at hop
  have hb := mem_read_bounds h2
  have e0 : wrap32 c.next_instr = c.next_instr := by unfold wrap32; omega
  have e1 : wrap32 (c.next_instr + 1) = c.next_instr + 1 := by unfold wrap32; omega
  have e2 : wrap32 (c.next_instr + 1 + 1) = c.next_instr + 2 := by unfold wrap32; omega
  have hr' : ¬ (r < 0 ∨ 3 < r) := by
    simp only [valid_register, REGISTER_A, REGISTER_D] at hr; omega
  by_cases hgt : c.stack_first_index < wrap32 (wrap32 (c.stack_last_val + c.reg_d) + off)
  · refine ⟨c.next_instr, Or.inl rfl, ?_⟩
    rcases hop' with rfl | rfl <;>
      simp [cpu_step, load_reg, store_reg, validate_register, cpu_get_register, hst, hnot,
        hop, e0, e1, e2, h1, h2, hr', hgt]
  · by_cases hlt : wrap32 (wrap32 (c.stack_last_val + c.reg_d) + off) < c.stack_last_val
    · refine ⟨c.next_instr, Or.inl rfl, ?_⟩
      rcases hop' with rfl | rfl <;>
        simp [cpu_step, load_reg, store_reg, validate_register, cpu_get_register, hst, hnot,
          hop, e0, e1, e2, h1, h2, hr', hgt, hlt]
    · refine ⟨c.next_instr + 2, Or.inr rfl, ?_⟩
      rcases hop' with rfl | rfl <;>
        simp [cpu_step, load_reg, store_reg, validate_register, cpu_get_register, hst, hnot,
          hop, e0, e1, e2, h1, h2, hr', hgt, hlt, hempty]

/-- Witness of C13: `LOAD A 0` on an empty stack with D = 0 and with D = 5. -/
theorem load_store_empty_stack_witness :
    (∃ pc, (pc = 0 ∨ pc = 0 + 2) ∧ cpu_step scanf_lld_ref empty_load_machine =
      some (0, { empty_load_machine with
        status := CPU_INVALID_STACK_OPERATION, next_instr := pc })) ∧
    (∃ pc, (pc = 0 ∨ pc = 0 + 2) ∧ cpu_step scanf_lld_ref empty_load_d_machine =
      some (0, { empty_load_d_machine with
        status := CPU_INVALID_STACK_OPERATION, next_instr := pc })) :=
  ⟨load_store_empty_stack scanf_lld_ref empty_load_machine 10 0 0 (by decide) (by decide)
      (by decide) (by decide) (by decide) (by decide) (by decide) (by decide) (by decide),
   load_store_empty_stack scanf_lld_ref empty_load_d_machine 10 0 0 (by decide) (by decide)
      (by decide) (by decide) (by decide) (by decide) (by decide) (by decide) (by decide)⟩

/-! ## `LOOP` -/

/-- C14: with status `OK`, `LOOP addr` at the program counter `p` reports executed and
changes nothing but the program counter, which becomes `p + 2` when register C holds 0 and
the word `addr` itself, unchecked, when C holds anything else. -/
theorem loop_semantics (c : cpu) (addr : Int)
    (hlen : c.memory_point.length ≤ 2147483647) (hst : c.status = CPU_OK)
    (hpc : 0 ≤ c.next_instr ∧ c.next_instr < c.stack_end)
    (hop : fetch c 0 = some 8) (h1 : fetch c 1 = some addr) :
    (c.reg_c = 0 →
      cpu_step scanf_lld c = some (1, { c with next_instr := c.next_instr + 2 })) ∧
    (c.reg_c ≠ 0 → cpu_step scanf_lld c = some (1, { c with next_instr := addr })) := by
  have hnot : ¬ (c.next_instr < 0 ∨ c.next_instr ≥ c.stack_end) := by omega
  unfold fetch at hop h1
  simp only [add_zero] at hop
  have hb := mem_read_bounds h1
  have e1 : wrap32 (c.next_instr + 1) = c.next_instr + 1 := by unfold wrap32; omega
  have e2 : wrap32 (c.next_instr + 1 + 1) = c.next_instr + 2 := by unfold wrap32; omega
  constructor
  · intro hc
    simp [cpu_step, loop_ind, cpu_get_register, hst, hnot, hop, e1, e2, h1, hc]
  · intro hc
    simp [cpu_step, loop_ind, cpu_get_register, hst, hnot, hop, e1, e2, h1, hc]

/-- Witness of C14: `LOOP 7` with C = 0 and with C = 3. -/
theorem loop_semantics_witness :
    cpu_step scanf_lld_ref loop_zero_machine =
      some (1, { loop_zero_machine with next_instr := 0 + 2 }) ∧
    cpu_step scanf_lld_ref loop_taken_machine =
      some (1, { loop_taken_machine with next_instr := 7 }) :=
  ⟨(loop_semantics scanf_lld_ref loop_zero_machine 7 (by decide) (by decide) (by decide)
      (by decide) (by decide)).1 (by decide),
   (loop_semantics scanf_lld_ref loop_taken_machine 7 (by decide) (by decide) (by decide)
      (by decide) (by decide)).2 (by decide)⟩

/-! ## Wrapping arithmetic -/

theorem wrap32_congruent (x : Int) :
    int32 (wrap32 x) ∧ (wrap32 x - x) % 4294967296 = 0 := by
  unfold int32 wrap32; omega

/-- C15: with status `OK` and a valid register `r` (A included), `ADD r`, `SUB r` and
`MUL r` set A to `A + r`, `A - r` and `A * r`, and `INC r`, `DEC r` set `r` to `r + 1` and
`r - 1`, each reduced modulo `2 ^ 32` into the range of `int32_t`; the step reports
executed, the status stays `OK`, the program counter advances by 2 and nothing else
changes.  `MOV A 2147483647; INC A` leaves -2147483648 in A. -/
theorem arithmetic_wraps (c : cpu) (r : Int)
    (hlen : c.memory_point.length ≤ 2147483647) (hst : c.status = CPU_OK)
    (hpc : 0 ≤ c.next_instr ∧ c.next_instr < c.stack_end)
    (h1 : fetch c 1 = some r) (hr : valid_register r) :
    (fetch c 0 = some 2 → cpu_step scanf_lld c = some (1, { c with
      reg_a := wrap32 (c.reg_a + cpu_get_register c r), next_instr := c.next_instr + 2 })) ∧
    (fetch c 0 = some 3 → cpu_step scanf_lld c = some (1, { c with
      reg_a := wrap32 (c.reg_a - cpu_get_register c r), next_instr := c.next_instr + 2 })) ∧
    (fetch c 0 = some 4 → cpu_step scanf_lld c = some (1, { c with
      reg_a := wrap32 (c.reg_a * cpu_get_register c r), next_instr := c.next_instr + 2 })) ∧
    (fetch c 0 = some 6 → cpu_step scanf_lld c =
      some (1, { cpu_set_register c r (wrap32 (cpu_get_register c r + 1)) with
        next_instr := c.next_instr + 2 })) ∧
    (fetch c 0 = some 7 → cpu_step scanf_lld c =
      some (1, { cpu_set_register c r (wrap32 (cpu_get_register c r - 1)) with
        next_instr := c.next_instr + 2 })) ∧
    (∀ x : Int, int32 (wrap32 x) ∧ (wrap32 x - x) % 4294967296 = 0) ∧
    (fetch c 0 = some 9 → r = REGISTER_A → fetch c 2 = some 2147483647 →
      fetch c 3 = some 6 → fetch c 4 = some REGISTER_A → c.next_instr + 3 < c.stack_end →
      ∃ c1 c2, cpu_step scanf_lld c = some (1, c1) ∧ cpu_step scanf_lld c1 = some (1, c2) ∧
        c1.reg_a = 2147483647 ∧ c2.reg_a = -2147483648 ∧ c2.status = CPU_OK ∧
        c2.next_instr = c.next_instr + 5) := by
  have hnot : ¬ (c.next_instr < 0 ∨ c.next_instr ≥ c.stack_end) := by omega
  unfold fetch at h1
  have hb := mem_read_bounds h1
  have e1 : wrap32 (c.next_instr + 1) = c.next_instr + 1 := by unfold wrap32; omega
  have e2 : wrap32 (c.next_instr + 1 + 1) = c.next_instr + 2 := by unfold wrap32; omega
  have hr' : ¬ (r < 0 ∨ 3 < r) := by
    simp only [valid_register, REGISTER_A, REGISTER_D] at hr; omega
  refine ⟨?_, ?_, ?_, ?_, ?_, wrap32_congruent, ?_⟩
  · intro hop
    simp only [fetch, add_zero] at hop
    simp [cpu_step, add_reg, validate_register, cpu_get_register, hst, hnot, hop, e1, e2, h1,
      hr']
  · intro hop
    simp only [fetch, add_zero] at hop
    simp [cpu_step, sub_reg, validate_register, cpu_get_register, hst, hnot, hop, e1, e2, h1,
      hr']
  · intro hop
    simp only [fetch, add_zero] at hop
    simp [cpu_step, mul_reg, validate_register, cpu_get_register, hst, hnot, hop, e1, e2, h1,
      hr']
  · intro hop
    simp only [fetch, add_zero] at hop
    rcases valid_register_cases hr with rfl | rfl | rfl | rfl <;>
      simp [cpu_step, inc_reg, validate_register, cpu_get_register, cpu_set_register, hst,
        hnot, hop, e1, e2, h1]
  · intro hop
    simp only [fetch, add_zero] at hop
    rcases valid_register_cases hr with rfl | rfl | rfl | rfl <;>
      simp [cpu_step, dec_reg, validate_register, cpu_get_register, cpu_set_register, hst,
        hnot, hop, e1, e2, h1]
  · intro hop hra h2 h3 h4 hcode
    simp only [REGISTER_A] at hra h4
    subst hra
    simp only [fetch, add_zero] at hop
    unfold fetch at h2 h3 h4
    have hb4 := mem_read_bounds h4
    have e3 : wrap32 (c.next_instr + 2 + 1) = c.next_instr + 3 := by unfold wrap32; omega
    have e4 : wrap32 (c.next_instr + 3 + 1) = c.next_instr + 4 := by unfold wrap32; omega
    have e5 : wrap32 (c.next_instr + 4 + 1) = c.next_instr + 5 := by unfold wrap32; omega
    have hnot3 : ¬ (c.next_instr + 3 < 0 ∨ c.next_instr + 3 ≥ c.stack_end) := by omega
    have hmax : wrap32 2147483648 = -2147483648 := by decide
    refine ⟨{ c with reg_a := 2147483647, next_instr := c.next_instr + 3 },
      { c with reg_a := -2147483648, next_instr := c.next_instr + 5 }, ?_, ?_, rfl, rfl, hst,
      rfl⟩
    · simp [cpu_step, movr, validate_register, cpu_set_register, hst, hnot, hop, e1, e2, e3,
        h1, h2]
    · simp [cpu_step, inc_reg, validate_register, cpu_get_register, cpu_set_register, hst,
        hnot3, h3, h4, e4, e5, hmax]

/-- Witness of C15: `MUL B` with A = B = 65536, `DEC D` with D the least `int32_t`, and the
program `MOV A 2147483647; INC A`. -/
theorem arithmetic_wraps_witness :
    cpu_step scanf_lld_ref mul_machine =
      some (1, { mul_machine with reg_a := 0, next_instr := 2 }) ∧
    cpu_step scanf_lld_ref dec_machine =
      some (1, { dec_machine with reg_d := 2147483647, next_instr := 2 }) ∧
    ∃ c1 c2, cpu_step scanf_lld_ref mov_inc_machine = some (1, c1) ∧
      cpu_step scanf_lld_ref c1 = some (1, c2) ∧ c1.reg_a = 2147483647 ∧
      c2.reg_a = -2147483648 ∧ c2.status = CPU_OK ∧ c2.next_instr = 0 + 5 :=
  ⟨(arithmetic_wraps scanf_lld_ref mul_machine 1 (by decide) (by decide) (by decide)
      (by decide) (by decide)).2.2.1 (by decide),
   (arithmetic_wraps scanf_lld_ref dec_machine 3 (by decide) (by decide) (by decide)
      (by decide) (by decide)).2.2.2.2.1 (by decide),
   (arithmetic_wraps scanf_lld_ref mov_inc_machine 0 (by decide) (by decide) (by decide)
      (by decide) (by decide)).2.2.2.2.2.2 (by decide) (by decide) (by decide) (by decide)
      (by decide) (by decide)⟩

/-! ## What a step does to the buffer and to the bounds of the stack window -/

@[simp] theorem cpu_set_register_next_instr (c : cpu) (r v : Int) :
    (cpu_set_register c r v).next_instr = c.next_instr := by
  unfold cpu_set_register; split_ifs <;> rfl

@[simp] theorem cpu_set_register_memory_point (c : cpu) (r v : Int) :
    (cpu_set_register c r v).memory_point = c.memory_point := by
  unfold cpu_set_register; split_ifs <;> rfl

@[simp] theorem cpu_set_register_stack_start (c : cpu) (r v : Int) :
    (cpu_set_register c r v).stack_start = c.stack_start := by
  unfold cpu_set_register; split_ifs <;> rfl

@[simp] theorem cpu_set_register_stack_end (c : cpu) (r v : Int) :
    (cpu_set_register c r v).stack_end = c.stack_end := by
  unfold cpu_set_register; split_ifs <;> rfl

@[simp] theorem cpu_set_register_stack_amount (c : cpu) (r v : Int) :
    (cpu_set_register c r v).stack_amount = c.stack_amount := by
  unfold cpu_set_register; split_ifs <;> rfl

@[simp] theorem cpu_set_register_stack_last_val (c : cpu) (r v : Int) :
    (cpu_set_register c r v).stack_last_val = c.stack_last_val := by
  unfold cpu_set_register; split_ifs <;> rfl

@[simp] theorem cpu_set_register_stack_first_index (c : cpu) (r v : Int) :
    (cpu_set_register c r v).stack_first_index = c.stack_first_index := by
  unfold cpu_set_register; split_ifs <;> rfl

@[simp] theorem cpu_set_register_status (c : cpu) (r v : Int) :
    (cpu_set_register c r v).status = c.status := by
  unfold cpu_set_register; split_ifs <;> rfl

@[simp] theorem cpu_set_register_stdin (c : cpu) (r v : Int) :
    (cpu_set_register c r v).stdin = c.stdin := by
  unfold cpu_set_register; split_ifs <;> rfl

@[simp] theorem cpu_set_register_stdout (c : cpu) (r v : Int) :
    (cpu_set_register c r v).stdout = c.stdout := by
  unfold cpu_set_register; split_ifs <;> rfl

theorem add_reg_same_stack {c c' : cpu} {e : Int}
    (hs : add_reg c = some (e, c')) : same_stack c c' := by
  simp only [add_reg] at hs
  split at hs
  · cases hs
  · rename_i reg hreg
    by_cases hv : reg < 0 ∨ reg > 3
    · simp [validate_register, hv] at hs
      obtain ⟨rfl, rfl⟩ := hs
      simp [same_stack]
    · simp [validate_register, hv] at hs
      obtain ⟨rfl, rfl⟩ := hs
      simp [same_stack]

theorem sub_reg_same_stack {c c' : cpu} {e : Int}
    (hs : sub_reg c = some (e, c')) : same_stack c c' := by
  simp only [sub_reg] at hs
  split at hs
  · cases hs
  · rename_i reg hreg
    by_cases hv : reg < 0 ∨ reg > 3
    · simp [validate_register, hv] at hs
      obtain ⟨rfl, rfl⟩ := hs
      simp [same_stack]
    · simp [validate_register, hv] at hs
      obtain ⟨rfl, rfl⟩ := hs
      simp [same_stack]

theorem mul_reg_same_stack {c c' : cpu} {e : Int}
    (hs : mul_reg c = some (e, c')) : same_stack c c' := by
  simp only [mul_reg] at hs
  split at hs
  · cases hs
  · rename_i reg hreg
    by_cases hv : reg < 0 ∨ reg > 3
    · simp [validate_register, hv] at hs
      obtain ⟨rfl, rfl⟩ := hs
      simp [same_stack]
    · simp [validate_register, hv] at hs
      obtain ⟨rfl, rfl⟩ := hs
      simp [same_stack]

theorem inc_reg_same_stack {c c' : cpu} {e : Int}
    (hs : inc_reg c = some (e, c')) : same_stack c c' := by
  simp only [inc_reg] at hs
  split at hs
  · cases hs
  · rename_i reg hreg
    by_cases hv : reg < 0 ∨ reg > 3
    · simp [validate_register, hv] at hs
      obtain ⟨rfl, rfl⟩ := hs
      simp [same_stack]
    · simp [validate_register, hv] at hs
      obtain ⟨rfl, rfl⟩ := hs
      simp [same_stack]

theorem dec_reg_same_stack {c c' : cpu} {e : Int}
    (hs : dec_reg c = some (e, c')) : same_stack c c' := by
  simp only [dec_reg] at hs
  split at hs
  · cases hs
  · rename_i reg hreg
    by_cases hv : reg < 0 ∨ reg > 3
    · simp [validate_register, hv] at hs
      obtain ⟨rfl, rfl⟩ := hs
      simp [same_stack]
    · simp [validate_register, hv] at hs
      obtain ⟨rfl, rfl⟩ := hs
      simp [same_stack]

theorem out_reg_same_stack {c c' : cpu} {e : Int}
    (hs : out_reg c = some (e, c')) : same_stack c c' := by
  simp only [out_reg] at hs
  split at hs
  · cases hs
  · rename_i reg hreg
    by_cases hv : reg < 0 ∨ reg > 3
    · simp [validate_register, hv] at hs
      obtain ⟨rfl, rfl⟩ := hs
      simp [same_stack]
    · simp [validate_register, hv] at hs
      obtain ⟨rfl, rfl⟩ := hs
      simp [same_stack]

theorem div_reg_same_stack {c c' : cpu} {e : Int}
    (hs : div_reg c = some (e, c')) : same_stack c c' := by
  simp only [div_reg] at hs
  split at hs
  · cases hs
  · rename_i reg hreg
    by_cases hv : reg < 0 ∨ reg > 3
    · simp [validate_register, hv] at hs
      obtain ⟨rfl, rfl⟩ := hs
      simp [same_stack]
    · simp [validate_register, hv] at hs
      split_ifs at hs <;> simp only [Option.some.injEq, Prod.mk.injEq] at hs <;>
        obtain ⟨rfl, rfl⟩ := hs <;> simp [same_stack]

theorem put_reg_same_stack {c c' : cpu} {e : Int}
    (hs : put_reg c = some (e, c')) : same_stack c c' := by
  simp only [put_reg] at hs
  split at hs
  · cases hs
  · rename_i reg hreg
    by_cases hv : reg < 0 ∨ reg > 3
    · simp [validate_register, hv] at hs
      obtain ⟨rfl, rfl⟩ := hs
      simp [same_stack]
    · simp [validate_register, hv] at hs
      split_ifs at hs <;> simp only [Option.some.injEq, Prod.mk.injEq] at hs <;>
        obtain ⟨rfl, rfl⟩ := hs <;> simp [same_stack]

theorem loop_ind_same_stack {c c' : cpu} {e : Int}
    (hs : loop_ind c = some (e, c')) : same_stack c c' := by
  simp only [loop_ind] at hs
  split at hs
  · cases hs
  · split_ifs at hs <;> simp only [Option.some.injEq, Prod.mk.injEq] at hs <;>
      obtain ⟨rfl, rfl⟩ := hs <;> simp [same_stack]

theorem movr_same_stack {c c' : cpu} {e : Int}
    (hs : movr c = some (e, c')) : same_stack c c' := by
  simp only [movr] at hs
  split at hs
  · cases hs
  · rename_i reg hreg
    by_cases hv : reg < 0 ∨ reg > 3
    · simp [validate_register, hv] at hs
      obtain ⟨rfl, rfl⟩ := hs
      simp [same_stack]
    · simp [validate_register, hv] at hs
      split at hs
      · cases hs
      · simp only [Option.some.injEq, Prod.mk.injEq] at hs
        obtain ⟨rfl, rfl⟩ := hs
        simp [same_stack]

theorem load_reg_same_stack {c c' : cpu} {e : Int}
    (hs : load_reg c = some (e, c')) : same_stack c c' := by
  simp only [load_reg] at hs
  split at hs
  · cases hs
  · rename_i reg hreg
    by_cases hv : reg < 0 ∨ reg > 3
    · simp [validate_register, hv] at hs
      obtain ⟨rfl, rfl⟩ := hs
      simp [same_stack]
    · simp [validate_register, hv] at hs
      split at hs
      · cases hs
      · split_ifs at hs
        · simp only [Option.some.injEq, Prod.mk.injEq] at hs
          obtain ⟨rfl, rfl⟩ := hs
          simp [same_stack]
        · simp only [Option.some.injEq, Prod.mk.injEq] at hs
          obtain ⟨rfl, rfl⟩ := hs
          simp [same_stack]
        · simp only [Option.some.injEq, Prod.mk.injEq] at hs
          obtain ⟨rfl, rfl⟩ := hs
          simp [same_stack]
        · split at hs
          · cases hs
          · simp only [Option.some.injEq, Prod.mk.injEq] at hs
            obtain ⟨rfl, rfl⟩ := hs
            simp [same_stack]

theorem in_reg_same_stack {c c' : cpu} {e : Int}
    (hs : in_reg scanf_lld c = some (e, c')) : same_stack c c' := by
  simp only [in_reg] at hs
  split at hs
  · cases hs
  · rename_i reg hreg
    by_cases hv : reg < 0 ∨ reg > 3
    · simp [validate_register, hv] at hs
      obtain ⟨rfl, rfl⟩ := hs
      simp [same_stack]
    · simp only [validate_register, REGISTER_A, REGISTER_D, if_neg hv, one_ne_zero,
        if_false] at hs
      split_ifs at hs <;> simp only [Option.some.injEq, Prod.mk.injEq] at hs <;>
        obtain ⟨rfl, rfl⟩ := hs <;> simp [same_stack]

theorem get_reg_same_stack {c c' : cpu} {e : Int}
    (hs : get_reg c = some (e, c')) : same_stack c c' := by
  simp only [get_reg] at hs
  split at hs
  · cases hs
  · rename_i reg hreg
    by_cases hv : reg < 0 ∨ reg > 3
    · simp [validate_register, hv] at hs
      obtain ⟨rfl, rfl⟩ := hs
      simp [same_stack]
    · simp only [validate_register, REGISTER_A, REGISTER_D, if_neg hv, one_ne_zero,
        if_false] at hs
      split at hs <;> simp only [Option.some.injEq, Prod.mk.injEq] at hs <;>
        obtain ⟨rfl, rfl⟩ := hs <;> simp [same_stack]

theorem swap_reg_same_stack {c c' : cpu} {e : Int}
    (hs : swap_reg c = some (e, c')) : same_stack c c' := by
  simp only [swap_reg] at hs
  split at hs
  · cases hs
  · rename_i reg hreg
    by_cases hv : reg < 0 ∨ reg > 3
    · simp [validate_register, hv] at hs
      obtain ⟨rfl, rfl⟩ := hs
      simp [same_stack]
    · simp only [validate_register, REGISTER_A, REGISTER_D, if_neg hv, one_ne_zero,
        if_false] at hs
      split at hs
      · cases hs
      · rename_i reg_two hreg_two
        by_cases hv2 : reg_two < 0 ∨ reg_two > 3
        · simp only [if_pos hv2, if_true] at hs
          simp only [Option.some.injEq, Prod.mk.injEq] at hs
          obtain ⟨rfl, rfl⟩ := hs
          simp [same_stack]
        · simp only [if_neg hv2, one_ne_zero, if_false] at hs
          simp only [Option.some.injEq, Prod.mk.injEq] at hs
          obtain ⟨rfl, rfl⟩ := hs
          simp [same_stack]

theorem step_effect_of_same_stack {c c' : cpu} (h : same_stack c c') : step_effect c c' :=
  ⟨h.2.1, h.2.2.1, h.2.2.2.2.2, Or.inl h.1⟩

theorem store_reg_effect {c c' : cpu} {e : Int} (h : stack_invariant c)
    (hs : store_reg c = some (e, c')) : step_effect c c' := by
  obtain ⟨⟨_, hpc32, h3, h4, h5, h6, h7⟩, h8, h9, h10, h11, h12, h13⟩ := h
  simp only [store_reg] at hs
  split at hs
  · cases hs
  · rename_i reg hreg
    by_cases hv : reg < 0 ∨ reg > 3
    · simp [validate_register, hv] at hs
      obtain ⟨rfl, rfl⟩ := hs
      exact ⟨rfl, rfl, rfl, Or.inl rfl⟩
    · simp [validate_register, hv] at hs
      split at hs
      · cases hs
      · split_ifs at hs with g1 g2 g3
        · simp only [Option.some.injEq, Prod.mk.injEq] at hs
          obtain ⟨rfl, rfl⟩ := hs
          exact ⟨rfl, rfl, rfl, Or.inl rfl⟩
        · simp only [Option.some.injEq, Prod.mk.injEq] at hs
          obtain ⟨rfl, rfl⟩ := hs
          exact ⟨rfl, rfl, rfl, Or.inl rfl⟩
        · simp only [Option.some.injEq, Prod.mk.injEq] at hs
          obtain ⟨rfl, rfl⟩ := hs
          exact ⟨rfl, rfl, rfl, Or.inl rfl⟩
        · split at hs
          · cases hs
          · rename_i m hm
            simp only [Option.some.injEq, Prod.mk.injEq] at hs
            obtain ⟨rfl, rfl⟩ := hs
            refine ⟨rfl, rfl, rfl, Or.inr ⟨_, _, ?_, ?_, hm⟩⟩
            · omega
            · omega

theorem push_reg_effect {c c' : cpu} {e : Int} (h : stack_invariant c)
    (hs : push_reg c = some (e, c')) : step_effect c c' := by
  obtain ⟨⟨_, hpc32, h3, h4, h5, h6, h7⟩, h8, h9, h10, h11, h12, h13⟩ := h
  unfold int32 at h3 h4 h5
  simp only [push_reg] at hs
  split at hs
  · cases hs
  · rename_i reg hreg
    by_cases hv : reg < 0 ∨ reg > 3
    · simp [validate_register, hv] at hs
      obtain ⟨rfl, rfl⟩ := hs
      exact ⟨rfl, rfl, rfl, Or.inl rfl⟩
    · simp only [validate_register, REGISTER_A, REGISTER_D, if_neg hv, one_ne_zero,
        if_false] at hs
      split_ifs at hs with hfull hamt
      · simp only [Option.some.injEq, Prod.mk.injEq] at hs
        obtain ⟨rfl, rfl⟩ := hs
        exact ⟨rfl, rfl, rfl, Or.inl rfl⟩
      · split at hs
        · cases hs
        · rename_i m hm
          simp only [Option.some.injEq, Prod.mk.injEq] at hs
          obtain ⟨rfl, rfl⟩ := hs
          simp only [ne_eq] at hfull hamt
          refine ⟨rfl, rfl, rfl, Or.inr ⟨_, _, ?_, ?_, hm⟩⟩
          · simp only []; unfold wrap32 at hfull ⊢; omega
          · simp only []; unfold wrap32 at hfull ⊢; omega
      · split at hs
        · cases hs
        · rename_i m hm
          simp only [Option.some.injEq, Prod.mk.injEq] at hs
          obtain ⟨rfl, rfl⟩ := hs
          simp only [ne_eq, not_not] at hfull hamt
          refine ⟨rfl, rfl, rfl, Or.inr ⟨_, _, ?_, ?_, hm⟩⟩
          · simp only []; unfold wrap32 at hfull; omega
          · simp only []; omega

theorem pop_reg_effect {c c' : cpu} {e : Int} (h : stack_invariant c)
    (hs : pop_reg c = some (e, c')) : step_effect c c' := by
  obtain ⟨⟨_, hpc32, h3, h4, h5, h6, h7⟩, h8, h9, h10, h11, h12, h13⟩ := h
  unfold int32 at h3 h4 h5
  simp only [pop_reg] at hs
  split at hs
  · cases hs
  · rename_i reg hreg
    by_cases hv : reg < 0 ∨ reg > 3
    · simp [validate_register, hv] at hs
      obtain ⟨rfl, rfl⟩ := hs
      exact ⟨rfl, rfl, rfl, Or.inl rfl⟩
    · simp only [validate_register, REGISTER_A, REGISTER_D, if_neg hv, one_ne_zero,
        if_false] at hs
      split_ifs at hs with hempty
      · simp only [Option.some.injEq, Prod.mk.injEq] at hs
        obtain ⟨rfl, rfl⟩ := hs
        exact ⟨rfl, rfl, rfl, Or.inl rfl⟩
      · split at hs
        · cases hs
        · simp only [cpu_set_register_memory_point, cpu_set_register_stack_last_val,
            cpu_set_register_stack_amount, cpu_set_register_stack_start,
            cpu_set_register_stack_end, cpu_set_register_stack_first_index,
            cpu_set_register_next_instr, cpu_set_register_status, cpu_set_register_stdin,
            cpu_set_register_stdout] at hs
          split at hs
          · cases hs
          · rename_i m hm
            split_ifs at hs with hamt <;> simp only [Option.some.injEq, Prod.mk.injEq] at hs <;>
              obtain ⟨rfl, rfl⟩ := hs
            · refine ⟨rfl, rfl, rfl, Or.inr ⟨_, _, ?_, ?_, hm⟩⟩
              · omega
              · omega
            · refine ⟨rfl, rfl, rfl, Or.inr ⟨_, _, ?_, ?_, hm⟩⟩
              · omega
              · omega

/-- A step keeps the bounds of the stack window; it leaves the buffer as it is unless the
instruction is `STORE`, `PUSH` or `POP`, which write at most one word, inside the window. -/
theorem cpu_step_effect {c c' : cpu} {e : Int} (h : stack_invariant c)
    (hs : cpu_step scanf_lld c = some (e, c')) :
    step_effect c c' ∧ (c'.memory_point = c.memory_point ∨
      fetch c 0 = some 11 ∨ fetch c 0 = some 17 ∨ fetch c 0 = some 18) := by
  unfold cpu_step at hs
  by_cases h1 : c.status ≠ CPU_OK
  · rw [if_pos h1] at hs
    by_cases h2 : c.status < CPU_OK ∨ c.status > CPU_IO_ERROR
    · rw [if_pos h2] at hs
      simp only [Option.some.injEq, Prod.mk.injEq] at hs
      obtain ⟨rfl, rfl⟩ := hs
      exact ⟨⟨rfl, rfl, rfl, Or.inl rfl⟩, Or.inl rfl⟩
    · rw [if_neg h2] at hs
      simp only [Option.some.injEq, Prod.mk.injEq] at hs
      obtain ⟨rfl, rfl⟩ := hs
      exact ⟨⟨rfl, rfl, rfl, Or.inl rfl⟩, Or.inl rfl⟩
  rw [if_neg h1] at hs
  by_cases h2 : c.next_instr < 0 ∨ c.next_instr ≥ c.stack_end
  · rw [if_pos h2] at hs
    simp only [Option.some.injEq, Prod.mk.injEq] at hs
    obtain ⟨rfl, rfl⟩ := hs
    exact ⟨⟨rfl, rfl, rfl, Or.inl rfl⟩, Or.inl rfl⟩
  rw [if_neg h2] at hs
  cases hop : mem_read c.memory_point c.next_instr with
  | none => rw [hop] at hs; cases hs
  | some opcode =>
  have hfetch : fetch c 0 = some opcode := by simp only [fetch, add_zero]; exact hop
  rw [hop] at hs
  dsimp only at hs
  by_cases h3 : opcode < 0 ∨ opcode > 18
  · rw [if_pos h3] at hs
    simp only [Option.some.injEq, Prod.mk.injEq] at hs
    obtain ⟨rfl, rfl⟩ := hs
    exact ⟨⟨rfl, rfl, rfl, Or.inl rfl⟩, Or.inl rfl⟩
  rw [if_neg h3] at hs
  by_cases h4 : opcode = 0
  · rw [if_pos h4] at hs
    simp only [Option.some.injEq, Prod.mk.injEq] at hs
    obtain ⟨rfl, rfl⟩ := hs
    exact ⟨⟨rfl, rfl, rfl, Or.inl rfl⟩, Or.inl rfl⟩
  rw [if_neg h4] at hs
  by_cases h5 : opcode = 1
  · rw [if_pos h5] at hs
    simp only [Option.some.injEq, Prod.mk.injEq] at hs
    obtain ⟨rfl, rfl⟩ := hs
    exact ⟨⟨rfl, rfl, rfl, Or.inl rfl⟩, Or.inl rfl⟩
  rw [if_neg h5] at hs
  by_cases k2 : opcode = 2
  · rw [if_pos k2] at hs
    have hsame := add_reg_same_stack hs
    exact ⟨step_effect_of_same_stack hsame, Or.inl hsame.1⟩
  rw [if_neg k2] at hs
  by_cases k3 : opcode = 3
  · rw [if_pos k3] at hs
    have hsame := sub_reg_same_stack hs
    exact ⟨step_effect_of_same_stack hsame, Or.inl hsame.1⟩
  rw [if_neg k3] at hs
  by_cases k4 : opcode = 4
  · rw [if_pos k4] at hs
    have hsame := mul_reg_same_stack hs
    exact ⟨step_effect_of_same_stack hsame, Or.inl hsame.1⟩
  rw [if_neg k4] at hs
  by_cases k5 : opcode = 5
  · rw [if_pos k5] at hs
    have hsame := div_reg_same_stack hs
    exact ⟨step_effect_of_same_stack hsame, Or.inl hsame.1⟩
  rw [if_neg k5] at hs
  by_cases k6 : opcode = 6
  · rw [if_pos k6] at hs
    have hsame := inc_reg_same_stack hs
    exact ⟨step_effect_of_same_stack hsame, Or.inl hsame.1⟩
  rw [if_neg k6] at hs
  by_cases k7 : opcode = 7
  · rw [if_pos k7] at hs
    have hsame := dec_reg_same_stack hs
    exact ⟨step_effect_of_same_stack hsame, Or.inl hsame.1⟩
  rw [if_neg k7] at hs
  by_cases k8 : opcode = 8
  · rw [if_pos k8] at hs
    have hsame := loop_ind_same_stack hs
    exact ⟨step_effect_of_same_stack hsame, Or.inl hsame.1⟩
  rw [if_neg k8] at hs
  by_cases k9 : opcode = 9
  · rw [if_pos k9] at hs
    have hsame := movr_same_stack hs
    exact ⟨step_effect_of_same_stack hsame, Or.inl hsame.1⟩
  rw [if_neg k9] at hs
  by_cases k10 : opcode = 10
  · rw [if_pos k10] at hs
    have hsame := load_reg_same_stack hs
    exact ⟨step_effect_of_same_stack hsame, Or.inl hsame.1⟩
  rw [if_neg k10] at hs
  by_cases k11 : opcode = 11
  · rw [if_pos k11] at hs
    exact ⟨store_reg_effect h hs, Or.inr (Or.inl (k11 ▸ hfetch))⟩
  rw [if_neg k11] at hs
  by_cases k12 : opcode = 12
  · rw [if_pos k12] at hs
    have hsame := in_reg_same_stack scanf_lld hs
    exact ⟨step_effect_of_same_stack hsame, Or.inl hsame.1⟩
  rw [if_neg k12] at hs
  by_cases k13 : opcode = 13
  · rw [if_pos k13] at hs
    have hsame := get_reg_same_stack hs
    exact ⟨step_effect_of_same_stack hsame, Or.inl hsame.1⟩
  rw [if_neg k13] at hs
  by_cases k14 : opcode = 14
  · rw [if_pos k14] at hs
    have hsame := out_reg_same_stack hs
    exact ⟨step_effect_of_same_stack hsame, Or.inl hsame.1⟩
  rw [if_neg k14] at hs
  by_cases k15 : opcode = 15
  · rw [if_pos k15] at hs
    have hsame := put_reg_same_stack hs
    exact ⟨step_effect_of_same_stack hsame, Or.inl hsame.1⟩
  rw [if_neg k15] at hs
  by_cases k16 : opcode = 16
  · rw [if_pos k16] at hs
    have hsame := swap_reg_same_stack hs
    exact ⟨step_effect_of_same_stack hsame, Or.inl hsame.1⟩
  rw [if_neg k16] at hs
  by_cases k17 : opcode = 17
  · rw [if_pos k17] at hs
    exact ⟨push_reg_effect h hs, Or.inr ((Or.inr (Or.inl (k17 ▸ hfetch))))⟩
  rw [if_neg k17] at hs
  have k18 : opcode = 18 := by omega
  exact ⟨pop_reg_effect h hs, Or.inr (Or.inr (Or.inr (k18 ▸ hfetch)))⟩

theorem cpu_steps_reachable {c c' : cpu} (k : Nat) (h : Reachable scanf_lld c)
    (hs : cpu_steps scanf_lld k c = some c') : Reachable scanf_lld c' := by
  induction k generalizing c with
  | zero =>
    simp only [cpu_steps, Option.some.injEq] at hs
    exact hs ▸ h
  | succ k ih =>
    simp only [cpu_steps] at hs
    split at hs
    · cases hs
    · rename_i e c1 heq
      exact ih (Reachable.step c c1 e h heq) hs

/-- The bounds of the stack window of a machine obtained from `cpu_create` by successive
steps are those that `cpu_create` computed from its arguments. -/
theorem cpu_steps_window {c c' : cpu} (k : Nat) (h : stack_invariant c)
    (hs : cpu_steps scanf_lld k c = some c') :
    c'.stack_start = c.stack_start ∧ c'.stack_end = c.stack_end ∧
      c'.stack_first_index = c.stack_first_index ∧
      c'.memory_point.length = c.memory_point.length := by
  induction k generalizing c with
  | zero =>
    simp only [cpu_steps, Option.some.injEq] at hs
    subst hs
    exact ⟨rfl, rfl, rfl, rfl⟩
  | succ k ih =>
    simp only [cpu_steps] at hs
    split at hs
    · cases hs
    · rename_i e c1 heq
      obtain ⟨⟨f1, f2, f3, f4⟩, _⟩ := cpu_step_effect scanf_lld h heq
      obtain ⟨g1, g2, g3, g4⟩ := ih (cpu_step_invariant scanf_lld h heq) hs
      refine ⟨g1.trans f1, g2.trans f2, g3.trans f3, g4.trans ?_⟩
      rcases f4 with e1 | ⟨i, v, _, _, hw⟩
      · rw [e1]
      · exact mem_write_length hw

/-! ## The effect of `cpu_reset` -/

theorem mem_zero_spec (m : List Int) (i n : Int) (h0 : 0 ≤ i) (hn : 0 ≤ n)
    (hle : i + n ≤ m.length) :
    ∃ m', mem_zero m i n = some m' ∧ m'.length = m.length ∧
      (∀ j : Int, i ≤ j → j < i + n → mem_read m' j = some 0) ∧
      (∀ j : Int, j < i ∨ i + n ≤ j → mem_read m' j = mem_read m j) := by
  by_cases hz : n = 0
  · refine ⟨m, by simp [mem_zero, hz], rfl, fun j h1 h2 => ?_, fun j _ => rfl⟩
    omega
  · have hcond : 0 ≤ i ∧ 0 < n ∧ i + n ≤ m.length := ⟨h0, by omega, hle⟩
    refine ⟨List.take i.toNat m ++ List.replicate n.toNat 0 ++ List.drop (i + n).toNat m,
      by simp only [mem_zero, if_neg hz, if_pos hcond], ?_, ?_, ?_⟩
    · simp only [List.length_append, List.length_take, List.length_replicate,
        List.length_drop]
      omega
    · intro j h1 h2
      have hj : 0 ≤ j := by omega
      have htake : (List.take i.toNat m).length = i.toNat := by
        simp only [List.length_take]; omega
      simp only [mem_read, if_pos hj]
      rw [List.append_assoc, List.getElem?_append_right (by rw [htake]; omega), htake,
        List.getElem?_append_left (by simp only [List.length_replicate]; omega),
        List.getElem?_replicate, if_pos (by omega)]
    · intro j hj
      by_cases hj0 : 0 ≤ j
      · have htake : (List.take i.toNat m).length = i.toNat := by
          simp only [List.length_take]; omega
        simp only [mem_read, if_pos hj0]
        rcases hj with hlt | hge
        · rw [List.append_assoc, List.getElem?_append_left (by rw [htake]; omega),
            List.getElem?_take_of_lt (by omega)]
        · rw [List.getElem?_append_right (by
              simp only [List.length_append, htake, List.length_replicate]; omega),
            List.getElem?_drop]
          simp only [List.length_append, htake, List.length_replicate]
          congr 1
          omega
      · simp only [mem_read, if_neg hj0]

/-- C16: on a machine obtained from `cpu_create` by any number of steps, `cpu_reset` sets
the four registers, the program counter and `stack_amount` to 0 and the status to `OK`,
sets every word of the stack window `[stack_end, stack_bottom]` to 0 and leaves every word
below `stack_end` as it was. -/
theorem reset_effect (memory : List Int) (stack_bottom : Int) (stack_capacity : Nat)
    (input : List (Fin 256)) (output : List out_event) (k : Nat) (c : cpu)
    (hmem : ∀ w ∈ memory, int32 w) (hlen : memory.length ≤ 2147483647)
    (h0 : 0 ≤ stack_bottom) (h1 : stack_bottom < memory.length)
    (h2 : 0 ≤ stack_bottom - stack_capacity + 1)
    (hsteps : cpu_steps scanf_lld k
      (cpu_create memory stack_bottom stack_capacity input output) = some c) :
    ∃ c', cpu_reset c = some c' ∧
      c'.reg_a = 0 ∧ c'.reg_b = 0 ∧ c'.reg_c = 0 ∧ c'.reg_d = 0 ∧ c'.next_instr = 0 ∧
      c'.stack_amount = 0 ∧ c'.status = CPU_OK ∧
      (∀ i : Int, stack_bottom - stack_capacity + 1 ≤ i → i ≤ stack_bottom →
        mem_read c'.memory_point i = some 0) ∧
      (∀ i : Int, i < stack_bottom - stack_capacity + 1 →
        mem_read c'.memory_point i = mem_read c.memory_point i) := by
  have hinv := cpu_create_invariant memory stack_bottom stack_capacity input output hmem hlen
    h0 h1 h2
  obtain ⟨g1, g2, _, g4⟩ := cpu_steps_window scanf_lld k hinv hsteps
  have gs : c.stack_start = stack_bottom := g1
  have ge : c.stack_end = stack_bottom - stack_capacity + 1 := g2
  have gl : c.memory_point.length = memory.length := g4
  obtain ⟨m', hm', _, hzero, hkeep⟩ := mem_zero_spec c.memory_point c.stack_end
    (c.stack_start - c.stack_end + 1) (by omega) (by omega) (by omega)
  refine ⟨{ c with
      memory_point := m', reg_a := 0, reg_b := 0, reg_c := 0, reg_d := 0, stack_amount := 0,
      stack_last_val := 0, stack_first_index := 0, next_instr := 0, status := CPU_OK },
    by simp only [cpu_reset, hm'], rfl, rfl, rfl, rfl, rfl, rfl, rfl, ?_, ?_⟩
  · intro i hi1 hi2
    exact hzero i (by omega) (by omega)
  · intro i hi
    exact hkeep i (Or.inl (by omega))

/-- Witness of C16: the reset of the machine that has run `MOV A 7; PUSH A; HALT`. -/
theorem reset_effect_witness :
    ∃ c', cpu_reset pushed_machine = some c' ∧
      c'.reg_a = 0 ∧ c'.reg_b = 0 ∧ c'.reg_c = 0 ∧ c'.reg_d = 0 ∧ c'.next_instr = 0 ∧
      c'.stack_amount = 0 ∧ c'.status = CPU_OK ∧
      (∀ i : Int, 7 - (2 : Nat) + 1 ≤ i → i ≤ 7 → mem_read c'.memory_point i = some 0) ∧
      (∀ i : Int, i < 7 - (2 : Nat) + 1 →
        mem_read c'.memory_point i = mem_read pushed_machine.memory_point i) :=
  reset_effect scanf_lld_ref [9, 0, 7, 17, 0, 1, 0, 0] 7 2 [] [] 3 pushed_machine (by decide)
    (by decide) (by decide) (by decide) (by decide) (by decide)

/-! ## End of input for `IN` and `GETC` -/

/-- C17 (as amended): with status `OK` and a valid register `r`, `IN r` when `scanf`
reports the end of the input, and `GETC r` when no byte is left, report executed, keep the
status `OK` and advance the program counter by 2; register C is set to 0 and then `r` to
-1, so that `r` holds -1 and C holds 0 unless `r` is C itself. -/
theorem input_at_end (c : cpu) (r : Int)
    (hlen : c.memory_point.length ≤ 2147483647) (hst : c.status = CPU_OK)
    (hpc : 0 ≤ c.next_instr ∧ c.next_instr < c.stack_end)
    (h1 : fetch c 1 = some r) (hr : valid_register r) :
    (fetch c 0 = some 12 → (scanf_lld c.stdin).1 = EOF →
      ∃ c', cpu_step scanf_lld c = some (1, c') ∧
        c' = { cpu_set_register
            (cpu_set_register { c with stdin := (scanf_lld c.stdin).2.2 } REGISTER_C 0) r (-1)
          with next_instr := c.next_instr + 2 } ∧
        c'.status = CPU_OK ∧ cpu_get_register c' r = -1 ∧
        (r ≠ REGISTER_C → cpu_get_register c' REGISTER_C = 0)) ∧
    (fetch c 0 = some 13 → c.stdin = [] →
      ∃ c', cpu_step scanf_lld c = some (1, c') ∧
        c' = { cpu_set_register (cpu_set_register c REGISTER_C 0) r (-1)
          with next_instr := c.next_instr + 2 } ∧
        c'.status = CPU_OK ∧ cpu_get_register c' r = -1 ∧
        (r ≠ REGISTER_C → cpu_get_register c' REGISTER_C = 0)) := by
  have hnot : ¬ (c.next_instr < 0 ∨ c.next_instr ≥ c.stack_end) := by omega
  unfold fetch at h1
  have hb := mem_read_bounds h1
  have e1 : wrap32 (c.next_instr + 1) = c.next_instr + 1 := by unfold wrap32; omega
  have e2 : wrap32 (c.next_instr + 1 + 1) = c.next_instr + 2 := by unfold wrap32; omega
  constructor
  · intro hop heof
    simp only [fetch, add_zero] at hop
    simp only [EOF] at heof
    refine ⟨_, ?_, rfl, ?_, ?_, ?_⟩
    · rcases valid_register_cases hr with rfl | rfl | rfl | rfl <;>
        simp [cpu_step, in_reg, validate_register, cpu_set_register, hst, hnot, hop, e1, e2,
          h1, heof]
    · simp [hst]
    · exact cpu_get_register_set_same _ _ hr
    · intro hne
      simp only [REGISTER_C] at hne ⊢
      rcases valid_register_cases hr with rfl | rfl | rfl | rfl <;>
        simp [cpu_get_register, cpu_set_register] at hne ⊢
  · intro hop hempty
    simp only [fetch, add_zero] at hop
    refine ⟨_, ?_, rfl, ?_, ?_, ?_⟩
    · rcases valid_register_cases hr with rfl | rfl | rfl | rfl <;>
        simp [cpu_step, get_reg, validate_register, cpu_set_register, hst, hnot, hop, e1, e2,
          h1, hempty]
    · simp [hst]
    · exact cpu_get_register_set_same _ _ hr
    · intro hne
      simp only [REGISTER_C] at hne ⊢
      rcases valid_register_cases hr with rfl | rfl | rfl | rfl <;>
        simp [cpu_get_register, cpu_set_register] at hne ⊢

/-- Witness of the amended C17: `IN A` and `GETC B` on an empty standard input, register
C holding 5 before the step. -/
theorem input_at_end_witness :
    (∃ c', cpu_step scanf_lld_ref in_eof_machine = some (1, c') ∧
      c'.status = CPU_OK ∧ c'.next_instr = 2 ∧ cpu_get_register c' REGISTER_A = -1 ∧
      cpu_get_register c' REGISTER_C = 0) ∧
    (∃ c', cpu_step scanf_lld_ref getc_eof_machine = some (1, c') ∧
      c'.status = CPU_OK ∧ c'.next_instr = 2 ∧ cpu_get_register c' REGISTER_B = -1 ∧
      cpu_get_register c' REGISTER_C = 0) := by
  obtain ⟨c1, s1, e1, t1, r1, k1⟩ := (input_at_end scanf_lld_ref in_eof_machine 0 (by decide)
    (by decide) (by decide) (by decide) (by decide)).1 (by decide) (by decide)
  obtain ⟨c2, s2, e2, t2, r2, k2⟩ := (input_at_end scanf_lld_ref getc_eof_machine 1
    (by decide) (by decide) (by decide) (by decide) (by decide)).2 (by decide) (by decide)
  exact ⟨⟨c1, s1, t1, by rw [e1]; rfl, r1, k1 (by decide)⟩,
    ⟨c2, s2, t2, by rw [e2]; rfl, r2, k2 (by decide)⟩⟩

/-- Counterexample to C17: `IN C` and `GETC C` at the end of the input report executed
and leave -1 in register C, not 0. -/
theorem input_at_end_register_c_counterexample :
    valid_register REGISTER_C ∧ in_c_eof_machine.stdin = [] ∧
    fetch in_c_eof_machine 0 = some 12 ∧ fetch in_c_eof_machine 1 = some REGISTER_C ∧
    (scanf_lld_ref in_c_eof_machine.stdin).1 = EOF ∧
    cpu_step scanf_lld_ref in_c_eof_machine =
      some (1, { in_c_eof_machine with reg_c := -1, next_instr := 2 }) ∧
    cpu_step scanf_lld_ref getc_c_eof_machine =
      some (1, { getc_c_eof_machine with reg_c := -1, next_instr := 2 }) ∧
    ¬ ∃ c', cpu_step scanf_lld_ref in_c_eof_machine = some (1, c') ∧
      cpu_get_register c' REGISTER_C = 0 := by
  refine ⟨by decide, by decide, by decide, by decide, by decide, by decide, by decide, ?_⟩
  rintro ⟨c', h, h0⟩
  have e : cpu_step scanf_lld_ref in_c_eof_machine =
      some (1, { in_c_eof_machine with reg_c := -1, next_instr := 2 }) := by decide
  rw [e] at h
  cases h
  revert h0
  decide

/-! ## The returned flag and the status -/

theorem add_reg_status {c c' : cpu} {e : Int} (hst : c.status = CPU_OK)
    (hs : add_reg c = some (e, c')) : status_agrees e c' := by
  simp only [add_reg] at hs
  split at hs
  · cases hs
  · rename_i reg hreg
    by_cases hv : reg < 0 ∨ reg > 3
    · simp [validate_register, hv] at hs
      obtain ⟨rfl, rfl⟩ := hs
      simp [status_agrees, hst]
    · simp [validate_register, hv] at hs
      obtain ⟨rfl, rfl⟩ := hs
      simp [status_agrees, hst]

theorem sub_reg_status {c c' : cpu} {e : Int} (hst : c.status = CPU_OK)
    (hs : sub_reg c = some (e, c')) : status_agrees e c' := by
  simp only [sub_reg] at hs
  split at hs
  · cases hs
  · rename_i reg hreg
    by_cases hv : reg < 0 ∨ reg > 3
    · simp [validate_register, hv] at hs
      obtain ⟨rfl, rfl⟩ := hs
      simp [status_agrees, hst]
    · simp [validate_register, hv] at hs
      obtain ⟨rfl, rfl⟩ := hs
      simp [status_agrees, hst]

theorem mul_reg_status {c c' : cpu} {e : Int} (hst : c.status = CPU_OK)
    (hs : mul_reg c = some (e, c')) : status_agrees e c' := by
  simp only [mul_reg] at hs
  split at hs
  · cases hs
  · rename_i reg hreg
    by_cases hv : reg < 0 ∨ reg > 3
    · simp [validate_register, hv] at hs
      obtain ⟨rfl, rfl⟩ := hs
      simp [status_agrees, hst]
    · simp [validate_register, hv] at hs
      obtain ⟨rfl, rfl⟩ := hs
      simp [status_agrees, hst]

theorem inc_reg_status {c c' : cpu} {e : Int} (hst : c.status = CPU_OK)
    (hs : inc_reg c = some (e, c')) : status_agrees e c' := by
  simp only [inc_reg] at hs
  split at hs
  · cases hs
  · rename_i reg hreg
    by_cases hv : reg < 0 ∨ reg > 3
    · simp [validate_register, hv] at hs
      obtain ⟨rfl, rfl⟩ := hs
      simp [status_agrees, hst]
    · simp [validate_register, hv] at hs
      obtain ⟨rfl, rfl⟩ := hs
      simp [status_agrees, hst]

theorem dec_reg_status {c c' : cpu} {e : Int} (hst : c.status = CPU_OK)
    (hs : dec_reg c = some (e, c')) : status_agrees e c' := by
  simp only [dec_reg] at hs
  split at hs
  · cases hs
  · rename_i reg hreg
    by_cases hv : reg < 0 ∨ reg > 3
    · simp [validate_register, hv] at hs
      obtain ⟨rfl, rfl⟩ := hs
      simp [status_agrees, hst]
    · simp [validate_register, hv] at hs
      obtain ⟨rfl, rfl⟩ := hs
      simp [status_agrees, hst]

theorem out_reg_status {c c' : cpu} {e : Int} (hst : c.status = CPU_OK)
    (hs : out_reg c = some (e, c')) : status_agrees e c' := by
  simp only [out_reg] at hs
  split at hs
  · cases hs
  · rename_i reg hreg
    by_cases hv : reg < 0 ∨ reg > 3
    · simp [validate_register, hv] at hs
      obtain ⟨rfl, rfl⟩ := hs
      simp [status_agrees, hst]
    · simp [validate_register, hv] at hs
      obtain ⟨rfl, rfl⟩ := hs
      simp [status_agrees, hst]

theorem div_reg_status {c c' : cpu} {e : Int} (hst : c.status = CPU_OK)
    (hs : div_reg c = some (e, c')) : status_agrees e c' := by
  simp only [div_reg] at hs
  split at hs
  · cases hs
  · rename_i reg hreg
    by_cases hv : reg < 0 ∨ reg > 3
    · simp [validate_register, hv] at hs
      obtain ⟨rfl, rfl⟩ := hs
      simp [status_agrees, hst]
    · simp [validate_register, hv] at hs
      split_ifs at hs <;> simp only [Option.some.injEq, Prod.mk.injEq] at hs <;>
        obtain ⟨rfl, rfl⟩ := hs <;> simp [status_agrees, hst]

theorem put_reg_status {c c' : cpu} {e : Int} (hst : c.status = CPU_OK)
    (hs : put_reg c = some (e, c')) : status_agrees e c' := by
  simp only [put_reg] at hs
  split at hs
  · cases hs
  · rename_i reg hreg
    by_cases hv : reg < 0 ∨ reg > 3
    · simp [validate_register, hv] at hs
      obtain ⟨rfl, rfl⟩ := hs
      simp [status_agrees, hst]
    · simp [validate_register, hv] at hs
      split_ifs at hs <;> simp only [Option.some.injEq, Prod.mk.injEq] at hs <;>
        obtain ⟨rfl, rfl⟩ := hs <;> simp [status_agrees, hst]

theorem loop_ind_status {c c' : cpu} {e : Int} (hst : c.status = CPU_OK)
    (hs : loop_ind c = some (e, c')) : status_agrees e c' := by
  simp only [loop_ind] at hs
  split at hs
  · cases hs
  · split_ifs at hs <;> simp only [Option.some.injEq, Prod.mk.injEq] at hs <;>
      obtain ⟨rfl, rfl⟩ := hs <;> simp [status_agrees, hst]

theorem movr_status {c c' : cpu} {e : Int} (hst : c.status = CPU_OK)
    (hs : movr c = some (e, c')) : status_agrees e c' := by
  simp only [movr] at hs
  split at hs
  · cases hs
  · rename_i reg hreg
    by_cases hv : reg < 0 ∨ reg > 3
    · simp [validate_register, hv] at hs
      obtain ⟨rfl, rfl⟩ := hs
      simp [status_agrees, hst]
    · simp [validate_register, hv] at hs
      split at hs
      · cases hs
      · simp only [Option.some.injEq, Prod.mk.injEq] at hs
        obtain ⟨rfl, rfl⟩ := hs
        simp [status_agrees, hst]

theorem load_reg_status {c c' : cpu} {e : Int} (hst : c.status = CPU_OK)
    (hs : load_reg c = some (e, c')) : status_agrees e c' := by
  simp only [load_reg] at hs
  split at hs
  · cases hs
  · rename_i reg hreg
    by_cases hv : reg < 0 ∨ reg > 3
    · simp [validate_register, hv] at hs
      obtain ⟨rfl, rfl⟩ := hs
      simp [status_agrees, hst]
    · simp [validate_register, hv] at hs
      split at hs
      · cases hs
      · split_ifs at hs
        · simp only [Option.some.injEq, Prod.mk.injEq] at hs
          obtain ⟨rfl, rfl⟩ := hs
          simp [status_agrees, hst]
        · simp only [Option.some.injEq, Prod.mk.injEq] at hs
          obtain ⟨rfl, rfl⟩ := hs
          simp [status_agrees, hst]
        · simp only [Option.some.injEq, Prod.mk.injEq] at hs
          obtain ⟨rfl, rfl⟩ := hs
          simp [status_agrees, hst]
        · split at hs
          · cases hs
          · simp only [Option.some.injEq, Prod.mk.injEq] at hs
            obtain ⟨rfl, rfl⟩ := hs
            simp [status_agrees, hst]

theorem store_reg_status {c c' : cpu} {e : Int} (hst : c.status = CPU_OK)
    (hs : store_reg c = some (e, c')) : status_agrees e c' := by
  simp only [store_reg] at hs
  split at hs
  · cases hs
  · rename_i reg hreg
    by_cases hv : reg < 0 ∨ reg > 3
    · simp [validate_register, hv] at hs
      obtain ⟨rfl, rfl⟩ := hs
      simp [status_agrees, hst]
    · simp [validate_register, hv] at hs
      split at hs
      · cases hs
      · split_ifs at hs
        · simp only [Option.some.injEq, Prod.mk.injEq] at hs
          obtain ⟨rfl, rfl⟩ := hs
          simp [status_agrees, hst]
        · simp only [Option.some.injEq, Prod.mk.injEq] at hs
          obtain ⟨rfl, rfl⟩ := hs
          simp [status_agrees, hst]
        · simp only [Option.some.injEq, Prod.mk.injEq] at hs
          obtain ⟨rfl, rfl⟩ := hs
          simp [status_agrees, hst]
        · split at hs
          · cases hs
          · simp only [Option.some.injEq, Prod.mk.injEq] at hs
            obtain ⟨rfl, rfl⟩ := hs
            simp [status_agrees, hst]

theorem in_reg_status {c c' : cpu} {e : Int} (hst : c.status = CPU_OK)
    (hs : in_reg scanf_lld c = some (e, c')) : status_agrees e c' := by
  simp only [in_reg] at hs
  split at hs
  · cases hs
  · rename_i reg hreg
    by_cases hv : reg < 0 ∨ reg > 3
    · simp [validate_register, hv] at hs
      obtain ⟨rfl, rfl⟩ := hs
      simp [status_agrees, hst]
    · simp only [validate_register, REGISTER_A, REGISTER_D, if_neg hv, one_ne_zero,
        if_false] at hs
      split_ifs at hs <;> simp only [Option.some.injEq, Prod.mk.injEq] at hs <;>
        obtain ⟨rfl, rfl⟩ := hs <;> simp [status_agrees, hst]

theorem get_reg_status {c c' : cpu} {e : Int} (hst : c.status = CPU_OK)
    (hs : get_reg c = some (e, c')) : status_agrees e c' := by
  simp only [get_reg] at hs
  split at hs
  · cases hs
  · rename_i reg hreg
    by_cases hv : reg < 0 ∨ reg > 3
    · simp [validate_register, hv] at hs
      obtain ⟨rfl, rfl⟩ := hs
      simp [status_agrees, hst]
    · simp only [validate_register, REGISTER_A, REGISTER_D, if_neg hv, one_ne_zero,
        if_false] at hs
      split at hs <;> simp only [Option.some.injEq, Prod.mk.injEq] at hs <;>
        obtain ⟨rfl, rfl⟩ := hs <;> simp [status_agrees, hst]

theorem swap_reg_status {c c' : cpu} {e : Int} (hst : c.status = CPU_OK)
    (hs : swap_reg c = some (e, c')) : status_agrees e c' := by
  simp only [swap_reg] at hs
  split at hs
  · cases hs
  · rename_i reg hreg
    by_cases hv : reg < 0 ∨ reg > 3
    · simp [validate_register, hv] at hs
      obtain ⟨rfl, rfl⟩ := hs
      simp [status_agrees, hst]
    · simp only [validate_register, REGISTER_A, REGISTER_D, if_neg hv, one_ne_zero,
        if_false] at hs
      split at hs
      · cases hs
      · rename_i reg_two hreg_two
        by_cases hv2 : reg_two < 0 ∨ reg_two > 3
        · simp only [if_pos hv2, if_true] at hs
          simp only [Option.some.injEq, Prod.mk.injEq] at hs
          obtain ⟨rfl, rfl⟩ := hs
          simp [status_agrees, hst]
        · simp only [if_neg hv2, one_ne_zero, if_false] at hs
          simp only [Option.some.injEq, Prod.mk.injEq] at hs
          obtain ⟨rfl, rfl⟩ := hs
          simp [status_agrees, hst]

theorem push_reg_status {c c' : cpu} {e : Int} (hst : c.status = CPU_OK)
    (hs : push_reg c = some (e, c')) : status_agrees e c' := by
  simp only [push_reg] at hs
  split at hs
  · cases hs
  · rename_i reg hreg
    by_cases hv : reg < 0 ∨ reg > 3
    · simp [validate_register, hv] at hs
      obtain ⟨rfl, rfl⟩ := hs
      simp [status_agrees, hst]
    · simp only [validate_register, REGISTER_A, REGISTER_D, if_neg hv, one_ne_zero,
        if_false] at hs
      split_ifs at hs
      · simp only [Option.some.injEq, Prod.mk.injEq] at hs
        obtain ⟨rfl, rfl⟩ := hs
        simp [status_agrees, hst]
      · split at hs
        · cases hs
        · simp only [Option.some.injEq, Prod.mk.injEq] at hs
          obtain ⟨rfl, rfl⟩ := hs
          simp [status_agrees, hst]
      · split at hs
        · cases hs
        · simp only [Option.some.injEq, Prod.mk.injEq] at hs
          obtain ⟨rfl, rfl⟩ := hs
          simp [status_agrees, hst]

theorem pop_reg_status {c c' : cpu} {e : Int} (hst : c.status = CPU_OK)
    (hs : pop_reg c = some (e, c')) : status_agrees e c' := by
  simp only [pop_reg] at hs
  split at hs
  · cases hs
  · rename_i reg hreg
    by_cases hv : reg < 0 ∨ reg > 3
    · simp [validate_register, hv] at hs
      obtain ⟨rfl, rfl⟩ := hs
      simp [status_agrees, hst]
    · simp only [validate_register, REGISTER_A, REGISTER_D, if_neg hv, one_ne_zero,
        if_false] at hs
      split_ifs at hs
      · simp only [Option.some.injEq, Prod.mk.injEq] at hs
        obtain ⟨rfl, rfl⟩ := hs
        simp [status_agrees, hst]
      · split at hs
        · cases hs
        · simp only [cpu_set_register_memory_point, cpu_set_register_stack_last_val,
            cpu_set_register_stack_amount, cpu_set_register_stack_start,
            cpu_set_register_stack_end, cpu_set_register_stack_first_index,
            cpu_set_register_next_instr, cpu_set_register_status, cpu_set_register_stdin,
            cpu_set_register_stdout] at hs
          split at hs
          · cases hs
          · split_ifs at hs <;> simp only [Option.some.injEq, Prod.mk.injEq] at hs <;>
              obtain ⟨rfl, rfl⟩ := hs <;> simp [status_agrees, hst]

/-- From status `OK`, `cpu_step` reports executed exactly when the status is still `OK`
afterwards, and not executed exactly when it is `HALTED` or a fault kind. -/
theorem cpu_step_status {c c' : cpu} {e : Int} (hst : c.status = CPU_OK)
    (hs : cpu_step scanf_lld c = some (e, c')) : status_agrees e c' := by
  unfold cpu_step at hs
  have h1 : ¬ c.status ≠ CPU_OK := by simp [hst]
  rw [if_neg h1] at hs
  by_cases h2 : c.next_instr < 0 ∨ c.next_instr ≥ c.stack_end
  · rw [if_pos h2] at hs
    simp only [Option.some.injEq, Prod.mk.injEq] at hs
    obtain ⟨rfl, rfl⟩ := hs
    simp [status_agrees, hst]
  rw [if_neg h2] at hs
  cases hop : mem_read c.memory_point c.next_instr with
  | none => rw [hop] at hs; cases hs
  | some opcode =>
  rw [hop] at hs
  dsimp only at hs
  by_cases h3 : opcode < 0 ∨ opcode > 18
  · rw [if_pos h3] at hs
    simp only [Option.some.injEq, Prod.mk.injEq] at hs
    obtain ⟨rfl, rfl⟩ := hs
    simp [status_agrees, hst]
  rw [if_neg h3] at hs
  by_cases h4 : opcode = 0
  · rw [if_pos h4] at hs
    simp only [Option.some.injEq, Prod.mk.injEq] at hs
    obtain ⟨rfl, rfl⟩ := hs
    simp [status_agrees, hst]
  rw [if_neg h4] at hs
  by_cases h5 : opcode = 1
  · rw [if_pos h5] at hs
    simp only [Option.some.injEq, Prod.mk.injEq] at hs
    obtain ⟨rfl, rfl⟩ := hs
    simp [status_agrees, hst]
  rw [if_neg h5] at hs
  by_cases k2 : opcode = 2
  · rw [if_pos k2] at hs
    exact add_reg_status hst hs
  rw [if_neg k2] at hs
  by_cases k3 : opcode = 3
  · rw [if_pos k3] at hs
    exact sub_reg_status hst hs
  rw [if_neg k3] at hs
  by_cases k4 : opcode = 4
  · rw [if_pos k4] at hs
    exact mul_reg_status hst hs
  rw [if_neg k4] at hs
  by_cases k5 : opcode = 5
  · rw [if_pos k5] at hs
    exact div_reg_status hst hs
  rw [if_neg k5] at hs
  by_cases k6 : opcode = 6
  · rw [if_pos k6] at hs
    exact inc_reg_status hst hs
  rw [if_neg k6] at hs
  by_cases k7 : opcode = 7
  · rw [if_pos k7] at hs
    exact dec_reg_status hst hs
  rw [if_neg k7] at hs
  by_cases k8 : opcode = 8
  · rw [if_pos k8] at hs
    exact loop_ind_status hst hs
  rw [if_neg k8] at hs
  by_cases k9 : opcode = 9
  · rw [if_pos k9] at hs
    exact movr_status hst hs
  rw [if_neg k9] at hs
  by_cases k10 : opcode = 10
  · rw [if_pos k10] at hs
    exact load_reg_status hst hs
  rw [if_neg k10] at hs
  by_cases k11 : opcode = 11
  · rw [if_pos k11] at hs
    exact store_reg_status hst hs
  rw [if_neg k11] at hs
  by_cases k12 : opcode = 12
  · rw [if_pos k12] at hs
    exact in_reg_status scanf_lld hst hs
  rw [if_neg k12] at hs
  by_cases k13 : opcode = 13
  · rw [if_pos k13] at hs
    exact get_reg_status hst hs
  rw [if_neg k13] at hs
  by_cases k14 : opcode = 14
  · rw [if_pos k14] at hs
    exact out_reg_status hst hs
  rw [if_neg k14] at hs
  by_cases k15 : opcode = 15
  · rw [if_pos k15] at hs
    exact put_reg_status hst hs
  rw [if_neg k15] at hs
  by_cases k16 : opcode = 16
  · rw [if_pos k16] at hs
    exact swap_reg_status hst hs
  rw [if_neg k16] at hs
  by_cases k17 : opcode = 17
  · rw [if_pos k17] at hs
    exact push_reg_status hst hs
  rw [if_neg k17] at hs
  exact pop_reg_status hst hs

theorem cpu_run_loop_status (steps : Nat) :
    ∀ (left i : Nat) (c c' : cpu) (v : Int), c.status = CPU_OK → 1 ≤ i →
      i + left ≤ 9223372036854775808 →
      cpu_run_loop scanf_lld steps left i c = some (v, c') →
      (v = to_long_long steps ∧ c'.status = CPU_OK) ∨
      ∃ j : Nat, i ≤ j ∧ j < i + left ∧
        ((v = (j : Int) ∧ c'.status = CPU_HALTED) ∨ (v = -(j : Int) ∧ fault_status c')) := by
  intro left
  induction left with
  | zero =>
    intro i c c' v hst _ _ h
    simp only [cpu_run_loop, Option.some.injEq, Prod.mk.injEq] at h
    obtain ⟨rfl, rfl⟩ := h
    exact Or.inl ⟨rfl, hst⟩
  | succ left ih =>
    intro i c c' v hst hi hbound h
    simp only [cpu_run_loop] at h
    split at h
    · cases h
    · rename_i e c1 heq
      have hag := cpu_step_status scanf_lld hst heq
      by_cases he : e = 0
      · rw [if_pos he] at h
        have hrange : CPU_HALTED ≤ c1.status ∧ c1.status ≤ CPU_IO_ERROR := by
          rcases hag with ⟨h1, _⟩ | ⟨_, h2⟩
          · omega
          · exact h2
        refine Or.inr ⟨i, le_refl _, by omega, ?_⟩
        by_cases hh : c1.status = CPU_HALTED
        · rw [if_pos hh] at h
          simp only [Option.some.injEq, Prod.mk.injEq] at h
          obtain ⟨rfl, rfl⟩ := h
          exact Or.inl ⟨by unfold to_long_long; omega, hh⟩
        · rw [if_neg hh] at h
          simp only [Option.some.injEq, Prod.mk.injEq] at h
          obtain ⟨rfl, rfl⟩ := h
          refine Or.inr ⟨by unfold to_long_long size_t_wrap; omega, ?_⟩
          simp only [fault_status, CPU_HALTED, CPU_ILLEGAL_INSTRUCTION, CPU_IO_ERROR] at hh hrange ⊢
          omega
      · rw [if_neg he] at h
        have hst1 : c1.status = CPU_OK := by
          rcases hag with ⟨_, h1⟩ | ⟨h2, _⟩
          · exact h1
          · exact absurd h2 he
        rcases ih (i + 1) c1 c' v hst1 (by omega) (by omega) h with hall | ⟨j, hj1, hj2, hj3⟩
        · exact Or.inl hall
        · exact Or.inr ⟨j, by omega, by omega, hj3⟩

/-- For every budget that a `long long` can hold, the sign of the value returned by
`cpu_run` agrees with the status: a negative value comes with a fault kind, a positive
value below the budget with `HALTED`. -/
theorem cpu_run_status (c c' : cpu) (n : Nat) (v : Int) (hn : n < 9223372036854775808)
    (hst : c.status = CPU_OK) (h : cpu_run scanf_lld c n = some (v, c')) :
    (v < 0 → fault_status c') ∧ (0 < v → v < n → c'.status = CPU_HALTED) := by
  have hleft : size_t_wrap (n + 1) - 1 = n := by unfold size_t_wrap; omega
  have hs : ¬ c.status ≠ CPU_OK := by simp [hst]
  simp only [cpu_run, if_neg hs, hleft] at h
  have hll : to_long_long n = (n : Int) := by unfold to_long_long; omega
  rcases cpu_run_loop_status scanf_lld n n 1 c c' v hst (le_refl _) (by omega) h with
    ⟨hv, _⟩ | ⟨j, hj1, hj2, ⟨hv, hh⟩ | ⟨hv, hf⟩⟩
  · rw [hll] at hv
    exact ⟨fun h0 => by omega, fun _ h1 => by omega⟩
  · exact ⟨fun h0 => by omega, fun _ _ => hh⟩
  · exact ⟨fun _ => hf, fun h0 => by omega⟩

/-- Witness of `cpu_run_status`: budget 5 on `NOP; HALT` returns 2 with status `HALTED`. -/
theorem cpu_run_status_witness :
    ((2 : Int) < 0 → fault_status halted_machine) ∧
    ((0 : Int) < 2 → (2 : Int) < (5 : Nat) → halted_machine.status = CPU_HALTED) :=
  cpu_run_status scanf_lld_ref nop_halt halted_machine 5 2 (by decide) (by decide) (by decide)

/-- C18 at its failing input: the budget `SIZE_MAX` on the program `NOP; HALT` makes
`cpu_run` return the negative count -1 while the status is `OK`, neither a fault kind nor
`HALTED`; the single step on the same machine reports executed with status `OK`. -/
theorem cpu_run_negative_with_status_ok :
    cpu_step scanf_lld_ref nop_halt = some (1, { nop_halt with next_instr := 1 }) ∧
    ∃ c', cpu_run scanf_lld_ref nop_halt 18446744073709551615 = some (-1, c') ∧
      c'.status = CPU_OK ∧ ¬ fault_status c' := by
  refine ⟨by decide, nop_halt, by decide, by decide, by decide⟩

/-! ## The stack bookkeeping invariant -/

/-- C19: in every state obtained from `cpu_create memory stack_bottom stack_capacity` by
any number of steps, `0 ≤ stack_amount ≤ stack_capacity` and
`stack_last_val = stack_first_index - max (stack_amount - 1) 0`, where
`stack_first_index` is still `stack_bottom` and `stack_end` is still
`stack_bottom - stack_capacity + 1`; so `stack_last_val = stack_first_index` on an empty
stack, and `stack_end ≤ stack_last_val ≤ stack_first_index` when the capacity is at
least 1. -/
theorem stack_bookkeeping (memory : List Int) (stack_bottom : Int) (stack_capacity : Nat)
    (input : List (Fin 256)) (output : List out_event) (k : Nat) (c : cpu)
    (hmem : ∀ w ∈ memory, int32 w) (hlen : memory.length ≤ 2147483647)
    (h0 : 0 ≤ stack_bottom) (h1 : stack_bottom < memory.length)
    (h2 : 0 ≤ stack_bottom - stack_capacity + 1)
    (hsteps : cpu_steps scanf_lld k
      (cpu_create memory stack_bottom stack_capacity input output) = some c) :
    0 ≤ c.stack_amount ∧ c.stack_amount ≤ stack_capacity ∧
    cpu_get_stack_size c = c.stack_amount ∧
    c.stack_first_index = stack_bottom ∧
    c.stack_end = stack_bottom - stack_capacity + 1 ∧
    c.stack_last_val = c.stack_first_index - max (c.stack_amount - 1) 0 ∧
    (c.stack_amount = 0 → c.stack_last_val = c.stack_first_index) ∧
    (1 ≤ stack_capacity →
      c.stack_end ≤ c.stack_last_val ∧ c.stack_last_val ≤ c.stack_first_index) := by
  have hinv0 := cpu_create_invariant memory stack_bottom stack_capacity input output hmem hlen
    h0 h1 h2
  obtain ⟨g1, g2, g3, _⟩ := cpu_steps_window scanf_lld k hinv0 hsteps
  have gs : c.stack_start = stack_bottom := g1
  have ge : c.stack_end = stack_bottom - stack_capacity + 1 := g2
  have hreach : Reachable scanf_lld c :=
    cpu_steps_reachable scanf_lld k
      (Reachable.create memory stack_bottom stack_capacity input output hmem hlen h0 h1 h2)
      hsteps
  obtain ⟨_, _, _, h10, h11, h12, h13⟩ := reachable_invariant scanf_lld hreach
  refine ⟨h11, by omega, rfl, by omega, ge, h13, fun hz => by omega, fun hc => by omega⟩

/-- Witness of C19: the machine that has run `MOV A 7; PUSH A; HALT`. -/
theorem stack_bookkeeping_witness :
    0 ≤ pushed_machine.stack_amount ∧ pushed_machine.stack_amount ≤ (2 : Nat) ∧
    cpu_get_stack_size pushed_machine = pushed_machine.stack_amount ∧
    pushed_machine.stack_first_index = 7 ∧
    pushed_machine.stack_end = 7 - (2 : Nat) + 1 ∧
    pushed_machine.stack_last_val =
      pushed_machine.stack_first_index - max (pushed_machine.stack_amount - 1) 0 ∧
    (pushed_machine.stack_amount = 0 →
      pushed_machine.stack_last_val = pushed_machine.stack_first_index) ∧
    (1 ≤ 2 → pushed_machine.stack_end ≤ pushed_machine.stack_last_val ∧
      pushed_machine.stack_last_val ≤ pushed_machine.stack_first_index) :=
  stack_bookkeeping scanf_lld_ref [9, 0, 7, 17, 0, 1, 0, 0] 7 2 [] [] 3 pushed_machine
    (by decide) (by decide) (by decide) (by decide) (by decide) (by decide)

/-! ## The code region is never written -/

theorem mem_read_set_other (m : List Int) (i j v : Int) (hi : 0 ≤ i) (hne : j ≠ i) :
    mem_read (m.set i.toNat v) j = mem_read m j := by
  unfold mem_read
  by_cases hj : 0 ≤ j
  · rw [if_pos hj, if_pos hj, List.getElem?_set_ne (by omega)]
  · rw [if_neg hj, if_neg hj]

theorem mem_write_eq_set {m m' : List Int} {i v : Int} (h : mem_write m i v = some m') :
    m' = m.set i.toNat v := by
  unfold mem_write at h
  split at h
  · exact (Option.some.inj h).symm
  · cases h

/-- C20: in a state reachable from `cpu_create` by steps, a further step leaves every word
below `stack_end` as it was; the buffer changes only when the instruction is `STORE`,
`PUSH` or `POP`, and then by one word whose index lies in
`[stack_end, stack_first_index]`. -/
theorem code_region_never_written (c c' : cpu) (e : Int) (hreach : Reachable scanf_lld c)
    (hstep : cpu_step scanf_lld c = some (e, c')) :
    (∀ i : Int, i < c.stack_end → mem_read c'.memory_point i = mem_read c.memory_point i) ∧
    (c'.memory_point = c.memory_point ∨
      ((fetch c 0 = some 11 ∨ fetch c 0 = some 17 ∨ fetch c 0 = some 18) ∧
        ∃ i v : Int, c.stack_end ≤ i ∧ i ≤ c.stack_first_index ∧
          0 ≤ i ∧ i < c.memory_point.length ∧
          c'.memory_point = c.memory_point.set i.toNat v)) := by
  have hinv := reachable_invariant scanf_lld hreach
  obtain ⟨⟨_, _, _, hmem⟩, hop⟩ := cpu_step_effect scanf_lld hinv hstep
  rcases hmem with hsame | ⟨i, v, hi1, hi2, hw⟩
  · exact ⟨fun i _ => by rw [hsame], Or.inl hsame⟩
  · have hb := mem_write_bounds hw
    have hset := mem_write_eq_set hw
    refine ⟨fun j hj => ?_, ?_⟩
    · rw [hset]
      exact mem_read_set_other _ _ _ _ hb.1 (by omega)
    · rcases hop with hsame | hop
      · exact Or.inl hsame
      · exact Or.inr ⟨hop, i, v, hi1, hi2, hb.1, hb.2, hset⟩

/-- Witness of C20: the `PUSH A` of `MOV A 7; PUSH A; POP B; HALT` writes word 9 of a
buffer whose stack window is `[8, 9]`. -/
theorem code_region_never_written_witness :
    (∀ i : Int, i < push_pop_machine.stack_end →
      mem_read [9, 0, 7, 17, 0, 18, 1, 1, 0, 7] i =
        mem_read push_pop_machine.memory_point i) ∧
    ([9, 0, 7, 17, 0, 18, 1, 1, 0, 7] = push_pop_machine.memory_point ∨
      ((fetch push_pop_machine 0 = some 11 ∨ fetch push_pop_machine 0 = some 17 ∨
          fetch push_pop_machine 0 = some 18) ∧
        ∃ i v : Int, push_pop_machine.stack_end ≤ i ∧
          i ≤ push_pop_machine.stack_first_index ∧ 0 ≤ i ∧
          i < push_pop_machine.memory_point.length ∧
          [9, 0, 7, 17, 0, 18, 1, 1, 0, 7] = push_pop_machine.memory_point.set i.toNat v)) :=
  code_region_never_written scanf_lld_ref push_pop_machine
    { push_pop_machine with
      memory_point := [9, 0, 7, 17, 0, 18, 1, 1, 0, 7], stack_amount := 1, next_instr := 5 }
    1
    (Reachable.step (cpu_create [9, 0, 7, 17, 0, 18, 1, 1, 0, 0] 9 2 [] []) push_pop_machine 1
      (Reachable.create [9, 0, 7, 17, 0, 18, 1, 1, 0, 0] 9 2 [] [] (by decide) (by decide)
        (by decide) (by decide) (by decide)) (by decide))
    (by decide)

/-! ## Which words a step reads as instruction words -/

/-- The part of C21 that the code satisfies: a step of a machine with status `OK` either
refuses the program counter, changing only the status to `INVALID_ADDRESS`, or reads its
opcode word at an index of `[0, stack_end)` that lies inside the buffer. -/
theorem opcode_fetch_in_code_region (c c' : cpu) (executed : Int) (hst : c.status = CPU_OK)
    (h : cpu_step scanf_lld c = some (executed, c')) :
    (executed = 0 ∧ c' = { c with status := CPU_INVALID_ADDRESS }) ∨
    (0 ≤ c.next_instr ∧ c.next_instr < c.stack_end ∧
      c.next_instr < c.memory_point.length ∧ ∃ opcode, fetch c 0 = some opcode) := by
  by_cases hpc : c.next_instr < 0 ∨ c.next_instr ≥ c.stack_end
  · left
    simp only [cpu_step, hst, ne_eq, not_true_eq_false, if_false, if_pos hpc] at h
    simp only [Option.some.injEq, Prod.mk.injEq] at h
    exact ⟨h.1.symm, h.2.symm⟩
  · right
    cases hop : mem_read c.memory_point c.next_instr with
    | none =>
      simp [cpu_step, hst, hpc, hop] at h
    | some opcode =>
      have hb := mem_read_bounds hop
      exact ⟨by omega, by omega, hb.2, opcode, by simpa [fetch] using hop⟩

/-- Witness of `opcode_fetch_in_code_region`: the first step of `NOP; HALT`. -/
theorem opcode_fetch_in_code_region_witness :
    ((1 : Int) = 0 ∧
      ({ nop_halt with next_instr := 1 } : cpu) =
        { nop_halt with status := CPU_INVALID_ADDRESS }) ∨
    (0 ≤ nop_halt.next_instr ∧ nop_halt.next_instr < nop_halt.stack_end ∧
      nop_halt.next_instr < nop_halt.memory_point.length ∧
      ∃ opcode, fetch nop_halt 0 = some opcode) :=
  opcode_fetch_in_code_region scanf_lld_ref nop_halt
    { nop_halt with next_instr := 1 } 1 (by decide) (by decide)

/-- C21 at its failing inputs.  After `MOV B 7; PUSH B` the machine `mov_at_code_end` has
status `OK` and its program counter on the `MOV` at index 5, the last word of the code
region `[0, 6)`; the step executes it, reading its register operand at index 6 and its
immediate at index 7, both in the stack window `[6, 7]`: register A receives the 7 that
`PUSH` stored.  On `mov_at_buffer_end` the immediate of the `MOV` at index 0 is read at
index 2 of a buffer of two words, outside the buffer. -/
theorem operand_fetch_beyond_code_region :
    cpu_steps scanf_lld_ref 2 mov_at_code_end = some mov_at_code_end_pushed ∧
    mov_at_code_end_pushed.status = CPU_OK ∧ mov_at_code_end_pushed.next_instr = 5 ∧
    mov_at_code_end_pushed.stack_end = 6 ∧ mov_at_code_end_pushed.stack_first_index = 7 ∧
    fetch mov_at_code_end_pushed 0 = some 9 ∧ fetch mov_at_code_end_pushed 1 = some 0 ∧
    fetch mov_at_code_end_pushed 2 = some 7 ∧
    cpu_step scanf_lld_ref mov_at_code_end_pushed =
      some (1, { mov_at_code_end_pushed with reg_a := 7, next_instr := 8 }) ∧
    mov_at_buffer_end.status = CPU_OK ∧ mov_at_buffer_end.next_instr = 0 ∧
    mov_at_buffer_end.stack_end = 1 ∧ mov_at_buffer_end.stack_first_index = 1 ∧
    mov_at_buffer_end.memory_point.length = 2 ∧
    fetch mov_at_buffer_end 0 = some 9 ∧ fetch mov_at_buffer_end 1 = some 0 ∧
    fetch mov_at_buffer_end 2 = none ∧
    cpu_step scanf_lld_ref mov_at_buffer_end = none := by
  have hsteps : cpu_steps scanf_lld_ref 2 mov_at_code_end = some mov_at_code_end_pushed := by
    decide
  have hstep : cpu_step scanf_lld_ref mov_at_code_end_pushed =
      some (1, { mov_at_code_end_pushed with reg_a := 7, next_instr := 8 }) := by
    decide
  have hnone : cpu_step scanf_lld_ref mov_at_buffer_end = none := by decide
  refine ⟨hsteps, ?_, ?_, ?_, ?_, ?_, ?_, ?_, hstep, ?_, ?_, ?_, ?_, ?_, ?_, ?_, ?_, hnone⟩
  all_goals decide

end theorems

end Cpu32

namespace Ascii85

/-! ## Machine integers and bytes of the filter -/

theorem wrap_long_of_range {x : Int}
    (h : -9223372036854775808 ≤ x ∧ x < 9223372036854775808) : wrap_long x = x := by
  unfold wrap_long; omega

theorem wrap_int_of_range {x : Int} (h : -2147483648 ≤ x ∧ x < 2147483648) :
    wrap_int x = x := by
  unfold wrap_int; omega

theorem wrap_short_of_range {x : Int} (h : -32768 ≤ x ∧ x < 32768) : wrap_short x = x := by
  unfold wrap_short; omega

theorem to_byte_val (b : Fin 256) : to_byte (b.val : Int) = b := by
  apply Fin.ext
  simp only [to_byte]
  have := b.isLt
  omega

theorem val_to_byte {v : Int} (h : 0 ≤ v ∧ v < 256) : ((to_byte v).val : Int) = v := by
  simp only [to_byte]
  omega

/-! ## `encode_output` and `decode_output` -/

theorem encode_output_loop_step (left : Nat) (r : Int) (h : 0 ≤ r) (out : List (Fin 256)) :
    encode_output_loop (left + 1) r out =
      encode_output_loop left (r / 85) (out ++ [to_byte (33 + r % 85)]) := by
  have h1 : Int.tmod r 85 = r % 85 := Int.tmod_eq_emod h (by decide)
  have h2 : Int.tdiv r 85 = r / 85 := Int.tdiv_eq_ediv h (by decide)
  have h3 : wrap_int (r % 85) = r % 85 := wrap_int_of_range (by omega)
  have h4 : wrap_int (r % 85 + 33) = 33 + r % 85 := by
    rw [wrap_int_of_range (by omega)]; omega
  simp only [encode_output_loop, h1, h2, h3, h4]

theorem encode_output_eq (v : Int) (h : 0 ≤ v) (out : List (Fin 256)) :
    encode_output v out = out ++ base85_chars v := by
  have e2 : v / 85 / 85 = v / 7225 := by omega
  have e3 : v / 7225 / 85 = v / 614125 := by omega
  have e4 : v / 614125 / 85 = v / 52200625 := by omega
  unfold encode_output
  rw [encode_output_loop_step _ _ h, encode_output_loop_step _ _ (by omega),
    encode_output_loop_step _ _ (by omega), encode_output_loop_step _ _ (by omega),
    encode_output_loop_step _ _ (by omega)]
  simp [encode_output_loop, base85_chars, e2, e3, e4]

theorem decode_output_eq (v : Int) (out : List (Fin 256)) :
    decode_output v out =
      out ++ [to_byte (v / 16777216 % 256), to_byte (v / 65536 % 256),
        to_byte (v / 256 % 256), to_byte (v % 256)] := by
  have w0 : wrap_int (v / 16777216 % 256) = v / 16777216 % 256 :=
    wrap_int_of_range (by omega)
  have w1 : wrap_int (v / 65536 % 256) = v / 65536 % 256 := wrap_int_of_range (by omega)
  have w2 : wrap_int (v / 256 % 256) = v / 256 % 256 := wrap_int_of_range (by omega)
  have w3 : wrap_int (v % 256) = v % 256 := wrap_int_of_range (by omega)
  have i1 : wrap_int 1 = 1 := by decide
  have i2 : wrap_int 2 = 2 := by decide
  have i3 : wrap_int 3 = 3 := by decide
  have i4 : wrap_int 4 = 4 := by decide
  simp [decode_output, decode_output_loop, i1, i2, i3, i4, w0, w1, w2, w3]

theorem decode_output_group (a b c d : Fin 256) (out : List (Fin 256)) :
    decode_output (group_value a b c d) out = out ++ [a, b, c, d] := by
  have ha := a.isLt
  have hb := b.isLt
  have hc := c.isLt
  have hd := d.isLt
  rw [decode_output_eq]
  have e0 : group_value a b c d / 16777216 % 256 = (a.val : Int) := by
    unfold group_value; omega
  have e1 : group_value a b c d / 65536 % 256 = (b.val : Int) := by
    unfold group_value; omega
  have e2 : group_value a b c d / 256 % 256 = (c.val : Int) := by
    unfold group_value; omega
  have e3 : group_value a b c d % 256 = (d.val : Int) := by
    unfold group_value; omega
  rw [e0, e1, e2, e3, to_byte_val, to_byte_val, to_byte_val, to_byte_val]

theorem group_value_range (a b c d : Fin 256) :
    0 ≤ group_value a b c d ∧ group_value a b c d ≤ 4294967295 := by
  have ha := a.isLt
  have hb := b.isLt
  have hc := c.isLt
  have hd := d.isLt
  unfold group_value; omega

/-! ## The loop of `encode` -/

theorem encode_loop_first (a : Fin 256) (rest out : List (Fin 256)) :
    encode_loop (a :: rest) 0 0 out = encode_loop rest ((a.val : Int) * 16777216) 1 out := by
  have ha := a.isLt
  have s : (2 : Int) ^ (8 * (3 - (0 : Int))).toNat = 16777216 := by decide
  have w1 : wrap_long ((a.val : Int) * 16777216) = (a.val : Int) * 16777216 :=
    wrap_long_of_range (by omega)
  have w2 : wrap_long (0 + (a.val : Int) * 16777216) = (a.val : Int) * 16777216 :=
    (wrap_long_of_range (by omega)).trans (by omega)
  have w3 : wrap_short (0 + 1) = 1 := by decide
  rw [encode_loop]
  simp only [s, w1, w2, w3]
  rw [if_neg (by decide)]

theorem encode_loop_second (b : Fin 256) (rest out : List (Fin 256)) (r : Int)
    (hr : 0 ≤ r ∧ r < 4294967296) :
    encode_loop (b :: rest) r 1 out = encode_loop rest (r + (b.val : Int) * 65536) 2 out := by
  have hb := b.isLt
  have s : (2 : Int) ^ (8 * (3 - (1 : Int))).toNat = 65536 := by decide
  have w1 : wrap_long ((b.val : Int) * 65536) = (b.val : Int) * 65536 :=
    wrap_long_of_range (by omega)
  have w2 : wrap_long (r + (b.val : Int) * 65536) = r + (b.val : Int) * 65536 :=
    wrap_long_of_range (by omega)
  have w3 : wrap_short (1 + 1) = 2 := by decide
  rw [encode_loop]
  simp only [s, w1, w2, w3]
  rw [if_neg (by decide)]

theorem encode_loop_third (c : Fin 256) (rest out : List (Fin 256)) (r : Int)
    (hr : 0 ≤ r ∧ r < 4294967296) :
    encode_loop (c :: rest) r 2 out = encode_loop rest (r + (c.val : Int) * 256) 3 out := by
  have hc := c.isLt
  have s : (2 : Int) ^ (8 * (3 - (2 : Int))).toNat = 256 := by decide
  have w1 : wrap_long ((c.val : Int) * 256) = (c.val : Int) * 256 :=
    wrap_long_of_range (by omega)
  have w2 : wrap_long (r + (c.val : Int) * 256) = r + (c.val : Int) * 256 :=
    wrap_long_of_range (by omega)
  have w3 : wrap_short (2 + 1) = 3 := by decide
  rw [encode_loop]
  simp only [s, w1, w2, w3]
  rw [if_neg (by decide)]

theorem encode_loop_fourth (d : Fin 256) (rest out : List (Fin 256)) (r : Int)
    (hr : 0 ≤ r ∧ r < 4294967296) :
    encode_loop (d :: rest) r 3 out =
      encode_loop rest 0 0 (encode_output (r + (d.val : Int)) out) := by
  have hd := d.isLt
  have s : (2 : Int) ^ (8 * (3 - (3 : Int))).toNat = 1 := by decide
  have w1 : wrap_long ((d.val : Int) * 1) = (d.val : Int) :=
    (wrap_long_of_range (by omega)).trans (by omega)
  have w2 : wrap_long (r + (d.val : Int)) = r + (d.val : Int) :=
    wrap_long_of_range (by omega)
  have w3 : wrap_short (3 + 1) = 4 := by decide
  rw [encode_loop]
  simp only [s, w1, w2, w3, if_true]

theorem encode_loop_group (a b c d : Fin 256) (rest out : List (Fin 256)) :
    encode_loop (a :: b :: c :: d :: rest) 0 0 out =
      encode_loop rest 0 0 (out ++ base85_chars (group_value a b c d)) := by
  have ha := a.isLt
  have hb := b.isLt
  have hc := c.isLt
  have hd := d.isLt
  rw [encode_loop_first, encode_loop_second _ _ _ _ (by omega),
    encode_loop_third _ _ _ _ (by omega), encode_loop_fourth _ _ _ _ (by omega),
    encode_output_eq _ (by omega)]
  rfl

/-- What `encode` has written before its final newline. -/
theorem encode_loop_groups : ∀ (x out : List (Fin 256)),
    (if (encode_loop x 0 0 out).2.1 ≠ 0 then
        encode_output (encode_loop x 0 0 out).1 (encode_loop x 0 0 out).2.2
      else (encode_loop x 0 0 out).2.2) = out ++ encoded_groups x
  | [], out => by simp [encode_loop, encoded_groups]
  | [a], out => by
    have ha := a.isLt
    rw [encode_loop_first]
    simp only [encode_loop, ne_eq, one_ne_zero, not_false_eq_true, if_true]
    rw [encode_output_eq _ (by omega)]
    simp [encoded_groups, group_value]
  | [a, b], out => by
    have ha := a.isLt
    have hb := b.isLt
    rw [encode_loop_first, encode_loop_second _ _ _ _ (by omega)]
    simp only [encode_loop, ne_eq, OfNat.ofNat_ne_zero, not_false_eq_true, if_true]
    rw [encode_output_eq _ (by omega)]
    simp [encoded_groups, group_value]
  | [a, b, c], out => by
    have ha := a.isLt
    have hb := b.isLt
    have hc := c.isLt
    rw [encode_loop_first, encode_loop_second _ _ _ _ (by omega),
      encode_loop_third _ _ _ _ (by omega)]
    simp only [encode_loop, ne_eq, OfNat.ofNat_ne_zero, not_false_eq_true, if_true]
    rw [encode_output_eq _ (by omega)]
    simp [encoded_groups, group_value]
  | a :: b :: c :: d :: rest, out => by
    rw [encode_loop_group, encode_loop_groups rest, encoded_groups, List.append_assoc]

theorem encode_eq (x : List (Fin 256)) : encode x = (0, encoded_groups x ++ [10]) := by
  have h := encode_loop_groups x []
  simp only [List.nil_append] at h
  simp only [encode, h]

/-! ## The loop of `decode` -/

theorem decode_loop_char (d : Int) (hd : 0 ≤ d ∧ d < 85) (rest out : List (Fin 256))
    (result powers char_counter : Int)
    (hr : 0 ≤ result ∧ result < 4294967296)
    (hp : 0 ≤ d * powers ∧ d * powers < 4294967296)
    (hc : 0 ≤ char_counter ∧ char_counter < 5) :
    decode_loop (to_byte (33 + d) :: rest) result powers char_counter out =
      if char_counter + 1 = 5 then
        if result + d * powers > 4294967295 then (1, out)
        else decode_loop rest 0 1 0 (decode_output (result + d * powers) out)
      else
        decode_loop rest (result + d * powers) (wrap_int (powers * 85)) (char_counter + 1)
          out := by
  have hv : ((to_byte (33 + d)).val : Int) = 33 + d := val_to_byte (by omega)
  have hs : isspace (33 + d) = false := by
    simp only [isspace, decide_eq_false_iff_not]; omega
  have hrange : ¬ (33 + d < 33 ∨ 33 + d > 125) := by omega
  have w1 : wrap_long (33 + d - 33) = d := (wrap_long_of_range (by omega)).trans (by omega)
  have w2 : wrap_long (d * powers) = d * powers := wrap_long_of_range (by omega)
  have w3 : wrap_long (result + d * powers) = result + d * powers :=
    wrap_long_of_range (by omega)
  have w4 : wrap_short (char_counter + 1) = char_counter + 1 :=
    wrap_short_of_range (by omega)
  rw [decode_loop]
  simp only [hv, hs, hrange, w1, w2, w3, w4, if_false, Bool.false_eq_true]

theorem decode_loop_space (b : Fin 256) (hb : isspace (b.val : Int) = true)
    (rest out : List (Fin 256)) (result powers char_counter : Int) :
    decode_loop (b :: rest) result powers char_counter out =
      decode_loop rest result powers char_counter out := by
  rw [decode_loop]
  simp only [hb, if_true]

theorem decode_loop_group (v : Int) (hv : 0 ≤ v ∧ v ≤ 4294967295)
    (rest out : List (Fin 256)) :
    decode_loop (base85_chars v ++ rest) 0 1 0 out =
      decode_loop rest 0 1 0 (decode_output v out) := by
  have p1 : wrap_int (1 * 85) = 85 := by decide
  have p2 : wrap_int (85 * 85) = 7225 := by decide
  have p3 : wrap_int (7225 * 85) = 614125 := by decide
  have p4 : wrap_int (614125 * 85) = 52200625 := by decide
  have hsum : 0 + v % 85 * 1 + v / 85 % 85 * 85 + v / 7225 % 85 * 7225 +
      v / 614125 % 85 * 614125 + v / 52200625 % 85 * 52200625 = v := by omega
  simp only [base85_chars, List.cons_append, List.nil_append]
  rw [decode_loop_char _ (by omega) _ _ _ _ _ (by omega) (by omega) (by omega),
    if_neg (by decide), p1,
    decode_loop_char _ (by omega) _ _ _ _ _ (by omega) (by omega) (by omega),
    if_neg (by decide), p2,
    decode_loop_char _ (by omega) _ _ _ _ _ (by omega) (by omega) (by omega),
    if_neg (by decide), p3,
    decode_loop_char _ (by omega) _ _ _ _ _ (by omega) (by omega) (by omega),
    if_neg (by decide), p4,
    decode_loop_char _ (by omega) _ _ _ _ _ (by omega) (by omega) (by omega),
    if_pos (by decide), hsum, if_neg (by omega)]

theorem zero_padding_group (a b c d : Fin 256) (rest : List (Fin 256)) :
    zero_padding (a :: b :: c :: d :: rest) = zero_padding rest := by
  unfold zero_padding
  congr 1
  simp only [List.length_cons]
  omega

theorem decode_loop_groups : ∀ (x out : List (Fin 256)),
    decode_loop (encoded_groups x ++ [10]) 0 1 0 out = (0, out ++ (x ++ zero_padding x))
  | [], out => by
    rw [encoded_groups, List.nil_append, decode_loop_space _ (by decide)]
    simp [decode_loop, zero_padding]
  | [a], out => by
    rw [encoded_groups, decode_loop_group _ (group_value_range _ _ _ _),
      decode_output_group, decode_loop_space _ (by decide)]
    simp [decode_loop, zero_padding]
  | [a, b], out => by
    rw [encoded_groups, decode_loop_group _ (group_value_range _ _ _ _),
      decode_output_group, decode_loop_space _ (by decide)]
    simp [decode_loop, zero_padding]
  | [a, b, c], out => by
    rw [encoded_groups, decode_loop_group _ (group_value_range _ _ _ _),
      decode_output_group, decode_loop_space _ (by decide)]
    simp [decode_loop, zero_padding]
  | a :: b :: c :: d :: rest, out => by
    rw [encoded_groups, List.append_assoc,
      decode_loop_group _ (group_value_range _ _ _ _), decode_output_group,
      decode_loop_groups rest, zero_padding_group]
    simp

/-! ## The round trip -/

/-- C22, the ASCII85 round trip: for every byte sequence `x`, `encode` returns 0, and
`decode` run on what `encode` wrote returns 0 and writes `x` followed by zero bytes up to
the next multiple of 4 in length, hence `x` itself when its length is a multiple of 4;
a group of four bytes of big-endian value `v` is written as the five characters
`33 + (v / 85 ^ i) mod 85` for `i = 0..4`, in this order, followed by the final
newline. -/
theorem round_trip (x : List (Fin 256)) :
    (encode x).1 = 0 ∧
    decode (encode x).2 = (0, x ++ List.replicate ((4 - x.length % 4) % 4) 0) ∧
    (x.length % 4 = 0 → decode (encode x).2 = (0, x)) ∧
    (∀ a b c d : Fin 256,
      0 ≤ group_value a b c d ∧ group_value a b c d < 2 ^ 32 ∧
      (encode [a, b, c, d]).2 =
        [to_byte (33 + group_value a b c d / 85 ^ 0 % 85),
          to_byte (33 + group_value a b c d / 85 ^ 1 % 85),
          to_byte (33 + group_value a b c d / 85 ^ 2 % 85),
          to_byte (33 + group_value a b c d / 85 ^ 3 % 85),
          to_byte (33 + group_value a b c d / 85 ^ 4 % 85), 10]) := by
  have hd : decode (encode x).2 = (0, x ++ zero_padding x) := by
    rw [encode_eq, decode, decode_loop_groups, List.nil_append]
  refine ⟨by rw [encode_eq], hd, ?_, ?_⟩
  · intro h
    rw [hd, zero_padding, h]
    simp
  · intro a b c d
    have hv := group_value_range a b c d
    refine ⟨hv.1, by omega, ?_⟩
    rw [encode_eq]
    simp [encoded_groups, base85_chars]

/-- Witness of `round_trip`: the five bytes `1 2 3 4 5` come back followed by three zero
bytes, the four bytes `1 2 3 4` come back as they are, and `1 2 3 4`, the number 16909060,
is written as the characters `+?N<!` and a newline. -/
theorem round_trip_witness :
    decode (encode [1, 2, 3, 4, 5]).2 = (0, [1, 2, 3, 4, 5, 0, 0, 0]) ∧
    ([1, 2, 3, 4] : List (Fin 256)).length % 4 = 0 ∧
    decode (encode [1, 2, 3, 4]).2 = (0, [1, 2, 3, 4]) ∧
    (encode [1, 2, 3, 4]).2 = [43, 63, 78, 60, 33, 10] :=
  ⟨(round_trip [1, 2, 3, 4, 5]).2.1, by decide, (round_trip [1, 2, 3, 4]).2.2.1 (by decide),
    ((round_trip []).2.2.2 1 2 3 4).2.2⟩

end Ascii85
